import Mathlib

/-!
Verification development for the scoutfs block allocation and file-data
mapping core (src/buddy.c and src/filerw.c).

Embedding conventions:
* Machine integers are modelled by `Nat`.  All the arithmetic performed by
  the source on block numbers, bit offsets and counters stays far below
  2^32 / 2^64 on the in-range inputs our theorems quantify over, so no
  wrap-around is modelled; theorems carry explicit in-range hypotheses
  wherever the source relies on them.
* Little-endian bitmaps (`bits` arrays accessed through `test_bit_le`,
  `set_bit_le`, ...) are modelled as a `Nat` whose binary digits are the
  bits of the map.
* The block layer (block.c, outside this repository's sources here) is
  collapsed: a block reference is modelled by the referenced block's
  content (`Option` = the `blkno == 0` absent reference), reads and
  copy-on-write dirtying always succeed on present references and are the
  identity on content.  `scoutfs_block_read_ref` / `scoutfs_block_dirty_ref`
  of an absent reference fails with EIO.
* The C sentinel `INT_MAX` of `find_next_buddy_bit` / `find_first_fit` is
  modelled by `Option` (`none` = no fit).
* C loops are translated to structural recursions; where a loop's bound is
  data dependent the recursion carries an explicit fuel that is provably
  sufficient (lemmas below), so that every definition reduces in the kernel.
-/

namespace Scoutfs

/-- Errno values returned by the modelled functions. -/
inductive Err where
  | EINVAL
  | EIO
  | ENOSPC
deriving DecidableEq, Repr

/-! ### Little-endian bitmap primitives (linux bitops, collapsed to Nat) -/

/-- test_bit_le -/
def test_bit_le (bits i : Nat) : Bool := bits.testBit i

/-- set_bit_le -/
def set_bit_le (bits i : Nat) : Nat := bits ||| 2 ^ i

/-- clear_bit_le -/
def clear_bit_le (bits i : Nat) : Nat :=
  if bits.testBit i then bits ^^^ 2 ^ i else bits

/-- Fuel-driven scan for `find_next_bit_le`; fuel = size - cursor. -/
def find_next_go (bits size : Nat) : Nat → Nat → Nat
  | 0, _ => size
  | fuel + 1, s => if bits.testBit s then s else find_next_go bits size fuel (s + 1)

/-- find_next_bit_le: least set bit index in [offset, size), else size. -/
def find_next_bit_le (bits size offset : Nat) : Nat :=
  find_next_go bits size (size - offset) offset

/-- __ffs64 (undefined in C on 0; the model returns 64 there). -/
def __ffs64 (n : Nat) : Nat := find_next_bit_le n 64 0

/-- Downward scan for fls64. -/
def fls_go (n : Nat) : Nat → Nat
  | 0 => 0
  | i + 1 => if n.testBit i then i + 1 else fls_go n i

/-- fls64: one past the highest set bit, 0 for 0. -/
def fls64 (n : Nat) : Nat := fls_go n 64

/-- Number of set bits of `bits` within `[lo, lo + len)`. -/
def popRange (bits lo : Nat) : Nat → Nat
  | 0 => 0
  | len + 1 => popRange bits lo len + (if bits.testBit (lo + len) then 1 else 0)

/-- Bump a list entry (le32/le64 counter increment). -/
def listIncAt (l : List Nat) (i : Nat) : List Nat := l.set i (l.getD i 0 + 1)

/-- Decrement a list entry (le32/le64 counter decrement; counters stay
positive in valid states, matching the unsigned C counters). -/
def listDecAt (l : List Nat) (i : Nat) : List Nat := l.set i (l.getD i 0 - 1)

/-! ### Data model -/

/-- On-disk geometry constants (format.h) together with the super-block
fields `buddy_blocks` and `total_blocks` that every function reads but
none of the modelled functions writes. -/
structure Geo where
  ORDERS : Nat
  ORDER0_BITS : Nat
  SLOTS : Nat
  BM_BLKNO : Nat
  BM_NR : Nat
  buddy_blocks : Nat
  total_blocks : Nat
  MAP_SHIFT : Nat
  MAP_COUNT : Nat
deriving DecidableEq, Repr

/-- struct scoutfs_buddy_block: the per-order bitmaps (one flat `bits`
array) plus the cached per-order popcounts. -/
structure scoutfs_buddy_block where
  bits : Nat
  order_counts : List Nat
deriving DecidableEq, Repr

/-- One slot of the indirect block: the cached `free_orders` byte and the
referenced buddy block (`none` = `ref.blkno == 0`, slot not created yet). -/
structure scoutfs_buddy_slot where
  free_orders : Nat
  bud : Option scoutfs_buddy_block
deriving DecidableEq, Repr

/-- struct scoutfs_buddy_indirect. -/
structure scoutfs_buddy_indirect where
  slots : List scoutfs_buddy_slot
  order_totals : List Nat
deriving DecidableEq, Repr

/-- The allocator state visible to buddy.c: the dirty and stable self-host
bitmap blocks and the dirty and stable indirect blocks (each `none` when
the corresponding super-block reference has `blkno == 0`). -/
structure AllocState where
  dirty_bm : Option Nat
  stable_bm : Option Nat
  dirty_ind : Option scoutfs_buddy_indirect
  stable_ind : Option scoutfs_buddy_indirect
deriving DecidableEq, Repr

/-- The three device regions. -/
inductive Region where
  | PAIR
  | BM
  | BUDDY
deriving DecidableEq, Repr

/-! ### buddy.c helpers -/

/-- blkno_region -/
def blkno_region (g : Geo) (blkno : Nat) : Region :=
  if blkno < g.BM_BLKNO + g.BM_NR then .PAIR
  else if blkno < g.BM_BLKNO + g.BM_NR + g.buddy_blocks then .BM
  else .BUDDY

/-- first_blkno -/
def first_blkno (g : Geo) : Nat := g.BM_BLKNO + g.BM_NR + g.buddy_blocks

/-- indirect_slot -/
def indirect_slot (g : Geo) (blkno : Nat) : Nat :=
  (blkno - first_blkno g) / g.ORDER0_BITS

/-- slot_buddy_blkno -/
def slot_buddy_blkno (g : Geo) (sl order nr : Nat) : Nat :=
  first_blkno g + sl * g.ORDER0_BITS + (nr <<< order)

/-- slot_count -/
def slot_count (g : Geo) (sl : Nat) : Nat :=
  min (g.total_blocks - (first_blkno g + sl * g.ORDER0_BITS)) g.ORDER0_BITS

/-- buddy_bit -/
def buddy_bit (g : Geo) (blkno : Nat) : Nat :=
  (blkno - first_blkno g) % g.ORDER0_BITS

/-- valid_order -/
def valid_order (g : Geo) (blkno : Nat) (order : Nat) : Bool :=
  buddy_bit g blkno &&& (2 ^ order - 1) == 0

/-- order_off -/
def order_off (g : Geo) (order : Nat) : Nat :=
  if order = 0 then 0
  else 2 * g.ORDER0_BITS - g.ORDER0_BITS / 2 ^ (order - 1)

/-- order_nr -/
def order_nr (g : Geo) (order nr : Nat) : Nat := order_off g order + nr

/-- test_buddy_bit -/
def test_buddy_bit (g : Geo) (bud : scoutfs_buddy_block) (order nr : Nat) : Bool :=
  test_bit_le bud.bits (order_nr g order nr)

/-- Loop body of test_buddy_bit_or_higher; fuel = ORDERS - i. -/
def tbh_go (g : Geo) (bud : scoutfs_buddy_block) : Nat → Nat → Nat → Bool
  | _, _, 0 => false
  | i, nr, fuel + 1 =>
    if test_buddy_bit g bud i nr then true else tbh_go g bud (i + 1) (nr >>> 1) fuel

/-- test_buddy_bit_or_higher -/
def test_buddy_bit_or_higher (g : Geo) (bud : scoutfs_buddy_block) (order nr : Nat) : Bool :=
  tbh_go g bud order nr (g.ORDERS - order)

/-- set_buddy_bit (test_and_set with count/total maintenance). -/
def set_buddy_bit (g : Geo) (ind : scoutfs_buddy_indirect) (bud : scoutfs_buddy_block)
    (order nr : Nat) : scoutfs_buddy_indirect × scoutfs_buddy_block :=
  if test_buddy_bit g bud order nr then (ind, bud)
  else ({ ind with order_totals := listIncAt ind.order_totals order },
        { bits := set_bit_le bud.bits (order_nr g order nr),
          order_counts := listIncAt bud.order_counts order })

/-- clear_buddy_bit (test_and_clear with count/total maintenance). -/
def clear_buddy_bit (g : Geo) (ind : scoutfs_buddy_indirect) (bud : scoutfs_buddy_block)
    (order nr : Nat) : scoutfs_buddy_indirect × scoutfs_buddy_block :=
  if test_buddy_bit g bud order nr then
    ({ ind with order_totals := listDecAt ind.order_totals order },
     { bits := clear_bit_le bud.bits (order_nr g order nr),
       order_counts := listDecAt bud.order_counts order })
  else (ind, bud)

/-- find_next_buddy_bit (INT_MAX modelled as none). -/
def find_next_buddy_bit (g : Geo) (bud : scoutfs_buddy_block) (order nr : Nat) : Option Nat :=
  let size := order_off g (order + 1)
  let r := find_next_bit_le bud.bits size (order_nr g order nr)
  if size ≤ r then none else some (r - order_off g order)

/-- Upward fold of update_free_orders. -/
def ufo_go (bud : scoutfs_buddy_block) : Nat → Nat
  | 0 => 0
  | i + 1 => ufo_go bud i ||| ((if bud.order_counts.getD i 0 ≠ 0 then 1 else 0) <<< i)

/-- update_free_orders: the free_orders byte computed from order_counts. -/
def update_free_orders (g : Geo) (bud : scoutfs_buddy_block) : Nat := ufo_go bud g.ORDERS

/-! ### Self-host bitmap allocator -/

/-- The do-while scan of bitmap_alloc; fuel = size + 1 suffices (the cursor
strictly increases on every repeated iteration). -/
def bitmap_scan_go (bm st size : Nat) : Nat → Nat → Nat
  | _, 0 => size
  | s, fuel + 1 =>
    let d := find_next_bit_le bm size s
    let s' := find_next_bit_le st size d
    if d = s' then d else bitmap_scan_go bm st size s' fuel

/-- First index set in both bitmaps (size if none), per the source loop. -/
def bitmap_find_common (bm st size : Nat) : Nat :=
  bitmap_scan_go bm st size 0 (size + 1)

/-- bitmap_alloc -/
def bitmap_alloc (g : Geo) (s : AllocState) : Except Err Nat × AllocState :=
  match s.dirty_bm, s.stable_bm with
  | some bm, some st_bm =>
    let size := g.buddy_blocks
    let d := bitmap_find_common bm st_bm size
    if size ≤ d then (.error .ENOSPC, s)
    else (.ok (g.BM_BLKNO + g.BM_NR + d), { s with dirty_bm := some (clear_bit_le bm d) })
  | _, _ => (.error Err.EIO, s)

/-- bitmap_free -/
def bitmap_free (g : Geo) (s : AllocState) (blkno : Nat) : Except Err Unit × AllocState :=
  match s.dirty_bm with
  | none => (.error Err.EIO, s)
  | some bm =>
    let nr := blkno - (g.BM_BLKNO + g.BM_NR)
    (.ok (), { s with dirty_bm := some (set_bit_le bm nr) })

/-! ### Lazy buddy block creation -/

/-- First initialization loop of dirty_buddy_block: mark the run of
highest-order extents while `count > size`; fuel = count suffices. -/
def slot_init_high (g : Geo) : scoutfs_buddy_indirect → scoutfs_buddy_block → Nat → Nat → Nat →
    scoutfs_buddy_indirect × scoutfs_buddy_block × Nat × Nat
  | ind, bud, count, nr, 0 => (ind, bud, count, nr)
  | ind, bud, count, nr, fuel + 1 =>
    if 2 ^ (g.ORDERS - 1) < count then
      let p := set_buddy_bit g ind bud (g.ORDERS - 1) nr
      slot_init_high g p.1 p.2 (count - 2 ^ (g.ORDERS - 1)) (nr + 1) fuel
    else (ind, bud, count, nr)

/-- Second initialization loop of dirty_buddy_block: walk orders ORDERS-1
down to 0 emitting one bit per set bit of the remaining count. -/
def slot_init_orders (g : Geo) : scoutfs_buddy_indirect → scoutfs_buddy_block → Nat → Nat → Nat →
    scoutfs_buddy_indirect × scoutfs_buddy_block
  | ind, bud, count, nr, 0 =>
    if count &&& 1 ≠ 0 then set_buddy_bit g ind bud 0 nr else (ind, bud)
  | ind, bud, count, nr, o + 1 =>
    if count &&& 2 ^ (o + 1) ≠ 0 then
      let p := set_buddy_bit g ind bud (o + 1) nr
      slot_init_orders g p.1 p.2 count ((nr + 1) <<< 1) o
    else slot_init_orders g ind bud count (nr <<< 1) o

/-- dirty_buddy_block: return the slot's dirty buddy block, creating and
initializing it (allocating its blkno from the self-host bitmap) when the
slot is unused.  On error the state is unchanged. -/
def dirty_buddy_block (g : Geo) (s : AllocState) (ind : scoutfs_buddy_indirect) (sl : Nat) :
    Except Err (scoutfs_buddy_block × scoutfs_buddy_indirect × AllocState) :=
  match (ind.slots.getD sl ⟨0, none⟩).bud with
  | some bud => .ok (bud, ind, s)
  | none =>
    match bitmap_alloc g s with
    | (.error e, _) => .error e
    | (.ok _blkno, s') =>
      let bud0 : scoutfs_buddy_block := ⟨0, List.replicate g.ORDERS 0⟩
      let count := slot_count g sl
      let q := slot_init_high g ind bud0 count 0 count
      let p := slot_init_orders g q.1 q.2.1 q.2.2.1 q.2.2.2 (g.ORDERS - 1)
      let slot' : scoutfs_buddy_slot := ⟨update_free_orders g p.2, some p.2⟩
      .ok (p.2, { p.1 with slots := p.1.slots.set sl slot' }, s')

/-! ### find_first_fit -/

/-- The C sentinel used for exhausted per-order cursors. -/
def INT_MAX : Nat := 2 ^ 31 - 1

/-- Loop state of find_first_fit: the per-order cursors, the best
candidate so far as (blkno, order, nr) (`none` = the initial U64_MAX
blkno), and the made_progress flag. -/
structure FffState where
  nrs : List Nat
  best : Option (Nat × Nat × Nat)
  progress : Bool
deriving DecidableEq, Repr

/-- One inner `for` pass of find_first_fit over orders i..ORDERS-1
(fuel = ORDERS - i). -/
def fff_pass (g : Geo) (sl : Nat) (bud : scoutfs_buddy_block)
    (st_bud : Option scoutfs_buddy_block) : FffState → Nat → Nat → FffState
  | st, _, 0 => st
  | st, i, fuel + 1 =>
    let st' :=
      match find_next_buddy_bit g bud i (st.nrs.getD i 0) with
      | none => { st with nrs := st.nrs.set i INT_MAX }
      | some nr =>
        let stA : FffState := { nrs := st.nrs.set i nr, best := st.best, progress := true }
        match st_bud with
        | none => { stA with nrs := stA.nrs.set i (nr + 1) }
        | some sb =>
          if ! test_buddy_bit_or_higher g sb i nr then
            { stA with nrs := stA.nrs.set i (nr + 1) }
          else
            let bno := slot_buddy_blkno g sl i nr
            match stA.best with
            | none => { stA with best := some (bno, i, nr) }
            | some b => if bno < b.1 then { stA with best := some (bno, i, nr) } else stA
    fff_pass g sl bud st_bud st' (i + 1) fuel

/-- Fuel which provably suffices for the outer do-while of find_first_fit. -/
def fffFuel (g : Geo) : Nat := g.ORDERS * (2 * g.ORDER0_BITS + 2) + 1

/-- Outer do-while of find_first_fit. -/
def fff_loop (g : Geo) (sl : Nat) (bud : scoutfs_buddy_block)
    (st_bud : Option scoutfs_buddy_block) (order : Nat) : FffState → Nat → FffState
  | st, 0 => st
  | st, fuel + 1 =>
    let st' := fff_pass g sl bud st_bud { st with progress := false } order (g.ORDERS - order)
    if st'.best.isNone && st'.progress then fff_loop g sl bud st_bud order st' fuel
    else st'

/-- find_first_fit: `some (nr, found_order)` of the lowest-blkno dirty free
bit that is also free in the stable buddy block, else none (INT_MAX). -/
def find_first_fit (g : Geo) (sl : Nat) (bud : scoutfs_buddy_block)
    (st_bud : Option scoutfs_buddy_block) (order : Nat) : Option (Nat × Nat) :=
  let fin := fff_loop g sl bud st_bud order ⟨List.replicate g.ORDERS 0, none, false⟩ (fffFuel g)
  fin.best.map fun t => (t.2.2, t.2.1)

/-! ### alloc_slot / alloc_order / buddy_alloc -/

/-- The split loop of alloc_slot: set the right-buddy bits of orders
found-1 down to order (steps = found - order; nr arrives pre-shifted). -/
def split_go (g : Geo) (order : Nat) : scoutfs_buddy_indirect → scoutfs_buddy_block → Nat → Nat →
    scoutfs_buddy_indirect × scoutfs_buddy_block
  | ind, bud, _, 0 => (ind, bud)
  | ind, bud, nr, steps + 1 =>
    let p := set_buddy_bit g ind bud (order + steps) (nr ||| 1)
    split_go g order p.1 p.2 (nr <<< 1) steps

/-- alloc_slot -/
def alloc_slot (g : Geo) (s : AllocState) (ind : scoutfs_buddy_indirect) (sl : Nat)
    (st_slot : scoutfs_buddy_slot) (order : Nat) :
    (Except Err Nat) × scoutfs_buddy_indirect × AllocState :=
  match dirty_buddy_block g s ind sl with
  | .error e => (.error e, ind, s)
  | .ok (bud, ind1, s1) =>
    match find_first_fit g sl bud st_slot.bud order with
    | none => (.error .ENOSPC, ind1, s1)
    | some (nr, found) =>
      let blkno := slot_buddy_blkno g sl found nr
      let p := clear_buddy_bit g ind1 bud found nr
      let q := split_go g order p.1 p.2 (nr <<< 1) (found - order)
      let slot' : scoutfs_buddy_slot := ⟨update_free_orders g q.2, some q.2⟩
      (.ok blkno, { q.1 with slots := q.1.slots.set sl slot' }, s1)

/-- The slot loop of alloc_order (fuel = SLOTS - i); continues over slots
whose cached free_orders rule them out or whose alloc_slot says ENOSPC,
breaks on success or any other error.  With all slots exhausted the last
stored errno is ENOSPC. -/
def alloc_order_go (g : Geo) (order : Nat) (st_ind : scoutfs_buddy_indirect) :
    AllocState → scoutfs_buddy_indirect → Nat → Nat →
    (Except Err Nat) × scoutfs_buddy_indirect × AllocState
  | s, ind, _, 0 => (.error .ENOSPC, ind, s)
  | s, ind, i, fuel + 1 =>
    let mask := 2 ^ 32 - 2 ^ order
    if mask &&& (ind.slots.getD i ⟨0, none⟩).free_orders = 0 ∨
        mask &&& (st_ind.slots.getD i ⟨0, none⟩).free_orders = 0 then
      alloc_order_go g order st_ind s ind (i + 1) fuel
    else
      match alloc_slot g s ind i (st_ind.slots.getD i ⟨0, none⟩) order with
      | (.error .ENOSPC, ind', s') => alloc_order_go g order st_ind s' ind' (i + 1) fuel
      | r => r

/-- alloc_order -/
def alloc_order (g : Geo) (s : AllocState) (order : Nat) : (Except Err Nat) × AllocState :=
  match s.dirty_ind, s.stable_ind with
  | some ind, some st_ind =>
    let r := alloc_order_go g order st_ind s ind 0 g.SLOTS
    (r.1, { r.2.2 with dirty_ind := some r.2.1 })
  | _, _ => (.error Err.EIO, s)

/-- The descending-order retry loop of buddy_alloc. -/
def buddy_alloc_go (g : Geo) : AllocState → Nat → (Except Err (Nat × Nat)) × AllocState
  | s, 0 =>
    match alloc_order g s 0 with
    | (.ok b, s') => (.ok (b, 0), s')
    | (.error e, s') => (.error e, s')
  | s, o + 1 =>
    match alloc_order g s (o + 1) with
    | (.ok b, s') => (.ok (b, o + 1), s')
    | (.error .ENOSPC, s') => buddy_alloc_go g s' o
    | (.error e, s') => (.error e, s')

/-- buddy_alloc: returns (blkno, granted order) on success. -/
def buddy_alloc (g : Geo) (s : AllocState) (order : Nat) :
    (Except Err (Nat × Nat)) × AllocState :=
  if g.ORDERS ≤ order then (.error .EINVAL, s) else buddy_alloc_go g s order

/-- scoutfs_buddy_alloc (alloc_region with REGION_BUDDY). -/
def scoutfs_buddy_alloc (g : Geo) (s : AllocState) (order : Nat) :
    (Except Err (Nat × Nat)) × AllocState :=
  buddy_alloc g s order

/-! ### buddy_free and friends -/

/-- The merge loop of buddy_free (fuel = ORDERS - 1 - i): clear the free
buddy and ascend while one exists below the top order. -/
def merge_go (g : Geo) : scoutfs_buddy_indirect → scoutfs_buddy_block → Nat → Nat → Nat →
    scoutfs_buddy_indirect × scoutfs_buddy_block × Nat × Nat
  | ind, bud, i, nr, 0 => (ind, bud, i, nr)
  | ind, bud, i, nr, fuel + 1 =>
    if test_buddy_bit g bud i (nr ^^^ 1) then
      let p := clear_buddy_bit g ind bud i (nr ^^^ 1)
      merge_go g p.1 p.2 (i + 1) (nr >>> 1) fuel
    else (ind, bud, i, nr)

/-- buddy_free -/
def buddy_free (g : Geo) (s : AllocState) (blkno order : Nat) :
    (Except Err Unit) × AllocState :=
  if g.ORDERS ≤ order ∨ valid_order g blkno order = false then (.error .EINVAL, s)
  else
    match s.dirty_ind with
    | none => (.error Err.EIO, s)
    | some ind =>
      let sl := indirect_slot g blkno
      match (ind.slots.getD sl ⟨0, none⟩).bud with
      | none => (.error Err.EIO, s)
      | some bud =>
        let nr := buddy_bit g blkno >>> order
        let m := merge_go g ind bud order nr (g.ORDERS - 1 - order)
        let p := set_buddy_bit g m.1 m.2.1 m.2.2.1 m.2.2.2
        let slot' : scoutfs_buddy_slot := ⟨update_free_orders g p.2, some p.2⟩
        (.ok (), { s with dirty_ind := some { p.1 with slots := p.1.slots.set sl slot' } })

/-- scoutfs_buddy_free (region dispatch; PAIR frees are a no-op). -/
def scoutfs_buddy_free (g : Geo) (s : AllocState) (blkno order : Nat) :
    (Except Err Unit) × AllocState :=
  match blkno_region g blkno with
  | .PAIR => (.ok (), s)
  | .BM => bitmap_free g s blkno
  | .BUDDY => buddy_free g s blkno order

/-- min3_t -/
def min3 (a b c : Nat) : Nat := min a (min b c)

/-- The loop of scoutfs_buddy_free_extent (fuel = count suffices since at
least one block is freed per iteration).  The source BUG_ONs on a failing
free; the model keeps the returned state. -/
def free_extent_go (g : Geo) : AllocState → Nat → Nat → Nat → AllocState
  | s, _, _, 0 => s
  | s, blkno, count, fuel + 1 =>
    if count = 0 then s
    else
      let order := min3 (__ffs64 (buddy_bit g blkno)) (fls64 count - 1) (g.ORDERS - 1)
      let s' := (scoutfs_buddy_free g s blkno order).2
      free_extent_go g s' (blkno + 2 ^ order) (count - 2 ^ order) fuel

/-- scoutfs_buddy_free_extent -/
def scoutfs_buddy_free_extent (g : Geo) (s : AllocState) (blkno count : Nat) : AllocState :=
  free_extent_go g s blkno count count

/-- scoutfs_buddy_was_free: 1 when the order-sized extent at blkno was
free in the old stable transaction, 0 when it was not. -/
def scoutfs_buddy_was_free (g : Geo) (s : AllocState) (blkno order : Nat) : Except Err Nat :=
  if s.dirty_bm.isNone ∨ s.stable_bm.isNone then .error Err.EIO
  else
    match s.stable_ind with
    | none => .error Err.EIO
    | some ind =>
      let sl := indirect_slot g blkno
      match (ind.slots.getD sl ⟨0, none⟩).bud with
      | none => .ok 1
      | some bud =>
        let nr := buddy_bit g blkno >>> order
        .ok (if test_buddy_bit_or_higher g bud order nr then 1 else 0)

/-! ### filerw.c -/

/-- struct scoutfs_block_map (one block-mapping item's value). -/
structure scoutfs_block_map where
  blkno : List Nat
deriving DecidableEq, Repr

/-- A block map item's btree key, collapsed to (inode, iblock >> MAP_SHIFT)
since the type byte is the constant SCOUTFS_BMAP_KEY. -/
abbrev BKey := Nat × Nat

/-- set_bmap_key -/
def set_bmap_key (g : Geo) (ino iblock : Nat) : BKey := (ino, iblock >>> g.MAP_SHIFT)

/-- The per-volume file allocation reservoir. -/
structure Reservoir where
  file_alloc_blkno : Nat
  file_alloc_count : Nat
deriving DecidableEq, Repr

/-- The state filerw.c operates on: the allocator, the btree of block-map
items (association list, unique keys) and the reservoir. -/
structure FileState where
  alloc : AllocState
  btree : List (BKey × scoutfs_block_map)
  res : Reservoir
deriving DecidableEq, Repr

/-- btree lookup (scoutfs_btree_lookup / the read side of _update). -/
def bt_lookup : List (BKey × scoutfs_block_map) → BKey → Option scoutfs_block_map
  | [], _ => none
  | (k, v) :: t, q => if q = k then some v else bt_lookup t q

/-- Overwrite the value bound to a present key. -/
def bt_set : List (BKey × scoutfs_block_map) → BKey → scoutfs_block_map →
    List (BKey × scoutfs_block_map)
  | [], _, _ => []
  | (k, v) :: t, q, w => if q = k then (k, w) :: t else (k, v) :: bt_set t q w

/-- scoutfs_btree_insert (new key). -/
def bt_insert (l : List (BKey × scoutfs_block_map)) (k : BKey) (v : scoutfs_block_map) :
    List (BKey × scoutfs_block_map) := (k, v) :: l

/-- scoutfs_btree_delete. -/
def bt_delete : List (BKey × scoutfs_block_map) → BKey → List (BKey × scoutfs_block_map)
  | [], _ => []
  | (k, v) :: t, q => if q = k then t else (k, v) :: bt_delete t q

/-- Pop one block off the reservoir (the tail of alloc_file_block). -/
def afb_pop (fs : FileState) : (Except Err Nat) × FileState :=
  if fs.res.file_alloc_count ≠ 0 then
    (.ok fs.res.file_alloc_blkno,
     { fs with res := ⟨fs.res.file_alloc_blkno + 1, fs.res.file_alloc_count - 1⟩ })
  else (.error .ENOSPC, fs)

/-- alloc_file_block: refill the reservoir from a high-order buddy
allocation when empty, then pop one block.  The re-check of the count
after the refill and the surplus free are kept from the source even
though the sequential model cannot race. -/
def alloc_file_block (g : Geo) (fs : FileState) : (Except Err Nat) × FileState :=
  if fs.res.file_alloc_count = 0 then
    match scoutfs_buddy_alloc g fs.alloc (g.ORDERS - 1) with
    | (.error e, a') => (.error e, { fs with alloc := a' })
    | (.ok (ab, aorder), a') =>
      let installed := fs.res.file_alloc_count == 0
      let fs1 := if installed then { fs with alloc := a', res := ⟨ab, 1 <<< aorder⟩ }
                 else { fs with alloc := a' }
      let r := afb_pop fs1
      let fs3 := if !installed && aorder != 0 then
                   { r.2 with alloc := (scoutfs_buddy_free g r.2.alloc ab aorder).2 }
                 else r.2
      (r.1, fs3)
  else afb_pop fs

/-- return_file_block (the source BUG_ON asserts LIFO use; not modelled). -/
def return_file_block (fs : FileState) (blkno : Nat) : FileState :=
  let b0 := if fs.res.file_alloc_count = 0 then blkno + 1 else fs.res.file_alloc_blkno
  { fs with res := ⟨b0 - 1, fs.res.file_alloc_count + 1⟩ }

/-- The rollback tail of map_writable_block: return an acquired block and
delete an inserted item before propagating the error. -/
def mwb_fail (fs : FileState) (key : BKey) (inserted : Bool) (new_blkno : Nat) (e : Err) :
    (Except Err Nat) × FileState :=
  let fs1 := if new_blkno ≠ 0 then return_file_block fs new_blkno else fs
  let fs2 := if inserted then { fs1 with btree := bt_delete fs1.btree key } else fs1
  (.error e, fs2)

/-- map_writable_block -/
def map_writable_block (g : Geo) (fs : FileState) (ino iblock : Nat) :
    (Except Err Nat) × FileState :=
  let key := set_bmap_key g ino iblock
  let step :=
    match bt_lookup fs.btree key with
    | some m => (m, fs, false)
    | none =>
      let z : scoutfs_block_map := ⟨List.replicate g.MAP_COUNT 0⟩
      (z, { fs with btree := bt_insert fs.btree key z }, true)
  let bmap0 := step.1
  let fs0 := step.2.1
  let inserted := step.2.2
  let i := iblock &&& (g.MAP_COUNT - 1)
  let old := bmap0.blkno.getD i 0
  let reuse : Option ((Except Err Nat) × FileState) :=
    if old ≠ 0 then
      match scoutfs_buddy_was_free g fs0.alloc old 0 with
      | .error e => some (mwb_fail fs0 key inserted 0 e)
      | .ok r => if 0 < r then some (.ok old, fs0) else none
    else none
  match reuse with
  | some out => out
  | none =>
    match alloc_file_block g fs0 with
    | (.error e, fs1) => mwb_fail fs1 key inserted 0 e
    | (.ok newb, fs1) =>
      match (if old ≠ 0 then scoutfs_buddy_free g fs1.alloc old 0 else (.ok (), fs1.alloc)) with
      | (.error e, a') => mwb_fail { fs1 with alloc := a' } key inserted newb e
      | (.ok _, a') =>
        let m' : scoutfs_block_map := ⟨bmap0.blkno.set i newb⟩
        (.ok newb, { fs1 with alloc := a', btree := bt_set fs1.btree key m' })

/-! ## Foundations for the proofs -/

instance {ε α : Type} [DecidableEq ε] [DecidableEq α] : DecidableEq (Except ε α)
  | .ok a, .ok b =>
    if h : a = b then .isTrue (by rw [h]) else .isFalse (by intro q; cases q; exact h rfl)
  | .ok _, .error _ => .isFalse (by intro q; cases q)
  | .error _, .ok _ => .isFalse (by intro q; cases q)
  | .error a, .error b =>
    if h : a = b then .isTrue (by rw [h]) else .isFalse (by intro q; cases q; exact h rfl)

/-- Geometry well-formedness: at least one order and a power-of-two
ORDER0_BITS large enough to host a bit of the top order. -/
def GeoWF (g : Geo) : Prop :=
  0 < g.ORDERS ∧ ∃ e, g.ORDER0_BITS = 2 ^ e ∧ g.ORDERS ≤ e + 1

/-! ### Bitmap primitive lemmas -/

theorem testBit_set_bit_le (b i j : Nat) :
    (set_bit_le b i).testBit j = (b.testBit j || decide (i = j)) := by
  simp [set_bit_le, Nat.testBit_or, Nat.testBit_two_pow]

theorem testBit_clear_bit_le (b i j : Nat) :
    (clear_bit_le b i).testBit j = (b.testBit j && !decide (i = j)) := by
  unfold clear_bit_le
  by_cases hij : i = j
  · subst hij
    cases h : b.testBit i <;> simp [h, Nat.testBit_xor, Nat.testBit_two_pow]
  · cases h : b.testBit i <;>
      simp [h, Nat.testBit_xor, Nat.testBit_two_pow_of_ne hij, hij]

theorem find_next_go_cases (bits size : Nat) :
    ∀ fuel s, fuel + s = size →
      find_next_go bits size fuel s = size ∨
        (s ≤ find_next_go bits size fuel s ∧ find_next_go bits size fuel s < size ∧
          bits.testBit (find_next_go bits size fuel s) = true) := by
  intro fuel
  induction fuel with
  | zero => intro s _; left; rfl
  | succ n ih =>
    intro s hs
    unfold find_next_go
    cases h : bits.testBit s with
    | true =>
      right
      rw [if_pos rfl]
      exact ⟨le_refl s, by omega, h⟩
    | false =>
      simp only [h, Bool.false_eq_true, if_false]
      rcases ih (s + 1) (by omega) with h1 | h1
      · left; exact h1
      · right; exact ⟨by omega, h1.2.1, h1.2.2⟩

theorem find_next_go_not_below (bits size : Nat) :
    ∀ fuel s j, s ≤ j → j < find_next_go bits size fuel s → j < s + fuel →
      bits.testBit j = false := by
  intro fuel
  induction fuel with
  | zero => intro s j _ _ h; omega
  | succ n ih =>
    intro s j hsj hjr hjf
    unfold find_next_go at hjr
    cases h : bits.testBit s with
    | true => simp only [h, if_true] at hjr; omega
    | false =>
      simp only [h, Bool.false_eq_true, if_false] at hjr
      rcases Nat.eq_or_lt_of_le hsj with rfl | hlt
      · exact h
      · exact ih (s + 1) j hlt hjr (by omega)

theorem find_next_bit_le_cases (bits size offset : Nat) (h : offset ≤ size) :
    find_next_bit_le bits size offset = size ∨
      (offset ≤ find_next_bit_le bits size offset ∧ find_next_bit_le bits size offset < size ∧
        bits.testBit (find_next_bit_le bits size offset) = true) := by
  exact find_next_go_cases bits size (size - offset) offset (by omega)

theorem find_next_bit_le_not_below (bits size offset : Nat) (j : Nat)
    (h0 : offset ≤ size)
    (h1 : offset ≤ j) (h2 : j < find_next_bit_le bits size offset) (h3 : j < size) :
    bits.testBit j = false :=
  find_next_go_not_below bits size (size - offset) offset j h1 h2 (by omega)

theorem find_next_bit_le_le (bits size offset : Nat) (h : offset ≤ size) :
    find_next_bit_le bits size offset ≤ size := by
  rcases find_next_bit_le_cases bits size offset h with h1 | h1
  · omega
  · omega

theorem find_next_bit_le_ge (bits size offset : Nat) (h : offset ≤ size) :
    offset ≤ find_next_bit_le bits size offset := by
  rcases find_next_bit_le_cases bits size offset h with h1 | h1
  · omega
  · exact h1.1

theorem find_next_bit_le_self (bits size offset : Nat) (h : offset < size)
    (hb : bits.testBit offset = true) : find_next_bit_le bits size offset = offset := by
  have hge := find_next_bit_le_ge bits size offset (by omega)
  rcases Nat.eq_or_lt_of_le hge with h1 | h1
  · omega
  · have := find_next_bit_le_not_below bits size offset offset (by omega) (le_refl _) h1 h
    rw [hb] at this; cases this

theorem find_next_bit_le_start_ge (bits size offset : Nat) (h : size ≤ offset) :
    find_next_bit_le bits size offset = size := by
  unfold find_next_bit_le
  have : size - offset = 0 := by omega
  rw [this]; rfl

/-! ### order_off arithmetic -/

theorem order_off_zero (g : Geo) : order_off g 0 = 0 := by simp [order_off]

theorem order_off_eq_of_pos (g : Geo) (e k : Nat) (hB : g.ORDER0_BITS = 2 ^ e)
    (hk0 : 0 < k) (hk : k ≤ e + 1) :
    order_off g k = 2 ^ (e + 1) - 2 ^ (e + 1 - k) := by
  unfold order_off
  have hk' : k ≠ 0 := by omega
  simp only [hk', if_false, hB]
  have hdiv : 2 ^ e / 2 ^ (k - 1) = 2 ^ (e - (k - 1)) := Nat.pow_div (by omega) (by norm_num)
  rw [hdiv]
  have h1 : e - (k - 1) = e + 1 - k := by omega
  have h2 : 2 * 2 ^ e = 2 ^ (e + 1) := by ring
  rw [h1, h2]

theorem order_off_succ (g : Geo) (e k : Nat) (hB : g.ORDER0_BITS = 2 ^ e) (hk : k ≤ e) :
    order_off g (k + 1) = order_off g k + 2 ^ (e - k) := by
  rcases Nat.eq_zero_or_pos k with rfl | hk0
  · rw [order_off_zero, order_off_eq_of_pos g e 1 hB (by omega) (by omega)]
    have : (2 : Nat) ^ (e + 1) = 2 ^ e + 2 ^ e := by ring
    simp [this]
  · rw [order_off_eq_of_pos g e k hB hk0 (by omega),
        order_off_eq_of_pos g e (k + 1) hB (by omega) (by omega)]
    have h1 : e + 1 - k = (e - k) + 1 := by omega
    have h2 : e + 1 - (k + 1) = e - k := by omega
    have h3 : (2 : Nat) ^ ((e - k) + 1) = 2 ^ (e - k) + 2 ^ (e - k) := by ring
    have h4 : 2 ^ (e - k) + 2 ^ (e - k) ≤ 2 ^ (e + 1) := by
      have : (e - k) + 1 ≤ e + 1 := by omega
      calc 2 ^ (e - k) + 2 ^ (e - k) = 2 ^ ((e - k) + 1) := by ring
        _ ≤ 2 ^ (e + 1) := Nat.pow_le_pow_right (by norm_num) this
    rw [h1, h2, h3]
    omega

theorem order_off_mono (g : Geo) (e : Nat) (hB : g.ORDER0_BITS = 2 ^ e) :
    ∀ a b, a ≤ b → b ≤ e + 1 → order_off g a ≤ order_off g b := by
  intro a b
  induction b with
  | zero =>
    intro hab _
    have ha : a = 0 := by omega
    rw [ha]
  | succ n ih =>
    intro hab hb
    rcases Nat.eq_or_lt_of_le hab with rfl | hlt
    · exact le_refl _
    · calc order_off g a ≤ order_off g n := ih (by omega) (by omega)
        _ ≤ order_off g (n + 1) := by
            rw [order_off_succ g e n hB (by omega)]
            exact Nat.le_add_right _ _

/-- Positions inside distinct orders' regions are distinct bits. -/
theorem order_nr_inj (g : Geo) (e : Nat) (hB : g.ORDER0_BITS = 2 ^ e)
    (k k' nr nr' : Nat) (hk : k ≤ e) (hk' : k' ≤ e)
    (hnr : nr < 2 ^ (e - k)) (hnr' : nr' < 2 ^ (e - k'))
    (heq : order_nr g k nr = order_nr g k' nr') : k = k' ∧ nr = nr' := by
  have key : ∀ a b na nb, a ≤ e → b ≤ e → na < 2 ^ (e - a) → nb < 2 ^ (e - b) → a < b →
      order_nr g a na ≠ order_nr g b nb := by
    intro a b na nb ha hb hna hnb hab
    have h1 : order_nr g a na < order_off g (a + 1) := by
      unfold order_nr
      rw [order_off_succ g e a hB ha]
      omega
    have h2 : order_off g (a + 1) ≤ order_off g b :=
      order_off_mono g e hB (a + 1) b (by omega) (by omega)
    have h3 : order_off g b ≤ order_nr g b nb := Nat.le_add_right _ _
    omega
  rcases Nat.lt_trichotomy k k' with h | h | h
  · exact absurd heq (key k k' nr nr' hk hk' hnr hnr' h)
  · subst h
    refine ⟨rfl, ?_⟩
    unfold order_nr at heq
    omega
  · exact absurd heq.symm (key k' k nr' nr hk' hk hnr' hnr h)

/-! ### test_buddy_bit_or_higher characterization -/

theorem tbh_go_spec (g : Geo) (bud : scoutfs_buddy_block) :
    ∀ fuel i nr, fuel = g.ORDERS - i →
      (tbh_go g bud i nr fuel = true ↔
        ∃ j, i ≤ j ∧ j < g.ORDERS ∧ test_buddy_bit g bud j (nr >>> (j - i)) = true) := by
  intro fuel
  induction fuel with
  | zero =>
    intro i nr hf
    simp only [tbh_go]
    constructor
    · intro h; cases h
    · rintro ⟨j, hij, hjO, _⟩; omega
  | succ n ih =>
    intro i nr hf
    unfold tbh_go
    cases h : test_buddy_bit g bud i nr with
    | true =>
      simp only [h, if_true, true_iff]
      exact ⟨i, le_refl i, by omega, by simpa [Nat.sub_self] using h⟩
    | false =>
      simp only [h, Bool.false_eq_true, if_false]
      rw [ih (i + 1) (nr >>> 1) (by omega)]
      have hsh : ∀ j, i + 1 ≤ j → (nr >>> 1) >>> (j - (i + 1)) = nr >>> (j - i) := by
        intro j hij
        rw [← Nat.shiftRight_add]
        congr 1
        omega
      constructor
      · rintro ⟨j, hij, hjO, hb⟩
        rw [hsh j hij] at hb
        exact ⟨j, by omega, hjO, hb⟩
      · rintro ⟨j, hij, hjO, hb⟩
        rcases Nat.eq_or_lt_of_le hij with rfl | hlt
        · rw [Nat.sub_self, Nat.shiftRight_zero] at hb
          rw [hb] at h; cases h
        · refine ⟨j, by omega, hjO, ?_⟩
          rw [hsh j (by omega)]
          exact hb

theorem test_buddy_bit_or_higher_iff (g : Geo) (bud : scoutfs_buddy_block) (order nr : Nat) :
    test_buddy_bit_or_higher g bud order nr = true ↔
      ∃ j, order ≤ j ∧ j < g.ORDERS ∧ test_buddy_bit g bud j (nr >>> (j - order)) = true :=
  tbh_go_spec g bud (g.ORDERS - order) order nr rfl

/-! ### The bitmap_alloc scan -/

theorem bitmap_scan_go_spec (bm st size : Nat) :
    ∀ fuel s, s ≤ size → size + 1 ≤ fuel + s →
      s ≤ bitmap_scan_go bm st size s fuel ∧
      bitmap_scan_go bm st size s fuel ≤ size ∧
      (∀ j, s ≤ j → j < bitmap_scan_go bm st size s fuel →
        ¬(bm.testBit j = true ∧ st.testBit j = true)) ∧
      (bitmap_scan_go bm st size s fuel < size →
        bm.testBit (bitmap_scan_go bm st size s fuel) = true ∧
        st.testBit (bitmap_scan_go bm st size s fuel) = true) := by
  intro fuel
  induction fuel with
  | zero => intro s hs hf; omega
  | succ n ih =>
    intro s hs hf
    unfold bitmap_scan_go
    by_cases heq : find_next_bit_le bm size s = find_next_bit_le st size (find_next_bit_le bm size s)
    · rw [if_pos heq]
      set d := find_next_bit_le bm size s with hd
      rcases find_next_bit_le_cases bm size s hs with hc | hc
      · refine ⟨by omega, by omega, ?_, by omega⟩
        intro j hsj hjd hcom
        have := find_next_bit_le_not_below bm size s j hs hsj hjd (by omega)
        rw [hcom.1] at this; cases this
      · refine ⟨hc.1, by omega, ?_, ?_⟩
        · intro j hsj hjd hcom
          have := find_next_bit_le_not_below bm size s j hs hsj hjd (by omega)
          rw [hcom.1] at this; cases this
        · intro _
          refine ⟨hc.2.2, ?_⟩
          rcases find_next_bit_le_cases st size d (by omega) with hc2 | hc2
          · rw [← heq] at hc2; omega
          · rw [← heq] at hc2
            exact hc2.2.2
    · rw [if_neg heq]
      set d := find_next_bit_le bm size s with hd
      set s2 := find_next_bit_le st size d with hs2
      have hdle : d ≤ size := find_next_bit_le_le bm size s hs
      have hdlt : d < size := by
        rcases Nat.eq_or_lt_of_le hdle with h1 | h1
        · exfalso
          apply heq
          rw [hs2, h1, find_next_bit_le_start_ge st size size (le_refl _)]
        · exact h1
      have hds : s ≤ d := find_next_bit_le_ge bm size s hs
      have hbmd : bm.testBit d = true := by
        rcases find_next_bit_le_cases bm size s hs with h1 | h1
        · omega
        · exact h1.2.2
      have hstd : st.testBit d = false := by
        cases h1 : st.testBit d
        · rfl
        · exact absurd (find_next_bit_le_self st size d hdlt h1).symm heq
      have hs2ge : d ≤ s2 := find_next_bit_le_ge st size d (by omega)
      have hs2le : s2 ≤ size := find_next_bit_le_le st size d (by omega)
      have hs2gt : d < s2 := by
        rcases Nat.eq_or_lt_of_le hs2ge with h1 | h1
        · exact absurd h1 heq
        · exact h1
      have hrec := ih s2 hs2le (by omega)
      refine ⟨by omega, hrec.2.1, ?_, hrec.2.2.2⟩
      intro j hsj hjr hcom
      by_cases hjs2 : s2 ≤ j
      · exact hrec.2.2.1 j hjs2 hjr hcom
      · by_cases hjd : j < d
        · have := find_next_bit_le_not_below bm size s j hs hsj hjd (by omega)
          rw [hcom.1] at this; cases this
        · rcases Nat.eq_or_lt_of_le (by omega : d ≤ j) with rfl | hdj
          · rw [hcom.2] at hstd; cases hstd
          · have := find_next_bit_le_not_below st size d j (by omega) (by omega) (by omega)
              (by omega)
            rw [hcom.2] at this; cases this

theorem bitmap_find_common_spec (bm st size : Nat) :
    bitmap_find_common bm st size ≤ size ∧
    (∀ j, j < bitmap_find_common bm st size →
      ¬(bm.testBit j = true ∧ st.testBit j = true)) ∧
    (bitmap_find_common bm st size < size →
      bm.testBit (bitmap_find_common bm st size) = true ∧
      st.testBit (bitmap_find_common bm st size) = true) := by
  have h := bitmap_scan_go_spec bm st size (size + 1) 0 (by omega) (by omega)
  exact ⟨h.2.1, fun j hj => h.2.2.1 j (by omega) hj, h.2.2.2⟩

/-- Claim C3: bitmap_alloc returns BM_BLKNO + BM_NR + d for the lowest
index d set in both the dirty and the stable self-host bitmaps, clearing
bit d in the dirty bitmap only; it fails with ENOSPC exactly when no index
below buddy_blocks is set in both, and it fails with EIO exactly when
either super's bitmap reference is absent. -/
theorem bitmap_alloc_correct (g : Geo) (s : AllocState) :
    (∀ bm st_bm, s.dirty_bm = some bm → s.stable_bm = some st_bm →
      (∀ b s', bitmap_alloc g s = (.ok b, s') →
        ∃ d, d < g.buddy_blocks ∧ b = g.BM_BLKNO + g.BM_NR + d ∧
          bm.testBit d = true ∧ st_bm.testBit d = true ∧
          (∀ j, j < d → ¬(bm.testBit j = true ∧ st_bm.testBit j = true)) ∧
          s' = { s with dirty_bm := some (clear_bit_le bm d) }) ∧
      ((bitmap_alloc g s).1 = .error .ENOSPC ↔
        ∀ j, j < g.buddy_blocks → ¬(bm.testBit j = true ∧ st_bm.testBit j = true))) ∧
    ((s.dirty_bm = none ∨ s.stable_bm = none) ↔ (bitmap_alloc g s).1 = .error Err.EIO) := by
  constructor
  · intro bm st_bm hbm hst
    have hspec := bitmap_find_common_spec bm st_bm g.buddy_blocks
    have hba : bitmap_alloc g s =
        (if g.buddy_blocks ≤ bitmap_find_common bm st_bm g.buddy_blocks then
          (.error .ENOSPC, s)
         else
          (.ok (g.BM_BLKNO + g.BM_NR + bitmap_find_common bm st_bm g.buddy_blocks),
            { s with dirty_bm := some (clear_bit_le bm (bitmap_find_common bm st_bm g.buddy_blocks)) })) := by
      unfold bitmap_alloc
      rw [hbm, hst]
    constructor
    · intro b s' hok
      rw [hba] at hok
      by_cases hge : g.buddy_blocks ≤ bitmap_find_common bm st_bm g.buddy_blocks
      · rw [if_pos hge] at hok
        cases hok
      · rw [if_neg hge] at hok
        refine ⟨bitmap_find_common bm st_bm g.buddy_blocks, by omega, ?_⟩
        have hfound := hspec.2.2 (by omega)
        cases hok
        exact ⟨rfl, hfound.1, hfound.2, fun j hj => hspec.2.1 j hj, rfl⟩
    · rw [hba]
      by_cases hge : g.buddy_blocks ≤ bitmap_find_common bm st_bm g.buddy_blocks
      · rw [if_pos hge]
        constructor
        · intro _ j hj
          exact hspec.2.1 j (by omega)
        · intro _; rfl
      · rw [if_neg hge]
        constructor
        · intro h; cases h
        · intro hall
          exfalso
          have hfound := hspec.2.2 (by omega)
          exact hall _ (by omega) hfound
  · constructor
    · intro h
      unfold bitmap_alloc
      rcases h with h | h
      · rw [h]
      · rw [h]; cases s.dirty_bm <;> rfl
    · intro h
      cases hbm : s.dirty_bm with
      | none => left; rfl
      | some bm =>
        cases hst : s.stable_bm with
        | none => right; rfl
        | some st_bm =>
          exfalso
          have hba : bitmap_alloc g s =
              (if g.buddy_blocks ≤ bitmap_find_common bm st_bm g.buddy_blocks then
                (.error .ENOSPC, s)
               else
                (.ok (g.BM_BLKNO + g.BM_NR + bitmap_find_common bm st_bm g.buddy_blocks),
                  { s with dirty_bm := some (clear_bit_le bm (bitmap_find_common bm st_bm g.buddy_blocks)) })) := by
            unfold bitmap_alloc
            rw [hbm, hst]
          rw [hba] at h
          by_cases hge : g.buddy_blocks ≤ bitmap_find_common bm st_bm g.buddy_blocks
          · rw [if_pos hge] at h
            cases h
          · rw [if_neg hge] at h
            cases h

/-- Witness geometry: ORDERS = 2, ORDER0_BITS = 2, one slot, two self-host
bitmap blocks. -/
def gW2 : Geo := ⟨2, 2, 1, 1, 2, 2, 7, 1, 2⟩

/-- Witness state: both bitmap refs present, bits 0/1 set dirty, bit 1 set
stable, no indirect blocks. -/
def sW3 : AllocState := ⟨some 3, some 2, none, none⟩

theorem bitmap_alloc_correct_witness :
    bitmap_alloc gW2 sW3 = (.ok 4, ⟨some 1, some 2, none, none⟩) ∧
    ∃ d, d < gW2.buddy_blocks ∧ 4 = gW2.BM_BLKNO + gW2.BM_NR + d ∧
      (3 : Nat).testBit d = true ∧ (2 : Nat).testBit d = true ∧
      (∀ j, j < d → ¬((3 : Nat).testBit j = true ∧ (2 : Nat).testBit j = true)) ∧
      (⟨some 1, some 2, none, none⟩ : AllocState) =
        { sW3 with dirty_bm := some (clear_bit_le 3 d) } :=
  ⟨by decide,
   ((bitmap_alloc_correct gW2 sW3).1 3 2 rfl rfl).1 4 ⟨some 1, some 2, none, none⟩ (by decide)⟩

/-- Claim C10: buddy_alloc retries smaller orders only on ENOSPC; any
other error from alloc_order at the requested order is returned
immediately, with no smaller order attempted (the returned state is the
one alloc_order produced at the requested order). -/
theorem buddy_alloc_error_immediate (g : Geo) (s : AllocState) (order : Nat) (e : Err)
    (s' : AllocState) (horder : order < g.ORDERS) (he : e ≠ .ENOSPC)
    (h : alloc_order g s order = (.error e, s')) :
    buddy_alloc g s order = (.error e, s') := by
  unfold buddy_alloc
  rw [if_neg (by omega)]
  cases order with
  | zero =>
    unfold buddy_alloc_go
    rw [h]
  | succ o =>
    unfold buddy_alloc_go
    rw [h]
    cases e with
    | EINVAL => rfl
    | EIO => rfl
    | ENOSPC => exact absurd rfl he

theorem buddy_alloc_error_immediate_witness :
    (1 < gW2.ORDERS ∧ ( Err.EIO ≠ Err.ENOSPC) ∧ alloc_order gW2 sW3 1 = (.error Err.EIO, sW3)) ∧
    buddy_alloc gW2 sW3 1 = (.error Err.EIO, sW3) :=
  ⟨⟨by decide, by decide, by decide⟩,
   buddy_alloc_error_immediate gW2 sW3 1 Err.EIO sW3 (by decide) (by decide) (by decide)⟩

/-! ### find_first_fit soundness -/

theorem find_next_buddy_bit_some (g : Geo) (bud : scoutfs_buddy_block) (i cur nr : Nat)
    (h : find_next_buddy_bit g bud i cur = some nr) :
    test_buddy_bit g bud i nr = true ∧ cur ≤ nr ∧
    order_nr g i nr < order_off g (i + 1) ∧
    (∀ m, cur ≤ m → m < nr → test_buddy_bit g bud i m = false) := by
  unfold find_next_buddy_bit at h
  set size := order_off g (i + 1) with hsize
  set r := find_next_bit_le bud.bits size (order_nr g i cur) with hr
  by_cases hge : size ≤ r
  · rw [if_pos hge] at h; cases h
  · rw [if_neg hge] at h
    have hoff : order_nr g i cur ≤ size := by
      by_contra hc
      have := find_next_bit_le_start_ge bud.bits size (order_nr g i cur) (by omega)
      rw [← hr] at this
      omega
    rcases find_next_bit_le_cases bud.bits size (order_nr g i cur) hoff with hc | hc
    · rw [← hr] at hc; omega
    · rw [← hr] at hc
      have hroi : order_off g i ≤ r := by
        have : order_off g i ≤ order_nr g i cur := Nat.le_add_right _ _
        omega
      cases h
      have hrnr : order_nr g i (r - order_off g i) = r := by
        unfold order_nr
        omega
      refine ⟨?_, ?_, ?_, ?_⟩
      · unfold test_buddy_bit test_bit_le
        rw [hrnr]
        exact hc.2.2
      · have := hc.1
        unfold order_nr at this
        omega
      · rw [hrnr]; omega
      · intro m hcm hmr
        unfold test_buddy_bit test_bit_le
        exact find_next_bit_le_not_below bud.bits size (order_nr g i cur) (order_nr g i m)
          hoff (by unfold order_nr; omega) (by rw [← hr]; unfold order_nr at *; omega)
          (by unfold order_nr at *; omega)

theorem find_next_buddy_bit_none (g : Geo) (bud : scoutfs_buddy_block) (i cur : Nat)
    (h : find_next_buddy_bit g bud i cur = none) :
    ∀ m, cur ≤ m → order_nr g i m < order_off g (i + 1) → test_buddy_bit g bud i m = false := by
  unfold find_next_buddy_bit at h
  set size := order_off g (i + 1) with hsize
  set r := find_next_bit_le bud.bits size (order_nr g i cur) with hr
  by_cases hge : size ≤ r
  · intro m hcm hmlt
    by_cases hoff : order_nr g i cur ≤ size
    · unfold test_buddy_bit test_bit_le
      exact find_next_bit_le_not_below bud.bits size (order_nr g i cur) (order_nr g i m)
        hoff (by unfold order_nr at *; omega) (by omega) hmlt
    · exfalso
      unfold order_nr at *
      omega
  · rw [if_neg hge] at h; cases h

/-- The best-candidate invariant of find_first_fit: any recorded candidate
is a dirty free bit whose extent is also free in the stable buddy block. -/
def fff_cand_ok (g : Geo) (sl : Nat) (bud : scoutfs_buddy_block)
    (st_bud : Option scoutfs_buddy_block) (order : Nat) :
    Option (Nat × Nat × Nat) → Prop
  | none => True
  | some (bno, i, nr) =>
      order ≤ i ∧ i < g.ORDERS ∧ test_buddy_bit g bud i nr = true ∧
      (∃ sb, st_bud = some sb ∧ test_buddy_bit_or_higher g sb i nr = true) ∧
      bno = slot_buddy_blkno g sl i nr ∧ order_nr g i nr < order_off g (i + 1)

theorem fff_pass_inv (g : Geo) (sl : Nat) (bud : scoutfs_buddy_block)
    (st_bud : Option scoutfs_buddy_block) (order : Nat) :
    ∀ fuel i st, order ≤ i → fuel ≤ g.ORDERS - i →
      fff_cand_ok g sl bud st_bud order st.best →
      fff_cand_ok g sl bud st_bud order (fff_pass g sl bud st_bud st i fuel).best := by
  intro fuel
  induction fuel with
  | zero => intro i st _ _ hinv; exact hinv
  | succ n ih =>
    intro i st hoi hfuel hinv
    have hiO : i < g.ORDERS := by omega
    unfold fff_pass
    apply ih (i + 1) _ (by omega) (by omega)
    cases hfnb : find_next_buddy_bit g bud i (st.nrs.getD i 0) with
    | none => exact hinv
    | some nr =>
      have hspec := find_next_buddy_bit_some g bud i _ nr hfnb
      cases st_bud with
      | none => exact hinv
      | some sb =>
        by_cases htbh : test_buddy_bit_or_higher g sb i nr = true
        · simp only [htbh, Bool.not_true, Bool.false_eq_true, if_false]
          cases hbest : st.best with
          | none =>
            exact ⟨hoi, hiO, hspec.1, ⟨sb, rfl, htbh⟩, rfl, hspec.2.2.1⟩
          | some b =>
            by_cases hlt : slot_buddy_blkno g sl i nr < b.1
            · dsimp only
              rw [if_pos hlt]
              exact ⟨hoi, hiO, hspec.1, ⟨sb, rfl, htbh⟩, rfl, hspec.2.2.1⟩
            · dsimp only
              rw [if_neg hlt]
              rw [hbest] at hinv
              exact hinv
        · have htbh' : (! test_buddy_bit_or_higher g sb i nr) = true := by
            rw [Bool.not_eq_true] at htbh
            rw [htbh]
            rfl
          simp only [htbh', if_true]
          exact hinv

theorem fff_loop_inv (g : Geo) (sl : Nat) (bud : scoutfs_buddy_block)
    (st_bud : Option scoutfs_buddy_block) (order : Nat) :
    ∀ fuel st,
      fff_cand_ok g sl bud st_bud order st.best →
      fff_cand_ok g sl bud st_bud order (fff_loop g sl bud st_bud order st fuel).best := by
  intro fuel
  induction fuel with
  | zero => intro st hinv; exact hinv
  | succ n ih =>
    intro st hinv
    unfold fff_loop
    have hpass := fff_pass_inv g sl bud st_bud order (g.ORDERS - order) order
      { st with progress := false } (le_refl _) (le_refl _) hinv
    by_cases hc : ((fff_pass g sl bud st_bud { st with progress := false } order
        (g.ORDERS - order)).best.isNone &&
        (fff_pass g sl bud st_bud { st with progress := false } order
          (g.ORDERS - order)).progress) = true
    · rw [if_pos hc]
      exact ih _ hpass
    · rw [if_neg hc]
      exact hpass

theorem find_first_fit_sound (g : Geo) (sl : Nat) (bud : scoutfs_buddy_block)
    (st_bud : Option scoutfs_buddy_block) (order nr found : Nat)
    (h : find_first_fit g sl bud st_bud order = some (nr, found)) :
    order ≤ found ∧ found < g.ORDERS ∧ test_buddy_bit g bud found nr = true ∧
    (∃ sb, st_bud = some sb ∧ test_buddy_bit_or_higher g sb found nr = true) ∧
    order_nr g found nr < order_off g (found + 1) := by
  unfold find_first_fit at h
  have hinv := fff_loop_inv g sl bud st_bud order (fffFuel g)
    ⟨List.replicate g.ORDERS 0, none, false⟩ trivial
  cases hbest : (fff_loop g sl bud st_bud order
      ⟨List.replicate g.ORDERS 0, none, false⟩ (fffFuel g)).best with
  | none =>
    simp only [hbest, Option.map_none] at h
    cases h
  | some b =>
    rw [hbest] at hinv
    simp only [hbest, Option.map_some] at h
    obtain ⟨bno, bi, bnr⟩ := b
    cases h
    exact ⟨hinv.1, hinv.2.1, hinv.2.2.1, hinv.2.2.2.1, hinv.2.2.2.2.2⟩

/-! ### View preservation: the dirty-side operations never touch the
stable view, and never remove the dirty bitmap reference. -/

def PreservesView (s s' : AllocState) : Prop :=
  s'.stable_bm = s.stable_bm ∧ s'.stable_ind = s.stable_ind ∧
  s'.dirty_bm.isSome = s.dirty_bm.isSome

theorem preserves_view_refl (s : AllocState) : PreservesView s s := ⟨rfl, rfl, rfl⟩

theorem PreservesView.trans {a b c : AllocState}
    (h1 : PreservesView a b) (h2 : PreservesView b c) : PreservesView a c :=
  ⟨h2.1.trans h1.1, h2.2.1.trans h1.2.1, h2.2.2.trans h1.2.2⟩

theorem bitmap_alloc_view (g : Geo) (s : AllocState) :
    PreservesView s (bitmap_alloc g s).2 ∧ (bitmap_alloc g s).2.dirty_ind = s.dirty_ind := by
  unfold bitmap_alloc
  cases hbm : s.dirty_bm with
  | none => exact ⟨preserves_view_refl s, rfl⟩
  | some bm =>
    cases hst : s.stable_bm with
    | none => exact ⟨preserves_view_refl s, rfl⟩
    | some st_bm =>
      dsimp only
      by_cases hge : g.buddy_blocks ≤ bitmap_find_common bm st_bm g.buddy_blocks
      · rw [if_pos hge]
        exact ⟨preserves_view_refl s, rfl⟩
      · rw [if_neg hge]
        exact ⟨⟨hst.symm, rfl, by simp [hbm]⟩, rfl⟩

theorem dirty_buddy_block_view (g : Geo) (s : AllocState) (ind : scoutfs_buddy_indirect)
    (sl : Nat) :
    ∀ bud ind1 s1, dirty_buddy_block g s ind sl = .ok (bud, ind1, s1) →
      PreservesView s s1 ∧ s1.dirty_ind = s.dirty_ind := by
  intro bud ind1 s1 h
  unfold dirty_buddy_block at h
  cases hslot : (ind.slots.getD sl ⟨0, none⟩).bud with
  | some bud0 =>
    rw [hslot] at h
    cases h
    exact ⟨preserves_view_refl s, rfl⟩
  | none =>
    rw [hslot] at h
    cases hba : bitmap_alloc g s with
    | mk r s2 =>
      rw [hba] at h
      cases r with
      | error e => cases h
      | ok blkno =>
        have hview := bitmap_alloc_view g s
        rw [hba] at hview
        cases h
        exact hview

theorem alloc_slot_view (g : Geo) (s : AllocState) (ind : scoutfs_buddy_indirect)
    (sl : Nat) (st_slot : scoutfs_buddy_slot) (order : Nat) :
    PreservesView s (alloc_slot g s ind sl st_slot order).2.2 ∧
      (alloc_slot g s ind sl st_slot order).2.2.dirty_ind = s.dirty_ind := by
  unfold alloc_slot
  cases hdb : dirty_buddy_block g s ind sl with
  | error e => exact ⟨preserves_view_refl s, rfl⟩
  | ok t =>
    obtain ⟨bud, ind1, s1⟩ := t
    have hview := dirty_buddy_block_view g s ind sl bud ind1 s1 hdb
    dsimp only
    cases hff : find_first_fit g sl bud st_slot.bud order with
    | none => exact hview
    | some p =>
      obtain ⟨nr, found⟩ := p
      dsimp only
      exact hview

theorem alloc_order_go_view (g : Geo) (order : Nat) (st_ind : scoutfs_buddy_indirect) :
    ∀ fuel s ind i, PreservesView s (alloc_order_go g order st_ind s ind i fuel).2.2 := by
  intro fuel
  induction fuel with
  | zero => intro s ind i; exact preserves_view_refl s
  | succ n ih =>
    intro s ind i
    unfold alloc_order_go
    by_cases hsk : (2 ^ 32 - 2 ^ order) &&& (ind.slots.getD i ⟨0, none⟩).free_orders = 0 ∨
        (2 ^ 32 - 2 ^ order) &&& (st_ind.slots.getD i ⟨0, none⟩).free_orders = 0
    · rw [if_pos hsk]
      exact ih s ind (i + 1)
    · rw [if_neg hsk]
      have hsv := alloc_slot_view g s ind i (st_ind.slots.getD i ⟨0, none⟩) order
      cases halloc : alloc_slot g s ind i (st_ind.slots.getD i ⟨0, none⟩) order with
      | mk r1 rest =>
        obtain ⟨ind1, s1⟩ := rest
        rw [halloc] at hsv
        cases r1 with
        | ok b => exact hsv.1
        | error e =>
          cases e with
          | ENOSPC => exact (hsv.1).trans (ih s1 ind1 (i + 1))
          | EINVAL => exact hsv.1
          | EIO => exact hsv.1

theorem alloc_order_view (g : Geo) (s : AllocState) (order : Nat) :
    PreservesView s (alloc_order g s order).2 := by
  unfold alloc_order
  cases hdi : s.dirty_ind with
  | none => exact preserves_view_refl s
  | some ind =>
    cases hsi : s.stable_ind with
    | none => exact preserves_view_refl s
    | some st_ind =>
      have h := alloc_order_go_view g order st_ind g.SLOTS s ind 0
      exact ⟨h.1, h.2.1, h.2.2⟩

theorem buddy_alloc_go_view (g : Geo) :
    ∀ order s, PreservesView s (buddy_alloc_go g s order).2 := by
  intro order
  induction order with
  | zero =>
    intro s
    unfold buddy_alloc_go
    have h := alloc_order_view g s 0
    cases hao : alloc_order g s 0 with
    | mk r s' =>
      rw [hao] at h
      cases r with
      | ok b => exact h
      | error e => exact h
  | succ o ih =>
    intro s
    unfold buddy_alloc_go
    have h := alloc_order_view g s (o + 1)
    cases hao : alloc_order g s (o + 1) with
    | mk r s' =>
      rw [hao] at h
      cases r with
      | ok b => exact h
      | error e =>
        cases e with
        | ENOSPC => exact h.trans (ih s')
        | EINVAL => exact h
        | EIO => exact h

theorem buddy_alloc_view (g : Geo) (s : AllocState) (order : Nat) :
    PreservesView s (buddy_alloc g s order).2 := by
  unfold buddy_alloc
  by_cases hge : g.ORDERS ≤ order
  · rw [if_pos hge]; exact preserves_view_refl s
  · rw [if_neg hge]; exact buddy_alloc_go_view g order s

/-! ### Decomposition of a successful buddy_alloc -/

theorem alloc_slot_ok (g : Geo) (s : AllocState) (ind : scoutfs_buddy_indirect)
    (sl : Nat) (st_slot : scoutfs_buddy_slot) (order : Nat) (b : Nat)
    (ind' : scoutfs_buddy_indirect) (s1 : AllocState)
    (h : alloc_slot g s ind sl st_slot order = (.ok b, ind', s1)) :
    ∃ bud ind1 sA nr found,
      dirty_buddy_block g s ind sl = .ok (bud, ind1, sA) ∧
      find_first_fit g sl bud st_slot.bud order = some (nr, found) ∧
      b = slot_buddy_blkno g sl found nr := by
  unfold alloc_slot at h
  cases hdb : dirty_buddy_block g s ind sl with
  | error e => rw [hdb] at h; cases h
  | ok t =>
    obtain ⟨bud, ind1, sA⟩ := t
    rw [hdb] at h
    dsimp only at h
    cases hff : find_first_fit g sl bud st_slot.bud order with
    | none =>
      rw [hff] at h
      cases h
    | some p =>
      obtain ⟨nr, found⟩ := p
      rw [hff] at h
      cases h
      exact ⟨bud, ind1, s1, nr, found, rfl, hff, rfl⟩

theorem alloc_order_go_ok (g : Geo) (order : Nat) (st_ind : scoutfs_buddy_indirect) :
    ∀ fuel i s ind b ind2 s2,
      alloc_order_go g order st_ind s ind i fuel = (.ok b, ind2, s2) →
      ∃ sl s1 ind1, sl < i + fuel ∧ i ≤ sl ∧ PreservesView s s1 ∧
        alloc_slot g s1 ind1 sl (st_ind.slots.getD sl ⟨0, none⟩) order = (.ok b, ind2, s2) := by
  intro fuel
  induction fuel with
  | zero => intro i s ind b ind2 s2 h; cases h
  | succ n ih =>
    intro i s ind b ind2 s2 h
    unfold alloc_order_go at h
    by_cases hsk : (2 ^ 32 - 2 ^ order) &&& (ind.slots.getD i ⟨0, none⟩).free_orders = 0 ∨
        (2 ^ 32 - 2 ^ order) &&& (st_ind.slots.getD i ⟨0, none⟩).free_orders = 0
    · rw [if_pos hsk] at h
      obtain ⟨sl, s1, ind1, hrange, hile, hview, hslot⟩ := ih (i + 1) s ind b ind2 s2 h
      exact ⟨sl, s1, ind1, by omega, by omega, hview, hslot⟩
    · rw [if_neg hsk] at h
      have hsv := alloc_slot_view g s ind i (st_ind.slots.getD i ⟨0, none⟩) order
      cases halloc : alloc_slot g s ind i (st_ind.slots.getD i ⟨0, none⟩) order with
      | mk r1 rest =>
        obtain ⟨ind1, s1⟩ := rest
        rw [halloc] at h hsv
        cases r1 with
        | ok b0 =>
          cases h
          exact ⟨i, s, ind, by omega, le_refl i, preserves_view_refl s, halloc⟩
        | error e =>
          cases e with
          | ENOSPC =>
            obtain ⟨sl, sA, indA, hrange, hile, hview, hslot⟩ := ih (i + 1) s1 ind1 b ind2 s2 h
            exact ⟨sl, sA, indA, by omega, by omega, (hsv.1).trans hview, hslot⟩
          | EINVAL => cases h
          | EIO => cases h

theorem alloc_order_ok (g : Geo) (s : AllocState) (order b : Nat) (s' : AllocState)
    (h : alloc_order g s order = (.ok b, s')) :
    ∃ ind st_ind, s.dirty_ind = some ind ∧ s.stable_ind = some st_ind ∧
      ∃ sl s1 ind1 ind2 s2, sl < g.SLOTS ∧ PreservesView s s1 ∧
        alloc_slot g s1 ind1 sl (st_ind.slots.getD sl ⟨0, none⟩) order = (.ok b, ind2, s2) ∧
        s' = { s2 with dirty_ind := some ind2 } := by
  unfold alloc_order at h
  cases hdi : s.dirty_ind with
  | none => rw [hdi] at h; cases h
  | some ind =>
    cases hsi : s.stable_ind with
    | none => rw [hdi, hsi] at h; cases h
    | some st_ind =>
      rw [hdi, hsi] at h
      dsimp only at h
      cases hgo : alloc_order_go g order st_ind s ind 0 g.SLOTS with
      | mk r1 rest =>
        obtain ⟨ind2, s2⟩ := rest
        rw [hgo] at h
        cases r1 with
        | error e => cases h
        | ok b0 =>
          cases h
          obtain ⟨sl, s1, ind1, hrange, _, hview, hslot⟩ :=
            alloc_order_go_ok g order st_ind g.SLOTS 0 s ind b ind2 s2 hgo
          exact ⟨ind, st_ind, rfl, rfl, sl, s1, ind1, ind2, s2, by omega, hview, hslot, rfl⟩

theorem buddy_alloc_go_ok (g : Geo) :
    ∀ order s b go s', buddy_alloc_go g s order = (.ok (b, go), s') →
      go ≤ order ∧ ∃ s0, PreservesView s s0 ∧ alloc_order g s0 go = (.ok b, s') := by
  intro order
  induction order with
  | zero =>
    intro s b go s' h
    unfold buddy_alloc_go at h
    cases hao : alloc_order g s 0 with
    | mk r sA =>
      rw [hao] at h
      cases r with
      | ok b0 =>
        cases h
        exact ⟨le_refl 0, s, preserves_view_refl s, hao⟩
      | error e => cases h
  | succ o ih =>
    intro s b go s' h
    unfold buddy_alloc_go at h
    cases hao : alloc_order g s (o + 1) with
    | mk r sA =>
      rw [hao] at h
      cases r with
      | ok b0 =>
        cases h
        exact ⟨le_refl _, s, preserves_view_refl s, hao⟩
      | error e =>
        cases e with
        | ENOSPC =>
          obtain ⟨hgo, s0, hview, hord⟩ := ih sA b go s' h
          have hv := alloc_order_view g s (o + 1)
          rw [hao] at hv
          exact ⟨by omega, s0, hv.trans hview, hord⟩
        | EINVAL => cases h
        | EIO => cases h

theorem buddy_alloc_ok (g : Geo) (s : AllocState) (order b go : Nat) (s' : AllocState)
    (h : buddy_alloc g s order = (.ok (b, go), s')) :
    order < g.ORDERS ∧ go ≤ order ∧
      ∃ s0, PreservesView s s0 ∧ alloc_order g s0 go = (.ok b, s') := by
  unfold buddy_alloc at h
  by_cases hge : g.ORDERS ≤ order
  · rw [if_pos hge] at h; cases h
  · rw [if_neg hge] at h
    obtain ⟨hgo, s0, hview, hord⟩ := buddy_alloc_go_ok g order s b go s' h
    exact ⟨by omega, hgo, s0, hview, hord⟩

/-! ### Extent coverage arithmetic -/

/-- A free bit at (found, nr) covers order-0 position nr * 2^found + k for
every k < 2^found: test_buddy_bit_or_higher finds it from order 0. -/
theorem tbh_zero_of_tbh (g : Geo) (sb : scoutfs_buddy_block) (found nr k : Nat)
    (hk : k < 2 ^ found)
    (htbh : test_buddy_bit_or_higher g sb found nr = true) :
    test_buddy_bit_or_higher g sb 0 (nr * 2 ^ found + k) = true := by
  rw [test_buddy_bit_or_higher_iff] at htbh ⊢
  obtain ⟨j, hfj, hjO, hbit⟩ := htbh
  refine ⟨j, Nat.zero_le j, hjO, ?_⟩
  have hshift : (nr * 2 ^ found + k) >>> (j - 0) = nr >>> (j - found) := by
    rw [Nat.shiftRight_eq_div_pow, Nat.shiftRight_eq_div_pow]
    have hsplit : j - 0 = found + (j - found) := by omega
    rw [hsplit, Nat.pow_add, ← Nat.div_div_eq_div_mul]
    have h1 : (nr * 2 ^ found + k) / 2 ^ found = nr := by
      rw [Nat.mul_comm nr (2 ^ found), Nat.mul_add_div (Nat.pos_pow_of_pos found (by norm_num))]
      rw [Nat.div_eq_of_lt hk]
      omega
    rw [h1]
  rw [hshift]
  exact hbit

/-- Block arithmetic of an allocation extent: every block of the granted
extent lies in slot sl with the expected order-0 bit offset. -/
theorem extent_block_math (g : Geo) (e : Nat) (hB : g.ORDER0_BITS = 2 ^ e)
    (sl found nr k : Nat) (hfe : found ≤ e)
    (hnr : order_nr g found nr < order_off g (found + 1)) (hk : k < 2 ^ found) :
    indirect_slot g (slot_buddy_blkno g sl found nr + k) = sl ∧
    buddy_bit g (slot_buddy_blkno g sl found nr + k) = nr * 2 ^ found + k ∧
    nr * 2 ^ found + k < g.ORDER0_BITS := by
  have hnr' : nr < 2 ^ (e - found) := by
    have := order_off_succ g e found hB hfe
    unfold order_nr at hnr
    omega
  have hpos : nr * 2 ^ found + k < g.ORDER0_BITS := by
    rw [hB]
    calc nr * 2 ^ found + k < nr * 2 ^ found + 2 ^ found := by omega
      _ = (nr + 1) * 2 ^ found := by ring
      _ ≤ 2 ^ (e - found) * 2 ^ found := by
          exact Nat.mul_le_mul_right _ (by omega)
      _ = 2 ^ e := by
          rw [← Nat.pow_add]
          congr 1
          omega
  have hblk : slot_buddy_blkno g sl found nr + k =
      first_blkno g + (sl * g.ORDER0_BITS + (nr * 2 ^ found + k)) := by
    unfold slot_buddy_blkno
    rw [Nat.shiftLeft_eq]
    ring
  have hB0pos : 0 < g.ORDER0_BITS := by rw [hB]; exact Nat.pos_pow_of_pos e (by norm_num)
  refine ⟨?_, ?_, hpos⟩
  · unfold indirect_slot
    rw [hblk, Nat.add_sub_cancel_left, Nat.mul_comm sl g.ORDER0_BITS,
       Nat.mul_add_div hB0pos, Nat.div_eq_of_lt hpos]
    omega
  · unfold buddy_bit
    rw [hblk, Nat.add_sub_cancel_left, Nat.mul_comm sl g.ORDER0_BITS,
       Nat.mul_add_mod, Nat.mod_eq_of_lt hpos]

/-- Freeness of a block in the stable view, as buddy.c evaluates it: the
stable slot of the block is unpopulated, or the stable buddy block has a
free bit at some order covering the block. -/
def stable_free_block (g : Geo) (s : AllocState) (b : Nat) : Prop :=
  ∀ ind, s.stable_ind = some ind →
    (ind.slots.getD (indirect_slot g b) ⟨0, none⟩).bud = none ∨
    ∃ sb, (ind.slots.getD (indirect_slot g b) ⟨0, none⟩).bud = some sb ∧
      test_buddy_bit_or_higher g sb 0 (buddy_bit g b) = true

/-- Claim C1: every block number returned by an allocation operation is
free in both the dirty and the stable view of its allocator:
(1) find_first_fit only returns candidates whose bit is set (free) in the
dirty buddy block and whose extent tests free in the stable buddy block;
(2) bitmap_alloc only returns an index set in both the dirty and the
stable self-host bitmaps; (3) consequently no block of a buddy_alloc
granted extent overlaps anything allocated in the stable view: every one
of its blocks is free in the stable view at the moment of return. -/
theorem alloc_free_in_both_views (g : Geo) (hw : GeoWF g) :
    (∀ sl bud st_bud order nr found,
      find_first_fit g sl bud st_bud order = some (nr, found) →
      test_buddy_bit g bud found nr = true ∧
      ∃ sb, st_bud = some sb ∧ test_buddy_bit_or_higher g sb found nr = true) ∧
    (∀ s bm st_bm b s', s.dirty_bm = some bm → s.stable_bm = some st_bm →
      bitmap_alloc g s = (.ok b, s') →
      bm.testBit (b - (g.BM_BLKNO + g.BM_NR)) = true ∧
      st_bm.testBit (b - (g.BM_BLKNO + g.BM_NR)) = true) ∧
    (∀ s order b go s' k, buddy_alloc g s order = (.ok (b, go), s') → k < 2 ^ go →
      stable_free_block g s (b + k)) := by
  obtain ⟨hO, e, hB, hOe⟩ := hw
  refine ⟨?_, ?_, ?_⟩
  · intro sl bud st_bud order nr found h
    have hs := find_first_fit_sound g sl bud st_bud order nr found h
    exact ⟨hs.2.2.1, hs.2.2.2.1⟩
  · intro s bm st_bm b s' hbm hst hok
    obtain ⟨d, hd, hb, hbmd, hstd, _, _⟩ :=
      ((bitmap_alloc_correct g s).1 bm st_bm hbm hst).1 b s' hok
    have : b - (g.BM_BLKNO + g.BM_NR) = d := by omega
    rw [this]
    exact ⟨hbmd, hstd⟩
  · intro s order b go s' k hok hk
    obtain ⟨hordO, hgoord, s0, hview0, hao⟩ := buddy_alloc_ok g s order b go s' hok
    obtain ⟨ind, st_ind, hdi, hsi, sl, s1, ind1, ind2, s2, hsl, hview1, hslot, hs'⟩ :=
      alloc_order_ok g s0 go b s' hao
    obtain ⟨bud, indA, sA, nr, found, hdb, hff, hb⟩ :=
      alloc_slot_ok g s1 ind1 sl (st_ind.slots.getD sl ⟨0, none⟩) go b ind2 s2 hslot
    have hsound := find_first_fit_sound g sl bud (st_ind.slots.getD sl ⟨0, none⟩).bud go
      nr found hff
    obtain ⟨hgof, hfO, _, ⟨sb, hsb, htbh⟩, hnrb⟩ := hsound
    have hfe : found ≤ e := by omega
    have hmath := extent_block_math g e hB sl found nr k hfe hnrb
      (by calc k < 2 ^ go := hk
            _ ≤ 2 ^ found := Nat.pow_le_pow_right (by norm_num) hgof)
    intro indq hindq
    have hsi0 : s.stable_ind = some st_ind := by
      rw [hview0.2.1] at hsi
      exact hsi
    rw [hindq] at hsi0
    cases hsi0
    right
    refine ⟨sb, ?_, ?_⟩
    · rw [hb, hmath.1]
      exact hsb
    · rw [hb, hmath.2.1]
      exact tbh_zero_of_tbh g sb found nr k
        (by calc k < 2 ^ go := hk
              _ ≤ 2 ^ found := Nat.pow_le_pow_right (by norm_num) hgof) htbh

/-- Witness geometry for the allocation theorems. -/
def gWA : Geo := ⟨2, 2, 1, 1, 2, 1, 6, 1, 2⟩

/-- Witness dirty/stable buddy block: the single order-1 extent free. -/
def budWD : scoutfs_buddy_block := ⟨4, [0, 1]⟩

/-- Witness allocator state. -/
def sWA : AllocState :=
  ⟨some 1, some 1, some ⟨[⟨2, some budWD⟩], [0, 1]⟩, some ⟨[⟨2, some budWD⟩], [0, 1]⟩⟩

/-- The state after buddy_alloc gWA sWA 0. -/
def sWA' : AllocState :=
  ⟨some 1, some 1, some ⟨[⟨1, some ⟨2, [1, 0]⟩⟩], [1, 0]⟩, some ⟨[⟨2, some budWD⟩], [0, 1]⟩⟩

theorem gWA_wf : GeoWF gWA := ⟨by decide, 1, by decide, by decide⟩

theorem alloc_free_in_both_views_witness :
    (GeoWF gWA ∧ buddy_alloc gWA sWA 0 = (.ok (4, 0), sWA') ∧ (0 : Nat) < 2 ^ 0) ∧
    stable_free_block gWA sWA (4 + 0) :=
  ⟨⟨gWA_wf, by decide, by decide⟩,
   (alloc_free_in_both_views gWA gWA_wf).2.2 sWA 0 4 0 sWA' 0 (by decide) (by decide)⟩

/-! ### Populated dirty slots: failed allocations do not mutate -/

/-- Every slot of the dirty indirect block is populated (its buddy block
was already created), so no allocation attempt lazily creates one. -/
def ind_populated (g : Geo) (ind : scoutfs_buddy_indirect) : Prop :=
  ∀ sl, sl < g.SLOTS → ((ind.slots.getD sl ⟨0, none⟩).bud).isSome = true

instance ind_populated_dec (g : Geo) (ind : scoutfs_buddy_indirect) :
    Decidable (ind_populated g ind) :=
  decidable_of_iff
    (∀ sl, sl < g.SLOTS → ((ind.slots.getD sl ⟨0, none⟩).bud).isSome = true) Iff.rfl

theorem allocstate_eta_dirty_ind (s : AllocState) (ind : scoutfs_buddy_indirect)
    (h : s.dirty_ind = some ind) : { s with dirty_ind := some ind } = s := by
  rw [← h]

theorem dirty_buddy_block_populated (g : Geo) (s : AllocState)
    (ind : scoutfs_buddy_indirect) (sl : Nat) (bud : scoutfs_buddy_block)
    (h : (ind.slots.getD sl ⟨0, none⟩).bud = some bud) :
    dirty_buddy_block g s ind sl = .ok (bud, ind, s) := by
  unfold dirty_buddy_block
  rw [h]

theorem alloc_slot_err_populated (g : Geo) (s : AllocState) (ind : scoutfs_buddy_indirect)
    (sl : Nat) (st_slot : scoutfs_buddy_slot) (order : Nat) (bud : scoutfs_buddy_block)
    (hbud : (ind.slots.getD sl ⟨0, none⟩).bud = some bud)
    (e : Err) (ind' : scoutfs_buddy_indirect) (s' : AllocState)
    (h : alloc_slot g s ind sl st_slot order = (.error e, ind', s')) :
    e = .ENOSPC ∧ ind' = ind ∧ s' = s ∧
      find_first_fit g sl bud st_slot.bud order = none := by
  unfold alloc_slot at h
  rw [dirty_buddy_block_populated g s ind sl bud hbud] at h
  dsimp only at h
  cases hff : find_first_fit g sl bud st_slot.bud order with
  | none =>
    rw [hff] at h
    cases h
    exact ⟨rfl, rfl, rfl, rfl⟩
  | some p =>
    obtain ⟨nr, found⟩ := p
    rw [hff] at h
    cases h

theorem alloc_slot_ok_populated (g : Geo) (s : AllocState) (ind : scoutfs_buddy_indirect)
    (sl : Nat) (st_slot : scoutfs_buddy_slot) (order : Nat) (bud : scoutfs_buddy_block)
    (hbud : (ind.slots.getD sl ⟨0, none⟩).bud = some bud)
    (b : Nat) (ind' : scoutfs_buddy_indirect) (s' : AllocState)
    (h : alloc_slot g s ind sl st_slot order = (.ok b, ind', s')) :
    s' = s ∧ ∃ nr found, find_first_fit g sl bud st_slot.bud order = some (nr, found) ∧
      b = slot_buddy_blkno g sl found nr ∧
      ind' =
        (let p := clear_buddy_bit g ind bud found nr
         let q := split_go g order p.1 p.2 (nr <<< 1) (found - order)
         { q.1 with slots := q.1.slots.set sl ⟨update_free_orders g q.2, some q.2⟩ }) := by
  unfold alloc_slot at h
  rw [dirty_buddy_block_populated g s ind sl bud hbud] at h
  dsimp only at h
  cases hff : find_first_fit g sl bud st_slot.bud order with
  | none =>
    rw [hff] at h
    cases h
  | some p =>
    obtain ⟨nr, found⟩ := p
    rw [hff] at h
    cases h
    exact ⟨rfl, nr, found, rfl, rfl, rfl⟩

theorem alloc_order_go_populated_err (g : Geo) (order : Nat)
    (st_ind : scoutfs_buddy_indirect) (s : AllocState) (ind : scoutfs_buddy_indirect)
    (hpop : ind_populated g ind) :
    ∀ fuel i, i + fuel ≤ g.SLOTS → ∀ e ind2 s2,
      alloc_order_go g order st_ind s ind i fuel = (.error e, ind2, s2) →
      e = .ENOSPC ∧ ind2 = ind ∧ s2 = s := by
  intro fuel
  induction fuel with
  | zero =>
    intro i _ e ind2 s2 h
    cases h
    exact ⟨rfl, rfl, rfl⟩
  | succ n ih =>
    intro i hin e ind2 s2 h
    unfold alloc_order_go at h
    by_cases hsk : (2 ^ 32 - 2 ^ order) &&& (ind.slots.getD i ⟨0, none⟩).free_orders = 0 ∨
        (2 ^ 32 - 2 ^ order) &&& (st_ind.slots.getD i ⟨0, none⟩).free_orders = 0
    · rw [if_pos hsk] at h
      exact ih (i + 1) (by omega) e ind2 s2 h
    · rw [if_neg hsk] at h
      obtain ⟨bud, hbud⟩ := Option.isSome_iff_exists.mp (hpop i (by omega))
      cases halloc : alloc_slot g s ind i (st_ind.slots.getD i ⟨0, none⟩) order with
      | mk r1 rest =>
        obtain ⟨ind1, s1⟩ := rest
        rw [halloc] at h
        cases r1 with
        | ok b0 => cases h
        | error e0 =>
          obtain ⟨he0, hind1, hs1, _⟩ :=
            alloc_slot_err_populated g s ind i (st_ind.slots.getD i ⟨0, none⟩) order bud hbud
              e0 ind1 s1 halloc
          subst he0
          subst hind1
          subst hs1
          exact ih (i + 1) (by omega) e ind2 s2 h

theorem alloc_order_go_populated_ok (g : Geo) (order : Nat)
    (st_ind : scoutfs_buddy_indirect) (s : AllocState) (ind : scoutfs_buddy_indirect)
    (hpop : ind_populated g ind) :
    ∀ fuel i, i + fuel ≤ g.SLOTS → ∀ b ind2 s2,
      alloc_order_go g order st_ind s ind i fuel = (.ok b, ind2, s2) →
      ∃ sl, i ≤ sl ∧ sl < g.SLOTS ∧
        alloc_slot g s ind sl (st_ind.slots.getD sl ⟨0, none⟩) order = (.ok b, ind2, s2) := by
  intro fuel
  induction fuel with
  | zero => intro i _ b ind2 s2 h; cases h
  | succ n ih =>
    intro i hin b ind2 s2 h
    unfold alloc_order_go at h
    by_cases hsk : (2 ^ 32 - 2 ^ order) &&& (ind.slots.getD i ⟨0, none⟩).free_orders = 0 ∨
        (2 ^ 32 - 2 ^ order) &&& (st_ind.slots.getD i ⟨0, none⟩).free_orders = 0
    · rw [if_pos hsk] at h
      obtain ⟨sl, h1, h2, h3⟩ := ih (i + 1) (by omega) b ind2 s2 h
      exact ⟨sl, by omega, h2, h3⟩
    · rw [if_neg hsk] at h
      obtain ⟨bud, hbud⟩ := Option.isSome_iff_exists.mp (hpop i (by omega))
      cases halloc : alloc_slot g s ind i (st_ind.slots.getD i ⟨0, none⟩) order with
      | mk r1 rest =>
        obtain ⟨ind1, s1⟩ := rest
        rw [halloc] at h
        cases r1 with
        | ok b0 =>
          cases h
          exact ⟨i, le_refl i, by omega, halloc⟩
        | error e0 =>
          obtain ⟨he0, hind1, hs1, _⟩ :=
            alloc_slot_err_populated g s ind i (st_ind.slots.getD i ⟨0, none⟩) order bud hbud
              e0 ind1 s1 halloc
          subst he0
          subst hind1
          subst hs1
          obtain ⟨sl, h1, h2, h3⟩ := ih (i + 1) (by omega) b ind2 s2 h
          exact ⟨sl, by omega, h2, h3⟩

theorem alloc_order_populated_err (g : Geo) (s : AllocState) (order : Nat)
    (ind st_ind : scoutfs_buddy_indirect)
    (hdi : s.dirty_ind = some ind) (hsi : s.stable_ind = some st_ind)
    (hpop : ind_populated g ind) (e : Err) (s' : AllocState)
    (h : alloc_order g s order = (.error e, s')) : e = .ENOSPC ∧ s' = s := by
  unfold alloc_order at h
  rw [hdi, hsi] at h
  dsimp only at h
  cases hgo : alloc_order_go g order st_ind s ind 0 g.SLOTS with
  | mk r1 rest =>
    obtain ⟨ind2, s2⟩ := rest
    rw [hgo] at h
    cases r1 with
    | ok b0 => cases h
    | error e0 =>
      obtain ⟨he, hind, hs⟩ :=
        alloc_order_go_populated_err g order st_ind s ind hpop g.SLOTS 0 (by omega) e0 ind2 s2 hgo
      cases h
      refine ⟨he, ?_⟩
      rw [hind, hs]
      exact allocstate_eta_dirty_ind s ind hdi

theorem alloc_order_populated_ok (g : Geo) (s : AllocState) (order : Nat)
    (ind st_ind : scoutfs_buddy_indirect)
    (hdi : s.dirty_ind = some ind) (hsi : s.stable_ind = some st_ind)
    (hpop : ind_populated g ind) (b : Nat) (s' : AllocState)
    (h : alloc_order g s order = (.ok b, s')) :
    ∃ sl ind2, sl < g.SLOTS ∧
      alloc_slot g s ind sl (st_ind.slots.getD sl ⟨0, none⟩) order = (.ok b, ind2, s) ∧
      s' = { s with dirty_ind := some ind2 } := by
  unfold alloc_order at h
  rw [hdi, hsi] at h
  dsimp only at h
  cases hgo : alloc_order_go g order st_ind s ind 0 g.SLOTS with
  | mk r1 rest =>
    obtain ⟨ind2, s2⟩ := rest
    rw [hgo] at h
    cases r1 with
    | error e0 => cases h
    | ok b0 =>
      cases h
      obtain ⟨sl, _, hsl, halloc⟩ :=
        alloc_order_go_populated_ok g order st_ind s ind hpop g.SLOTS 0 (by omega) b ind2 s2 hgo
      obtain ⟨bud, hbud⟩ := Option.isSome_iff_exists.mp (hpop sl hsl)
      obtain ⟨hs2, _⟩ :=
        alloc_slot_ok_populated g s ind sl (st_ind.slots.getD sl ⟨0, none⟩) order bud hbud
          b ind2 s2 halloc
      subst hs2
      exact ⟨sl, ind2, hsl, halloc, rfl⟩

theorem buddy_alloc_go_populated_ok (g : Geo) (ind st_ind : scoutfs_buddy_indirect) :
    ∀ order s b go s', s.dirty_ind = some ind → s.stable_ind = some st_ind →
      ind_populated g ind →
      buddy_alloc_go g s order = (.ok (b, go), s') →
      go ≤ order ∧ alloc_order g s go = (.ok b, s') ∧
        (∀ o', go < o' → o' ≤ order → alloc_order g s o' = (.error .ENOSPC, s)) := by
  intro order
  induction order with
  | zero =>
    intro s b go s' hdi hsi hpop h
    unfold buddy_alloc_go at h
    cases hao : alloc_order g s 0 with
    | mk r sA =>
      rw [hao] at h
      cases r with
      | ok b0 =>
        cases h
        exact ⟨le_refl 0, hao, fun o' h1 h2 => by omega⟩
      | error e => cases h
  | succ o ih =>
    intro s b go s' hdi hsi hpop h
    unfold buddy_alloc_go at h
    cases hao : alloc_order g s (o + 1) with
    | mk r sA =>
      rw [hao] at h
      cases r with
      | ok b0 =>
        cases h
        exact ⟨le_refl _, hao, fun o' h1 h2 => by omega⟩
      | error e =>
        cases e with
        | ENOSPC =>
          obtain ⟨he, hsA⟩ :=
            alloc_order_populated_err g s (o + 1) ind st_ind hdi hsi hpop .ENOSPC sA hao
          rw [hsA] at h hao
          obtain ⟨h1, h2, h3⟩ := ih s b go s' hdi hsi hpop h
          refine ⟨by omega, h2, ?_⟩
          intro o' ho1 ho2
          rcases Nat.eq_or_lt_of_le ho2 with rfl | hlt
          · exact hao
          · exact h3 o' ho1 (by omega)
        | EINVAL => cases h
        | EIO => cases h

theorem buddy_alloc_populated_ok (g : Geo) (s : AllocState) (order : Nat)
    (ind st_ind : scoutfs_buddy_indirect)
    (hdi : s.dirty_ind = some ind) (hsi : s.stable_ind = some st_ind)
    (hpop : ind_populated g ind) (b go : Nat) (s' : AllocState)
    (h : buddy_alloc g s order = (.ok (b, go), s')) :
    order < g.ORDERS ∧ go ≤ order ∧ alloc_order g s go = (.ok b, s') ∧
      (∀ o', go < o' → o' ≤ order → alloc_order g s o' = (.error .ENOSPC, s)) := by
  unfold buddy_alloc at h
  by_cases hge : g.ORDERS ≤ order
  · rw [if_pos hge] at h; cases h
  · rw [if_neg hge] at h
    obtain ⟨h1, h2, h3⟩ := buddy_alloc_go_populated_ok g ind st_ind order s b go s'
      hdi hsi hpop h
    exact ⟨by omega, h1, h2, h3⟩

/-- Freeness of a block in the dirty view: the dirty slot's buddy block
has a free bit at some order covering the block. -/
def dirty_free_block (g : Geo) (s : AllocState) (b : Nat) : Prop :=
  ∀ ind, s.dirty_ind = some ind →
    ∃ bud, (ind.slots.getD (indirect_slot g b) ⟨0, none⟩).bud = some bud ∧
      test_buddy_bit_or_higher g bud 0 (buddy_bit g b) = true

theorem tbh_of_bit (g : Geo) (bud : scoutfs_buddy_block) (found nr : Nat)
    (hfO : found < g.ORDERS) (hbit : test_buddy_bit g bud found nr = true) :
    test_buddy_bit_or_higher g bud found nr = true := by
  rw [test_buddy_bit_or_higher_iff]
  refine ⟨found, le_refl _, hfO, ?_⟩
  rw [Nat.sub_self, Nat.shiftRight_zero]
  exact hbit

/-- Claim C4: for every valid requested order (0 ≤ order < ORDERS), a
successful buddy_alloc grants an order never larger than requested,
produced by retrying the per-order allocation at successively smaller
orders (every strictly larger tried order failed with ENOSPC and left the
state unchanged), and the returned blkno is the start of an extent of
2^granted blocks each free in the dirty view at the time of the call. -/
theorem buddy_alloc_granted (g : Geo) (hw : GeoWF g) (s : AllocState)
    (ind st_ind : scoutfs_buddy_indirect)
    (hdi : s.dirty_ind = some ind) (hsi : s.stable_ind = some st_ind)
    (hpop : ind_populated g ind)
    (order b go : Nat) (s' : AllocState)
    (h : buddy_alloc g s order = (.ok (b, go), s')) :
    go ≤ order ∧
    (∀ o', go < o' → o' ≤ order → alloc_order g s o' = (.error .ENOSPC, s)) ∧
    (∀ k, k < 2 ^ go → dirty_free_block g s (b + k)) := by
  obtain ⟨hO, e, hB, hOe⟩ := hw
  obtain ⟨hordO, hgoord, hao, hretry⟩ :=
    buddy_alloc_populated_ok g s order ind st_ind hdi hsi hpop b go s' h
  refine ⟨hgoord, hretry, ?_⟩
  obtain ⟨sl, ind2, hsl, halloc, _⟩ :=
    alloc_order_populated_ok g s go ind st_ind hdi hsi hpop b s' hao
  obtain ⟨bud, hbud⟩ := Option.isSome_iff_exists.mp (hpop sl hsl)
  obtain ⟨_, nr, found, hff, hb, _⟩ :=
    alloc_slot_ok_populated g s ind sl (st_ind.slots.getD sl ⟨0, none⟩) go bud hbud
      b ind2 s halloc
  obtain ⟨hgof, hfO, hbit, _, hnrb⟩ :=
    find_first_fit_sound g sl bud (st_ind.slots.getD sl ⟨0, none⟩).bud go nr found hff
  intro k hk
  have hkf : k < 2 ^ found :=
    lt_of_lt_of_le hk (Nat.pow_le_pow_right (by norm_num) hgof)
  have hmath := extent_block_math g e hB sl found nr k (by omega) hnrb hkf
  intro indq hindq
  rw [hdi] at hindq
  cases hindq
  refine ⟨bud, ?_, ?_⟩
  · rw [hb, hmath.1]
    exact hbud
  · rw [hb, hmath.2.1]
    exact tbh_zero_of_tbh g bud found nr k hkf (tbh_of_bit g bud found nr hfO hbit)

/-- The state after buddy_alloc gWA sWA 1. -/
def sWA2 : AllocState :=
  ⟨some 1, some 1, some ⟨[⟨0, some ⟨0, [0, 0]⟩⟩], [0, 0]⟩, some ⟨[⟨2, some budWD⟩], [0, 1]⟩⟩

theorem buddy_alloc_granted_witness :
    (ind_populated gWA ⟨[⟨2, some budWD⟩], [0, 1]⟩ ∧
      buddy_alloc gWA sWA 1 = (.ok (4, 1), sWA2)) ∧
    (1 ≤ 1 ∧
      (∀ o', 1 < o' → o' ≤ 1 → alloc_order gWA sWA o' = (.error .ENOSPC, sWA)) ∧
      (∀ k, k < 2 ^ 1 → dirty_free_block gWA sWA (4 + k))) :=
  ⟨⟨by decide, by decide⟩,
   buddy_alloc_granted gWA gWA_wf sWA ⟨[⟨2, some budWD⟩], [0, 1]⟩ ⟨[⟨2, some budWD⟩], [0, 1]⟩
     rfl rfl (by decide) 1 4 1 sWA2 (by decide)⟩

/-! ### scoutfs_buddy_free_extent decomposition -/

/-- The (blkno, order) frees performed by scoutfs_buddy_free_extent,
mirrored from free_extent_go. -/
def free_extent_steps_go (g : Geo) : Nat → Nat → Nat → List (Nat × Nat)
  | _, _, 0 => []
  | blkno, count, fuel + 1 =>
    if count = 0 then []
    else
      let order := min3 (__ffs64 (buddy_bit g blkno)) (fls64 count - 1) (g.ORDERS - 1)
      (blkno, order) :: free_extent_steps_go g (blkno + 2 ^ order) (count - 2 ^ order) fuel

/-- The frees performed by scoutfs_buddy_free_extent g s blkno count. -/
def free_extent_steps (g : Geo) (blkno count : Nat) : List (Nat × Nat) :=
  free_extent_steps_go g blkno count count

theorem fls_go_le (n : Nat) : ∀ k, fls_go n k ≤ k := by
  intro k
  induction k with
  | zero => exact le_refl 0
  | succ m ih =>
    unfold fls_go
    by_cases h : n.testBit m
    · rw [if_pos h]
    · rw [if_neg h]; omega

theorem fls_go_bit (n : Nat) : ∀ k, 0 < fls_go n k → n.testBit (fls_go n k - 1) = true := by
  intro k
  induction k with
  | zero => intro h; cases h
  | succ m ih =>
    intro hpos
    unfold fls_go at hpos ⊢
    by_cases h : n.testBit m
    · rw [if_pos h]
      simpa using h
    · rw [if_neg h] at hpos ⊢
      exact ih hpos

theorem fls_go_zero (n : Nat) : ∀ k, fls_go n k = 0 → ∀ j, j < k → n.testBit j = false := by
  intro k
  induction k with
  | zero => intro _ j hj; omega
  | succ m ih =>
    intro hz j hj
    unfold fls_go at hz
    by_cases h : n.testBit m
    · rw [if_pos h] at hz; cases hz
    · rw [if_neg h] at hz
      rcases Nat.lt_succ_iff_lt_or_eq.mp hj with hj1 | rfl
      · exact ih hz j hj1
      · simpa using h

/-- For a nonzero count below 2^64, the extent order chosen by
scoutfs_buddy_free_extent satisfies 2^order ≤ count. -/
theorem free_extent_order_le (g : Geo) (blkno count : Nat)
    (h0 : count ≠ 0) (h64 : count < 2 ^ 64) :
    2 ^ min3 (__ffs64 (buddy_bit g blkno)) (fls64 count - 1) (g.ORDERS - 1) ≤ count := by
  have hflspos : 0 < fls64 count := by
    by_contra hc
    have hz : fls64 count = 0 := by omega
    have hall : ∀ j, count.testBit j = false := by
      intro j
      by_cases hj : j < 64
      · exact fls_go_zero count 64 hz j hj
      · exact Nat.testBit_lt_two_pow (lt_of_lt_of_le h64
          (Nat.pow_le_pow_right (by norm_num) (by omega)))
    exact h0 (Nat.eq_of_testBit_eq (fun j => by rw [hall j, Nat.zero_testBit]))
  have hbit := fls_go_bit count 64 hflspos
  have hge : 2 ^ (fls64 count - 1) ≤ count := Nat.testBit_implies_ge hbit
  calc 2 ^ min3 (__ffs64 (buddy_bit g blkno)) (fls64 count - 1) (g.ORDERS - 1)
      ≤ 2 ^ (fls64 count - 1) := by
        apply Nat.pow_le_pow_right (by norm_num)
        unfold min3
        omega
    _ ≤ count := hge

theorem free_extent_steps_go_fuel (g : Geo) :
    ∀ fuel fuel' blkno count, count ≤ fuel → count ≤ fuel' → count < 2 ^ 64 →
      free_extent_steps_go g blkno count fuel = free_extent_steps_go g blkno count fuel' := by
  intro fuel
  induction fuel with
  | zero =>
    intro fuel' blkno count hf hf' h64
    have : count = 0 := by omega
    subst this
    cases fuel' with
    | zero => rfl
    | succ m => simp [free_extent_steps_go]
  | succ n ih =>
    intro fuel' blkno count hf hf' h64
    by_cases h0 : count = 0
    · subst h0
      cases fuel' with
      | zero => simp [free_extent_steps_go]
      | succ m => simp [free_extent_steps_go]
    · cases fuel' with
      | zero => omega
      | succ m =>
        have hord := free_extent_order_le g blkno count h0 h64
        set o := min3 (__ffs64 (buddy_bit g blkno)) (fls64 count - 1) (g.ORDERS - 1) with ho
        have hp : 0 < 2 ^ o := Nat.pos_pow_of_pos o (by norm_num)
        unfold free_extent_steps_go
        rw [if_neg h0, if_neg h0]
        dsimp only
        rw [← ho, ih m (blkno + 2 ^ o) (count - 2 ^ o) (by omega) (by omega) (by omega)]

/-- Claim C9: scoutfs_buddy_free_extent frees the unaligned run [blkno,
blkno + count) by iterating: the step list is empty for count = 0;
otherwise the first step frees the aligned extent of 2^order blocks at
blkno with order = min(ffs64 of the slot offset, floor(log2 count),
ORDERS-1) and the remaining steps decompose the advanced run; the state
evolution is exactly the fold of scoutfs_buddy_free over the steps; the
steps' sizes sum to count, so exactly count blocks are freed in total,
and the freed extents cover exactly [blkno, blkno + count). -/
theorem free_extent_decomposition (g : Geo) (s : AllocState) (blkno count : Nat)
    (h64 : count < 2 ^ 64) :
    free_extent_steps g blkno 0 = [] ∧
    (count ≠ 0 →
      free_extent_steps g blkno count =
        (blkno, min3 (__ffs64 (buddy_bit g blkno)) (fls64 count - 1) (g.ORDERS - 1)) ::
          free_extent_steps g
            (blkno + 2 ^ min3 (__ffs64 (buddy_bit g blkno)) (fls64 count - 1) (g.ORDERS - 1))
            (count - 2 ^ min3 (__ffs64 (buddy_bit g blkno)) (fls64 count - 1) (g.ORDERS - 1))) ∧
    scoutfs_buddy_free_extent g s blkno count =
      (free_extent_steps g blkno count).foldl
        (fun st p => (scoutfs_buddy_free g st p.1 p.2).2) s ∧
    ((free_extent_steps g blkno count).map (fun p => 2 ^ p.2)).sum = count ∧
    (∀ x, (∃ p ∈ free_extent_steps g blkno count, p.1 ≤ x ∧ x < p.1 + 2 ^ p.2) ↔
      (blkno ≤ x ∧ x < blkno + count)) := by
  have key : ∀ fuel b c, c ≤ fuel → c < 2 ^ 64 →
      (∀ sA, free_extent_go g sA b c fuel =
        (free_extent_steps_go g b c fuel).foldl
          (fun st p => (scoutfs_buddy_free g st p.1 p.2).2) sA) ∧
      ((free_extent_steps_go g b c fuel).map (fun p => 2 ^ p.2)).sum = c ∧
      (∀ x, (∃ p ∈ free_extent_steps_go g b c fuel, p.1 ≤ x ∧ x < p.1 + 2 ^ p.2) ↔
        (b ≤ x ∧ x < b + c)) := by
    intro fuel
    induction fuel with
    | zero =>
      intro b c hc h64'
      have : c = 0 := by omega
      subst this
      refine ⟨fun sA => rfl, rfl, ?_⟩
      intro x
      simp [free_extent_steps_go]
    | succ n ih =>
      intro b c hc h64'
      by_cases h0 : c = 0
      · subst h0
        unfold free_extent_go free_extent_steps_go
        refine ⟨fun sA => by rw [if_pos rfl]; rfl, by rw [if_pos rfl]; rfl, ?_⟩
        intro x
        rw [if_pos rfl]
        simp
      · have hord := free_extent_order_le g b c h0 h64'
        set o := min3 (__ffs64 (buddy_bit g b)) (fls64 c - 1) (g.ORDERS - 1) with ho
        have hp : 0 < 2 ^ o := Nat.pos_pow_of_pos o (by norm_num)
        have hrec := ih (b + 2 ^ o) (c - 2 ^ o) (by omega) (by omega)
        have hsteps : free_extent_steps_go g b c (n + 1) =
            (b, o) :: free_extent_steps_go g (b + 2 ^ o) (c - 2 ^ o) n := by
          conv_lhs => unfold free_extent_steps_go
          rw [if_neg h0]
        have hgo : ∀ sA, free_extent_go g sA b c (n + 1) =
            free_extent_go g (scoutfs_buddy_free g sA b o).2 (b + 2 ^ o) (c - 2 ^ o) n := by
          intro sA
          conv_lhs => unfold free_extent_go
          rw [if_neg h0]
        refine ⟨?_, ?_, ?_⟩
        · intro sA
          rw [hgo sA, hsteps]
          rw [List.foldl_cons]
          exact hrec.1 _
        · rw [hsteps]
          rw [List.map_cons, List.sum_cons, hrec.2.1]
          dsimp only
          omega
        · intro x
          rw [hsteps]
          simp only [List.mem_cons]
          constructor
          · rintro ⟨p, hp2, hx1, hx2⟩
            rcases hp2 with rfl | hp2
            · dsimp only at hx1 hx2
              exact ⟨hx1, by omega⟩
            · have := (hrec.2.2 x).mp ⟨p, hp2, hx1, hx2⟩
              omega
          · rintro ⟨hx1, hx2⟩
            by_cases hxf : x < b + 2 ^ o
            · exact ⟨(b, o), Or.inl rfl, hx1, hxf⟩
            · obtain ⟨p, hp2, hq1, hq2⟩ := (hrec.2.2 x).mpr ⟨by omega, by omega⟩
              exact ⟨p, Or.inr hp2, hq1, hq2⟩
  have hkey := key count blkno count (le_refl count) h64
  refine ⟨?_, ?_, hkey.1 s, hkey.2.1, hkey.2.2⟩
  · unfold free_extent_steps
    rfl
  · intro h0
    obtain ⟨m, hm⟩ := Nat.exists_eq_succ_of_ne_zero h0
    subst hm
    have hord := free_extent_order_le g blkno (m + 1) (by omega) h64
    set o := min3 (__ffs64 (buddy_bit g blkno)) (fls64 (m + 1) - 1) (g.ORDERS - 1) with ho
    have hp : 0 < 2 ^ o := Nat.pos_pow_of_pos o (by norm_num)
    have hstep : free_extent_steps g blkno (m + 1) =
        (blkno, o) :: free_extent_steps_go g (blkno + 2 ^ o) (m + 1 - 2 ^ o) m := by
      conv_lhs => unfold free_extent_steps free_extent_steps_go
      rw [if_neg (by omega : ¬(m + 1 = 0))]
    rw [hstep]
    congr 1
    conv_rhs => unfold free_extent_steps
    exact free_extent_steps_go_fuel g m (m + 1 - 2 ^ o) (blkno + 2 ^ o) (m + 1 - 2 ^ o)
      (by omega) (le_refl _) (by omega)

theorem free_extent_decomposition_witness :
    ((3 : Nat) < 2 ^ 64) ∧
    ((free_extent_steps gWA 5 3).map (fun p => 2 ^ p.2)).sum = 3 :=
  ⟨by norm_num, (free_extent_decomposition gWA sWA 5 3 (by norm_num)).2.2.2.1⟩

/-! ### The buddy_free merge loop -/

/-- Number of merge steps buddy_free performs: ascend while the buddy bit
at the current order is free and fuel remains. -/
def mergeDepth (g : Geo) (bud : scoutfs_buddy_block) : Nat → Nat → Nat → Nat
  | _, _, 0 => 0
  | i, nr, fuel + 1 =>
    if test_buddy_bit g bud i (nr ^^^ 1) then mergeDepth g bud (i + 1) (nr >>> 1) fuel + 1
    else 0

/-- The first k merge steps applied to (ind, bud): clear the buddy of the
current position at each ascending order. -/
def mergeFold (g : Geo) : scoutfs_buddy_indirect → scoutfs_buddy_block → Nat → Nat → Nat →
    scoutfs_buddy_indirect × scoutfs_buddy_block
  | ind, bud, _, _, 0 => (ind, bud)
  | ind, bud, i, nr, k + 1 =>
    let p := clear_buddy_bit g ind bud i (nr ^^^ 1)
    mergeFold g p.1 p.2 (i + 1) (nr >>> 1) k

theorem mergeDepth_le (g : Geo) (bud : scoutfs_buddy_block) :
    ∀ fuel i nr, mergeDepth g bud i nr fuel ≤ fuel := by
  intro fuel
  induction fuel with
  | zero => intro i nr; exact le_refl 0
  | succ n ih =>
    intro i nr
    unfold mergeDepth
    by_cases h : test_buddy_bit g bud i (nr ^^^ 1) = true
    · rw [if_pos h]
      have := ih (i + 1) (nr >>> 1)
      omega
    · rw [if_neg h]
      omega

theorem mergeDepth_tests (g : Geo) (bud : scoutfs_buddy_block) :
    ∀ fuel i nr,
      (∀ j, j < mergeDepth g bud i nr fuel →
        test_buddy_bit g bud (i + j) ((nr >>> j) ^^^ 1) = true) ∧
      (mergeDepth g bud i nr fuel < fuel →
        test_buddy_bit g bud (i + mergeDepth g bud i nr fuel)
          ((nr >>> mergeDepth g bud i nr fuel) ^^^ 1) = false) := by
  intro fuel
  induction fuel with
  | zero =>
    intro i nr
    constructor
    · intro j hj
      simp [mergeDepth] at hj
    · intro h
      simp [mergeDepth] at h
  | succ n ih =>
    intro i nr
    unfold mergeDepth
    by_cases h : test_buddy_bit g bud i (nr ^^^ 1) = true
    · rw [if_pos h]
      obtain ⟨ih1, ih2⟩ := ih (i + 1) (nr >>> 1)
      constructor
      · intro j hj
        cases j with
        | zero => simpa using h
        | succ m =>
          have := ih1 m (by omega)
          rw [show i + (m + 1) = (i + 1) + m by omega,
              show nr >>> (m + 1) = (nr >>> 1) >>> m by
                rw [← Nat.shiftRight_add]; congr 1; omega]
          exact this
      · intro hlt
        have := ih2 (by omega)
        rw [show i + (mergeDepth g bud (i + 1) (nr >>> 1) n + 1) =
              (i + 1) + mergeDepth g bud (i + 1) (nr >>> 1) n by omega,
            show nr >>> (mergeDepth g bud (i + 1) (nr >>> 1) n + 1) =
              (nr >>> 1) >>> mergeDepth g bud (i + 1) (nr >>> 1) n by
                rw [← Nat.shiftRight_add]; congr 1; omega]
        exact this
    · rw [if_neg h]
      constructor
      · intro j hj
        omega
      · intro _
        simp only [Nat.add_zero, Nat.shiftRight_zero]
        rw [Bool.not_eq_true] at h
        exact h

theorem test_buddy_bit_clear_other (g : Geo) (ind : scoutfs_buddy_indirect)
    (bud : scoutfs_buddy_block) (o n o' n' : Nat)
    (hne : order_nr g o' n' ≠ order_nr g o n) :
    test_buddy_bit g (clear_buddy_bit g ind bud o n).2 o' n' =
      test_buddy_bit g bud o' n' := by
  unfold clear_buddy_bit
  by_cases h : test_buddy_bit g bud o n = true
  · rw [if_pos h]
    unfold test_buddy_bit test_bit_le
    rw [testBit_clear_bit_le]
    simp [hne.symm]
  · rw [if_neg h]

theorem test_buddy_bit_set_other (g : Geo) (ind : scoutfs_buddy_indirect)
    (bud : scoutfs_buddy_block) (o n o' n' : Nat)
    (hne : order_nr g o' n' ≠ order_nr g o n) :
    test_buddy_bit g (set_buddy_bit g ind bud o n).2 o' n' =
      test_buddy_bit g bud o' n' := by
  unfold set_buddy_bit
  by_cases h : test_buddy_bit g bud o n = true
  · rw [if_pos h]
  · rw [if_neg h]
    unfold test_buddy_bit test_bit_le
    rw [testBit_set_bit_le]
    simp [hne.symm]

theorem mergeDepth_congr (g : Geo) (budA budB : scoutfs_buddy_block) :
    ∀ fuel i nr,
      (∀ j, j < fuel →
        test_buddy_bit g budA (i + j) ((nr >>> j) ^^^ 1) =
          test_buddy_bit g budB (i + j) ((nr >>> j) ^^^ 1)) →
      mergeDepth g budA i nr fuel = mergeDepth g budB i nr fuel := by
  intro fuel
  induction fuel with
  | zero => intro i nr _; rfl
  | succ n ih =>
    intro i nr hsame
    unfold mergeDepth
    have h0 := hsame 0 (by omega)
    simp only [Nat.add_zero, Nat.shiftRight_zero] at h0
    rw [h0]
    by_cases h : test_buddy_bit g budB i (nr ^^^ 1) = true
    · rw [if_pos h, if_pos h]
      congr 1
      apply ih
      intro j hj
      have := hsame (j + 1) (by omega)
      rw [show i + (j + 1) = (i + 1) + j by omega,
          show nr >>> (j + 1) = (nr >>> 1) >>> j by
            rw [← Nat.shiftRight_add]; congr 1; omega] at this
      exact this
    · rw [if_neg h, if_neg h]

/-- The merge loop of buddy_free computes mergeDepth steps of mergeFold.
The bounds keep every tested buddy position inside its order's region so
that the clears performed along the way cannot alias a later test. -/
theorem merge_go_spec (g : Geo) (e : Nat) (hB : g.ORDER0_BITS = 2 ^ e) :
    ∀ fuel i nr ind bud, i + fuel ≤ e → nr < 2 ^ (e - i) →
      merge_go g ind bud i nr fuel =
        ((mergeFold g ind bud i nr (mergeDepth g bud i nr fuel)).1,
         (mergeFold g ind bud i nr (mergeDepth g bud i nr fuel)).2,
         i + mergeDepth g bud i nr fuel, nr >>> mergeDepth g bud i nr fuel) := by
  intro fuel
  induction fuel with
  | zero =>
    intro i nr ind bud _ _
    unfold merge_go mergeDepth mergeFold
    simp
  | succ n ih =>
    intro i nr ind bud hie hnr
    unfold merge_go mergeDepth
    by_cases h : test_buddy_bit g bud i (nr ^^^ 1) = true
    · rw [if_pos h, if_pos h]
      dsimp only
      have hrec := ih (i + 1) (nr >>> 1) (clear_buddy_bit g ind bud i (nr ^^^ 1)).1
        (clear_buddy_bit g ind bud i (nr ^^^ 1)).2 (by omega)
        (by
          have : nr >>> 1 = nr / 2 := by rw [Nat.shiftRight_eq_div_pow]
          rw [this]
          have hpow : (2 : Nat) ^ (e - i) = 2 ^ (e - (i + 1)) * 2 := by
            rw [← Nat.pow_succ]
            congr 1
            omega
          rw [hpow] at hnr
          omega)
      have hdep : mergeDepth g (clear_buddy_bit g ind bud i (nr ^^^ 1)).2 (i + 1) (nr >>> 1) n =
          mergeDepth g bud (i + 1) (nr >>> 1) n := by
        apply mergeDepth_congr
        intro j hj
        apply test_buddy_bit_clear_other
        intro hcontra
        have hji : i + 1 + j ≤ e := by omega
        have hrange1 : ((nr >>> 1) >>> j) ^^^ 1 < 2 ^ (e - (i + 1 + j)) := by
          have hsh : (nr >>> 1) >>> j = nr / 2 ^ (j + 1) := by
            rw [← Nat.shiftRight_add, Nat.shiftRight_eq_div_pow, Nat.add_comm]
          have hdiv : nr / 2 ^ (j + 1) < 2 ^ (e - (i + 1 + j)) := by
            apply Nat.div_lt_of_lt_mul
            calc nr < 2 ^ (e - i) := hnr
              _ ≤ 2 ^ (j + 1) * 2 ^ (e - (i + 1 + j)) := by
                  rw [← Nat.pow_add]
                  apply Nat.pow_le_pow_right (by norm_num)
                  omega
          rw [hsh]
          have h2 : (1 : Nat) < 2 ^ (e - (i + 1 + j)) := by
            have : 1 ≤ e - (i + 1 + j) := by omega
            calc (1 : Nat) < 2 ^ 1 := by norm_num
              _ ≤ 2 ^ (e - (i + 1 + j)) := Nat.pow_le_pow_right (by norm_num) this
          exact Nat.xor_lt_two_pow hdiv h2
        have hrange2 : nr ^^^ 1 < 2 ^ (e - i) := by
          have h2 : (1 : Nat) < 2 ^ (e - i) := by
            have : 1 ≤ e - i := by omega
            calc (1 : Nat) < 2 ^ 1 := by norm_num
              _ ≤ 2 ^ (e - i) := Nat.pow_le_pow_right (by norm_num) this
          exact Nat.xor_lt_two_pow hnr h2
        have := order_nr_inj g e hB (i + 1 + j) i (((nr >>> 1) >>> j) ^^^ 1) (nr ^^^ 1)
          (by omega) (by omega) hrange1 hrange2 hcontra
        omega
      rw [hrec, hdep]
      have hfold : mergeFold g ind bud i nr (mergeDepth g bud (i + 1) (nr >>> 1) n + 1) =
          mergeFold g (clear_buddy_bit g ind bud i (nr ^^^ 1)).1
            (clear_buddy_bit g ind bud i (nr ^^^ 1)).2 (i + 1) (nr >>> 1)
            (mergeDepth g bud (i + 1) (nr >>> 1) n) := rfl
      have h3 : i + (mergeDepth g bud (i + 1) (nr >>> 1) n + 1) =
          i + 1 + mergeDepth g bud (i + 1) (nr >>> 1) n := by omega
      have h4 : nr >>> (mergeDepth g bud (i + 1) (nr >>> 1) n + 1) =
          (nr >>> 1) >>> mergeDepth g bud (i + 1) (nr >>> 1) n := by
        rw [← Nat.shiftRight_add]
        congr 1
        omega
      rw [hfold, h3, h4]
    · rw [if_neg h, if_neg h]
      unfold mergeFold
      simp

theorem getD_set_self {α : Type} (l : List α) (i : Nat) (a d : α) (h : i < l.length) :
    (l.set i a).getD i d = a := by
  simp [List.getD, List.getElem?_set_self h]

theorem xor_one_xor_one (n : Nat) : n ^^^ 1 ^^^ 1 = n := by
  rw [Nat.xor_assoc, Nat.xor_self, Nat.xor_zero]

theorem xor_one_ne (n : Nat) : n ^^^ 1 ≠ n := by
  intro h
  have h0 := congrArg (fun m => m.testBit 0) h
  simp only [Nat.testBit_xor] at h0
  rw [show Nat.testBit 1 0 = true from rfl] at h0
  cases hb : n.testBit 0 <;> simp [hb] at h0

theorem xor_one_shiftRight (n : Nat) : (n ^^^ 1) >>> 1 = n >>> 1 := by
  apply Nat.eq_of_testBit_eq
  intro j
  simp only [Nat.testBit_shiftRight, Nat.testBit_xor]
  have h1 : (1 : Nat).testBit (1 + j) = false := by
    rw [show (1 : Nat) = 2 ^ 0 from rfl]
    exact Nat.testBit_two_pow_of_ne (by omega)
  rw [h1]
  simp

theorem test_buddy_bit_set_self (g : Geo) (ind : scoutfs_buddy_indirect)
    (bud : scoutfs_buddy_block) (o n : Nat) :
    test_buddy_bit g (set_buddy_bit g ind bud o n).2 o n = true := by
  unfold set_buddy_bit
  by_cases h : test_buddy_bit g bud o n = true
  · rw [if_pos h]
    exact h
  · rw [if_neg h]
    unfold test_buddy_bit test_bit_le
    rw [testBit_set_bit_le]
    simp

theorem test_buddy_bit_clear_self (g : Geo) (ind : scoutfs_buddy_indirect)
    (bud : scoutfs_buddy_block) (o n : Nat) :
    test_buddy_bit g (clear_buddy_bit g ind bud o n).2 o n = false := by
  unfold clear_buddy_bit
  by_cases h : test_buddy_bit g bud o n = true
  · rw [if_pos h]
    unfold test_buddy_bit test_bit_le
    rw [testBit_clear_bit_le]
    simp
  · rw [if_neg h]
    simpa using h

theorem set_buddy_bit_slots (g : Geo) (ind : scoutfs_buddy_indirect)
    (bud : scoutfs_buddy_block) (o n : Nat) :
    (set_buddy_bit g ind bud o n).1.slots = ind.slots := by
  unfold set_buddy_bit
  by_cases h : test_buddy_bit g bud o n = true
  · rw [if_pos h]
  · rw [if_neg h]

theorem clear_buddy_bit_slots (g : Geo) (ind : scoutfs_buddy_indirect)
    (bud : scoutfs_buddy_block) (o n : Nat) :
    (clear_buddy_bit g ind bud o n).1.slots = ind.slots := by
  unfold clear_buddy_bit
  by_cases h : test_buddy_bit g bud o n = true
  · rw [if_pos h]
  · rw [if_neg h]

theorem buddy_bit_lt (g : Geo) (e : Nat) (hB : g.ORDER0_BITS = 2 ^ e) (blkno : Nat) :
    buddy_bit g blkno < 2 ^ e := by
  unfold buddy_bit
  rw [hB]
  exact Nat.mod_lt _ (Nat.pos_pow_of_pos e (by norm_num))

theorem nr_lt (g : Geo) (e : Nat) (hB : g.ORDER0_BITS = 2 ^ e) (blkno order : Nat)
    (h : order ≤ e) : buddy_bit g blkno >>> order < 2 ^ (e - order) := by
  rw [Nat.shiftRight_eq_div_pow]
  apply Nat.div_lt_of_lt_mul
  calc buddy_bit g blkno < 2 ^ e := buddy_bit_lt g e hB blkno
    _ = 2 ^ order * 2 ^ (e - order) := by rw [← Nat.pow_add]; congr 1; omega

/-- The state a successful buddy_free leaves behind (the tail of buddy_free
after its guards): merge, set the resulting bit, write the block back. -/
def buddy_free_result (g : Geo) (s : AllocState) (ind : scoutfs_buddy_indirect)
    (bud : scoutfs_buddy_block) (sl order nr : Nat) : AllocState :=
  let m := merge_go g ind bud order nr (g.ORDERS - 1 - order)
  let p := set_buddy_bit g m.1 m.2.1 m.2.2.1 m.2.2.2
  { s with dirty_ind := some { p.1 with
      slots := p.1.slots.set sl ⟨update_free_orders g p.2, some p.2⟩ } }

theorem buddy_free_eq (g : Geo) (s : AllocState) (blkno order : Nat)
    (ind : scoutfs_buddy_indirect) (bud : scoutfs_buddy_block)
    (hind : s.dirty_ind = some ind)
    (hbud : (ind.slots.getD (indirect_slot g blkno) ⟨0, none⟩).bud = some bud)
    (hord : order < g.ORDERS) (hval : valid_order g blkno order = true) :
    buddy_free g s blkno order =
      (.ok (), buddy_free_result g s ind bud (indirect_slot g blkno) order
        (buddy_bit g blkno >>> order)) := by
  have hguard : ¬(g.ORDERS ≤ order ∨ valid_order g blkno order = false) := by
    push_neg
    exact ⟨by omega, by simp [hval]⟩
  unfold buddy_free
  rw [if_neg hguard, hind]
  dsimp only
  rw [hbud]
  rfl

/-- A small power-of-two geometry for concrete buddy_free runs: ORDERS = 3,
ORDER0_BITS = 4, one slot, first_blkno = 4, twelve blocks. -/
def g6 : Geo := ⟨3, 4, 1, 1, 2, 1, 12, 1, 2⟩

/-- A buddy block whose only free bit is (order 1, nr 1): bit 5, blocks 6-7. -/
def bud6 : scoutfs_buddy_block := ⟨32, [0, 1, 0]⟩

/-- One populated slot holding bud6. -/
def ind6 : scoutfs_buddy_indirect := ⟨[⟨2, some bud6⟩], [0, 1, 0]⟩

/-- Both views populated with ind6. -/
def s6 : AllocState := ⟨some 1, some 1, some ind6, some ind6⟩

/-- A fully allocated buddy block: no free bit at any order. -/
def bud60 : scoutfs_buddy_block := ⟨0, [0, 0, 0]⟩

/-- One populated slot holding bud60. -/
def ind60 : scoutfs_buddy_indirect := ⟨[⟨0, some bud60⟩], [0, 0, 0]⟩

/-- Both views populated with ind60. -/
def s60 : AllocState := ⟨some 1, some 1, some ind60, some ind60⟩

/-- The dirty view's buddy block of a slot, when present. -/
def dirty_slot_bud (g : Geo) (s : AllocState) (sl : Nat) : Option scoutfs_buddy_block :=
  match s.dirty_ind with
  | none => none
  | some ind => (ind.slots.getD sl ⟨0, none⟩).bud

/-- C6: buddy_free(blkno, order) performs the canonical merge loop of the
source: starting at nr = buddy_bit(blkno) >> order it clears the buddy bit
nr ^ 1 and halves nr while that bit is set and the order is below ORDERS-1
(first conjunct: the loop computes mergeDepth steps of mergeFold, ascending
exactly while the original block has the buddy bit set, and the final bit is
set at the resulting order and position).  The claim's completeness
consequence holds as amended (second conjunct): after freeing both buddies
of an order the parent bit is set and both child bits are clear, PROVIDED
the merge stops at the parent — the parent's own buddy is not also free, or
the parent is the top order.  Without that proviso the sentence is false:
the merge cascades past the parent and clears its bit again. -/
theorem buddy_free_canonical_merge (g : Geo) (e : Nat)
    (hB : g.ORDER0_BITS = 2 ^ e) (hOe : g.ORDERS ≤ e + 1) :
    (∀ s blkno order ind bud nr k,
      s.dirty_ind = some ind →
      (ind.slots.getD (indirect_slot g blkno) ⟨0, none⟩).bud = some bud →
      order < g.ORDERS → valid_order g blkno order = true →
      nr = buddy_bit g blkno >>> order →
      k = mergeDepth g bud order nr (g.ORDERS - 1 - order) →
      buddy_free g s blkno order =
          (.ok (), buddy_free_result g s ind bud (indirect_slot g blkno) order nr) ∧
        merge_go g ind bud order nr (g.ORDERS - 1 - order) =
          ((mergeFold g ind bud order nr k).1, (mergeFold g ind bud order nr k).2,
           order + k, nr >>> k) ∧
        (∀ j, j < k → test_buddy_bit g bud (order + j) ((nr >>> j) ^^^ 1) = true) ∧
        (k < g.ORDERS - 1 - order →
          test_buddy_bit g bud (order + k) ((nr >>> k) ^^^ 1) = false)) ∧
    (∀ s blkno1 blkno2 order ind bud,
      s.dirty_ind = some ind →
      (ind.slots.getD (indirect_slot g blkno1) ⟨0, none⟩).bud = some bud →
      indirect_slot g blkno1 < ind.slots.length →
      indirect_slot g blkno2 = indirect_slot g blkno1 →
      order + 1 < g.ORDERS →
      valid_order g blkno1 order = true → valid_order g blkno2 order = true →
      buddy_bit g blkno2 >>> order = (buddy_bit g blkno1 >>> order) ^^^ 1 →
      test_buddy_bit g bud order (buddy_bit g blkno1 >>> order) = false →
      test_buddy_bit g bud order ((buddy_bit g blkno1 >>> order) ^^^ 1) = false →
      (order + 2 = g.ORDERS ∨
        test_buddy_bit g bud (order + 1) (((buddy_bit g blkno1 >>> order) >>> 1) ^^^ 1)
          = false) →
      (buddy_free g s blkno1 order).1 = .ok () ∧
      (buddy_free g (buddy_free g s blkno1 order).2 blkno2 order).1 = .ok () ∧
      ∃ ind2 bud2,
        (buddy_free g (buddy_free g s blkno1 order).2 blkno2 order).2.dirty_ind
          = some ind2 ∧
        (ind2.slots.getD (indirect_slot g blkno1) ⟨0, none⟩).bud = some bud2 ∧
        test_buddy_bit g bud2 (order + 1) ((buddy_bit g blkno1 >>> order) >>> 1) = true ∧
        test_buddy_bit g bud2 order (buddy_bit g blkno1 >>> order) = false ∧
        test_buddy_bit g bud2 order ((buddy_bit g blkno1 >>> order) ^^^ 1) = false) := by
  constructor
  · intro s blkno order ind bud nr k hind hbud hord hval hnr hk
    subst hnr
    subst hk
    have hspec := merge_go_spec g e hB (g.ORDERS - 1 - order) order
      (buddy_bit g blkno >>> order) ind bud (by omega)
      (nr_lt g e hB blkno order (by omega))
    obtain ⟨ht1, ht2⟩ := mergeDepth_tests g bud (g.ORDERS - 1 - order) order
      (buddy_bit g blkno >>> order)
    exact ⟨buddy_free_eq g s blkno order ind bud hind hbud hord hval, hspec, ht1, ht2⟩
  · intro s blkno1 blkno2 order ind bud hind hbud hslen hsl2 hord2 hval1 hval2 hbb2 hc1 hc2 hnc
    have hord : order < g.ORDERS := by omega
    have hnrlt : buddy_bit g blkno1 >>> order < 2 ^ (e - order) :=
      nr_lt g e hB blkno1 order (by omega)
    set nr := buddy_bit g blkno1 >>> order with hnr
    set sl := indirect_slot g blkno1 with hsl
    obtain ⟨f, hf⟩ : ∃ f, g.ORDERS - 1 - order = f + 1 := ⟨g.ORDERS - 2 - order, by omega⟩
    have h1 := buddy_free_eq g s blkno1 order ind bud hind hbud hord hval1
    rw [← hnr, ← hsl] at h1
    have hm1 : merge_go g ind bud order nr (g.ORDERS - 1 - order) = (ind, bud, order, nr) := by
      rw [hf]
      unfold merge_go
      rw [if_neg (by simp [hc2])]
    set bud1 := (set_buddy_bit g ind bud order nr).2 with hbud1
    set indA := (set_buddy_bit g ind bud order nr).1 with hindA
    set ind1 : scoutfs_buddy_indirect :=
      { indA with slots := indA.slots.set sl ⟨update_free_orders g bud1, some bud1⟩ }
      with hind1
    have hfree1 : buddy_free g s blkno1 order = (.ok (), { s with dirty_ind := some ind1 }) := by
      rw [h1]
      unfold buddy_free_result
      rw [hm1]
    have hb1test : test_buddy_bit g bud1 order nr = true := by
      rw [hbud1]
      exact test_buddy_bit_set_self g ind bud order nr
    have hxor1 : (nr ^^^ 1) ^^^ 1 = nr := xor_one_xor_one nr
    have hnrh : nr >>> 1 < 2 ^ (e - (order + 1)) := by
      have h2 : 2 ^ (e - order) = 2 ^ (e - (order + 1)) * 2 := by
        rw [← Nat.pow_succ]
        congr 1
        omega
      have h3 := Nat.shiftRight_eq_div_pow nr 1
      rw [pow_one] at h3
      omega
    have hm2 : merge_go g ind1 bud1 order (nr ^^^ 1) (g.ORDERS - 1 - order) =
        ((clear_buddy_bit g ind1 bud1 order nr).1,
         (clear_buddy_bit g ind1 bud1 order nr).2, order + 1, nr >>> 1) := by
      rw [hf]
      unfold merge_go
      rw [hxor1, if_pos hb1test]
      dsimp only
      rw [xor_one_shiftRight]
      cases f with
      | zero => rfl
      | succ f2 =>
        have hORD3 : order + 3 ≤ g.ORDERS := by omega
        have htb : test_buddy_bit g bud (order + 1) ((nr >>> 1) ^^^ 1) = false := by
          rcases hnc with h | h
          · exact absurd h (by omega)
          · exact h
        have hx1 : (nr >>> 1) ^^^ 1 < 2 ^ (e - (order + 1)) := by
          apply Nat.xor_lt_two_pow hnrh
          have h1e : 1 ≤ e - (order + 1) := by omega
          calc (1 : Nat) < 2 ^ 1 := by norm_num
            _ ≤ 2 ^ (e - (order + 1)) := Nat.pow_le_pow_right (by norm_num) h1e
        have hne1 : order_nr g (order + 1) ((nr >>> 1) ^^^ 1) ≠ order_nr g order nr := by
          intro hcontra
          have := order_nr_inj g e hB (order + 1) order ((nr >>> 1) ^^^ 1) nr
            (by omega) (by omega) hx1 hnrlt hcontra
          omega
        have hstop : test_buddy_bit g (clear_buddy_bit g ind1 bud1 order nr).2
            (order + 1) ((nr >>> 1) ^^^ 1) = false := by
          rw [test_buddy_bit_clear_other g ind1 bud1 order nr (order + 1)
                ((nr >>> 1) ^^^ 1) hne1, hbud1,
              test_buddy_bit_set_other g ind bud order nr (order + 1)
                ((nr >>> 1) ^^^ 1) hne1]
          exact htb
        unfold merge_go
        rw [if_neg (by simp [hstop])]
    have hbudS1 : (ind1.slots.getD (indirect_slot g blkno2) ⟨0, none⟩).bud = some bud1 := by
      rw [hsl2, hind1]
      dsimp only
      rw [getD_set_self _ _ _ _ (by rw [hindA, set_buddy_bit_slots]; exact hslen)]
    have h2 := buddy_free_eq g { s with dirty_ind := some ind1 } blkno2 order ind1 bud1
      rfl hbudS1 hord hval2
    rw [hsl2, hbb2] at h2
    set Q := clear_buddy_bit g ind1 bud1 order nr with hQ
    set P := set_buddy_bit g Q.1 Q.2 (order + 1) (nr >>> 1) with hP
    set ind2 : scoutfs_buddy_indirect :=
      { P.1 with slots := P.1.slots.set sl ⟨update_free_orders g P.2, some P.2⟩ }
      with hind2
    have hs2 : buddy_free_result g { s with dirty_ind := some ind1 } ind1 bud1 sl order
        (nr ^^^ 1) = { s with dirty_ind := some ind2 } := by
      unfold buddy_free_result
      rw [hm2]
    rw [hs2] at h2
    have hlen2 : sl < P.1.slots.length := by
      rw [hP, set_buddy_bit_slots, hQ, clear_buddy_bit_slots, hind1]
      dsimp only
      rw [List.length_set, hindA, set_buddy_bit_slots]
      exact hslen
    have hne2 : order_nr g order nr ≠ order_nr g (order + 1) (nr >>> 1) := by
      intro hcontra
      have := order_nr_inj g e hB order (order + 1) nr (nr >>> 1)
        (by omega) (by omega) hnrlt hnrh hcontra
      omega
    have hxlt : nr ^^^ 1 < 2 ^ (e - order) := by
      apply Nat.xor_lt_two_pow hnrlt
      have h1e : 1 ≤ e - order := by omega
      calc (1 : Nat) < 2 ^ 1 := by norm_num
        _ ≤ 2 ^ (e - order) := Nat.pow_le_pow_right (by norm_num) h1e
    have hne3 : order_nr g order (nr ^^^ 1) ≠ order_nr g (order + 1) (nr >>> 1) := by
      intro hcontra
      have := order_nr_inj g e hB order (order + 1) (nr ^^^ 1) (nr >>> 1)
        (by omega) (by omega) hxlt hnrh hcontra
      omega
    have hne4 : order_nr g order (nr ^^^ 1) ≠ order_nr g order nr := by
      unfold order_nr
      intro hcontra
      exact xor_one_ne nr (by omega)
    rw [hfree1]
    refine ⟨rfl, ?_, ?_⟩
    · dsimp only
      rw [h2]
    · dsimp only
      rw [h2]
      refine ⟨ind2, P.2, rfl, ?_, ?_, ?_, ?_⟩
      · rw [hind2]
        dsimp only
        rw [getD_set_self _ _ _ _ hlen2]
      · rw [hP]
        exact test_buddy_bit_set_self g Q.1 Q.2 (order + 1) (nr >>> 1)
      · rw [hP, test_buddy_bit_set_other g Q.1 Q.2 (order + 1) (nr >>> 1) order nr hne2,
            hQ]
        exact test_buddy_bit_clear_self g ind1 bud1 order nr
      · rw [hP, test_buddy_bit_set_other g Q.1 Q.2 (order + 1) (nr >>> 1) order
              (nr ^^^ 1) hne3, hQ,
            test_buddy_bit_clear_other g ind1 bud1 order nr order (nr ^^^ 1) hne4,
            hbud1,
            test_buddy_bit_set_other g ind bud order nr order (nr ^^^ 1) hne4]
        exact hc2

/-- C6 counterexample: with ORDER0_BITS = 4 and ORDERS = 3, start from a
block whose only free bit is (order 1, nr 1).  Freeing blocks 4 and 5 — the
two order-0 buddies of the pair — merges them to (order 1, nr 0), whose own
buddy (order 1, nr 1) is also free, so the merge cascades to order 2 and the
parent bit (order 1, nr 0) ends clear, refuting the unconditional sentence
"after freeing both buddies of any order, the parent order bit is set". -/
theorem buddy_free_merge_cex :
    test_buddy_bit g6 bud6 0 0 = false ∧
    test_buddy_bit g6 bud6 0 1 = false ∧
    dirty_slot_bud g6 s6 0 = some bud6 ∧
    (buddy_free g6 s6 4 0).1 = .ok () ∧
    (buddy_free g6 (buddy_free g6 s6 4 0).2 5 0).1 = .ok () ∧
    Option.map (fun b => test_buddy_bit g6 b 1 0)
      (dirty_slot_bud g6 (buddy_free g6 (buddy_free g6 s6 4 0).2 5 0).2 0) = some false := by
  decide

/-- C6 witness: in the same geometry, freeing the order-0 buddies 4 and 5 of
a fully allocated block merges them to the parent bit (order 1, nr 0), which
ends set with both child bits clear, because the parent's own buddy is not
free. -/
theorem buddy_free_canonical_merge_witness :
    (buddy_free g6 s60 4 0).1 = .ok () ∧
    (buddy_free g6 (buddy_free g6 s60 4 0).2 5 0).1 = .ok () ∧
    ∃ ind2 bud2,
      (buddy_free g6 (buddy_free g6 s60 4 0).2 5 0).2.dirty_ind = some ind2 ∧
      (ind2.slots.getD (indirect_slot g6 4) ⟨0, none⟩).bud = some bud2 ∧
      test_buddy_bit g6 bud2 (0 + 1) ((buddy_bit g6 4 >>> 0) >>> 1) = true ∧
      test_buddy_bit g6 bud2 0 (buddy_bit g6 4 >>> 0) = false ∧
      test_buddy_bit g6 bud2 0 ((buddy_bit g6 4 >>> 0) ^^^ 1) = false :=
  (buddy_free_canonical_merge g6 2 (by decide) (by decide)).2 s60 4 5 0 ind60 bud60
    rfl rfl (by decide) rfl (by decide) (by decide) (by decide) (by decide)
    (by decide) (by decide) (Or.inr (by decide))

/-! ### Completeness of find_first_fit: an empty scan really saw nothing -/

/-- The acceptance test of find_first_fit: the stable buddy block exists
and covers the candidate at this or a higher order. -/
def stable_covers (g : Geo) (st_bud : Option scoutfs_buddy_block) (i nr : Nat) : Bool :=
  match st_bud with
  | none => false
  | some sb => test_buddy_bit_or_higher g sb i nr

/-- Cursor invariant of the find_first_fit scan: every dirty set bit below
a cursor already failed the stable coverage test. -/
def fff_rej (g : Geo) (bud : scoutfs_buddy_block) (st_bud : Option scoutfs_buddy_block)
    (ns : List Nat) : Prop :=
  ∀ i m, m < ns.getD i 0 → order_nr g i m < order_off g (i + 1) →
    test_buddy_bit g bud i m = true → stable_covers g st_bud i m = false

theorem getD_set_ne (l : List Nat) (i j v d : Nat) (h : i ≠ j) :
    (l.set i v).getD j d = l.getD j d := by
  simp [List.getD, List.getElem?_set_ne h]

theorem set_getD_or (ns : List Nat) (i v : Nat) :
    (ns.set i v).getD i 0 = v ∨ ns.set i v = ns := by
  by_cases h : i < ns.length
  · exact Or.inl (getD_set_self ns i v 0 h)
  · exact Or.inr (List.set_eq_of_length_le (by omega))

/-- Sum of f over 0..n-1. -/
def sumBelow (f : Nat → Nat) : Nat → Nat
  | 0 => 0
  | n + 1 => sumBelow f n + f n

theorem sumBelow_mono (f h : Nat → Nat) :
    ∀ n, (∀ j, j < n → f j ≤ h j) → sumBelow f n ≤ sumBelow h n := by
  intro n
  induction n with
  | zero => intro _; exact le_refl 0
  | succ m ih =>
    intro hle
    unfold sumBelow
    have h1 := ih (fun j hj => hle j (by omega))
    have h2 := hle m (by omega)
    omega

theorem sumBelow_strict (f h : Nat → Nat) (i : Nat) :
    ∀ n, i < n → (∀ j, j < n → f j ≤ h j) → f i + 1 ≤ h i →
      sumBelow f n + 1 ≤ sumBelow h n := by
  intro n
  induction n with
  | zero => intro hi; omega
  | succ m ih =>
    intro hi hle hstrict
    unfold sumBelow
    by_cases him : i = m
    · subst him
      have h1 := sumBelow_mono f h i (fun j hj => hle j (by omega))
      omega
    · have h1 := ih (by omega) (fun j hj => hle j (by omega)) hstrict
      have h2 := hle m (by omega)
      omega

theorem sumBelow_bound (f : Nat → Nat) (c : Nat) :
    ∀ n, (∀ j, j < n → f j ≤ c) → sumBelow f n ≤ n * c := by
  intro n
  induction n with
  | zero => intro _; simp [sumBelow]
  | succ m ih =>
    intro hle
    unfold sumBelow
    have h1 := ih (fun j hj => hle j (by omega))
    have h2 := hle m (by omega)
    have h3 : (m + 1) * c = m * c + c := by ring
    omega

/-- Cap on each cursor's contribution to the scan measure. -/
def fffCap (g : Geo) : Nat := 2 * g.ORDER0_BITS + 2

/-- Scan measure: total (capped) cursor progress over all orders. -/
def fffMeasure (g : Geo) (ns : List Nat) : Nat :=
  sumBelow (fun i => min (ns.getD i 0) (fffCap g)) g.ORDERS

theorem fffMeasure_le_max (g : Geo) (ns : List Nat) :
    fffMeasure g ns ≤ g.ORDERS * fffCap g :=
  sumBelow_bound _ _ _ (fun _ _ => Nat.min_le_right _ _)

theorem fffMeasure_set_le (g : Geo) (ns : List Nat) (i v : Nat)
    (hv : min (ns.getD i 0) (fffCap g) ≤ min v (fffCap g)) :
    fffMeasure g ns ≤ fffMeasure g (ns.set i v) := by
  rcases set_getD_or ns i v with hc | hc
  · apply sumBelow_mono
    intro j _
    by_cases hij : i = j
    · subst hij
      rw [hc]
      exact hv
    · rw [getD_set_ne ns i j v 0 hij]
  · rw [hc]

theorem fffMeasure_set_lt (g : Geo) (ns : List Nat) (i v : Nat)
    (hiO : i < g.ORDERS) (hil : i < ns.length)
    (hv : min (ns.getD i 0) (fffCap g) + 1 ≤ min v (fffCap g)) :
    fffMeasure g ns + 1 ≤ fffMeasure g (ns.set i v) := by
  apply sumBelow_strict _ _ i _ hiO
  · intro j _
    by_cases hij : i = j
    · subst hij
      rw [getD_set_self ns i v 0 hil]
      omega
    · rw [getD_set_ne ns i j v 0 hij]
  · rw [getD_set_self ns i v 0 hil]
    exact hv

theorem order_off_le_twice (g : Geo) (k : Nat) :
    order_off g k ≤ 2 * g.ORDER0_BITS := by
  unfold order_off
  by_cases h : k = 0
  · rw [if_pos h]
    omega
  · rw [if_neg h]
    exact Nat.sub_le _ _

/-- The workhorse of find_first_fit completeness: one pass preserves the
cursor length and rejection invariant, never decreases the measure, reports
no progress only when every order's scan is exhausted (yielding rejection of
every in-region dirty bit of the scanned orders), loses no recorded best,
and strictly increases the measure whenever it makes progress without
recording a best candidate. -/
theorem fff_pass_main (g : Geo) (sl : Nat) (bud : scoutfs_buddy_block)
    (st_bud : Option scoutfs_buddy_block)
    (hIM : 2 * g.ORDER0_BITS + 2 ≤ INT_MAX) :
    ∀ fuel i st, i + fuel ≤ g.ORDERS → st.nrs.length = g.ORDERS →
      fff_rej g bud st_bud st.nrs →
      (fff_pass g sl bud st_bud st i fuel).nrs.length = g.ORDERS ∧
      fff_rej g bud st_bud (fff_pass g sl bud st_bud st i fuel).nrs ∧
      fffMeasure g st.nrs ≤ fffMeasure g (fff_pass g sl bud st_bud st i fuel).nrs ∧
      ((fff_pass g sl bud st_bud st i fuel).progress = false →
        st.progress = false ∧
        ∀ j m, i ≤ j → j < i + fuel → order_nr g j m < order_off g (j + 1) →
          test_buddy_bit g bud j m = true → stable_covers g st_bud j m = false) ∧
      ((fff_pass g sl bud st_bud st i fuel).best = none → st.best = none) ∧
      ((fff_pass g sl bud st_bud st i fuel).best = none →
        (fff_pass g sl bud st_bud st i fuel).progress = true →
        st.progress = true ∨
          fffMeasure g st.nrs + 1 ≤ fffMeasure g (fff_pass g sl bud st_bud st i fuel).nrs) := by
  intro fuel
  induction fuel with
  | zero =>
    intro i st _ hlen hrej
    refine ⟨hlen, hrej, le_refl _, ?_, fun h => h, ?_⟩
    · intro hp
      exact ⟨hp, fun j m h1 h2 _ _ => absurd h2 (by omega)⟩
    · intro _ hp
      exact Or.inl hp
  | succ n ih =>
    intro i st hin hlen hrej
    have hiO : i < g.ORDERS := by omega
    have hil : i < st.nrs.length := by omega
    unfold fff_pass
    cases hfnb : find_next_buddy_bit g bud i (st.nrs.getD i 0) with
    | none =>
      dsimp only
      have hrej1 : fff_rej g bud st_bud (st.nrs.set i INT_MAX) := by
        intro i' m hm hreg htb
        by_cases hii : i = i'
        · subst hii
          by_cases hmc : m < st.nrs.getD i 0
          · exact hrej i m hmc hreg htb
          · exact absurd htb (by
              rw [find_next_buddy_bit_none g bud i _ hfnb m (by omega) hreg]
              simp)
        · rw [getD_set_ne st.nrs i i' INT_MAX 0 hii] at hm
          exact hrej i' m hm hreg htb
      have hmle : fffMeasure g st.nrs ≤ fffMeasure g (st.nrs.set i INT_MAX) := by
        apply fffMeasure_set_le
        have hcap : min INT_MAX (fffCap g) = fffCap g :=
          Nat.min_eq_right (by unfold fffCap; exact hIM)
        rw [hcap]
        exact Nat.min_le_right _ _
      obtain ⟨ih1, ih2, ih3, ih4, ih5, ih6⟩ := ih (i + 1)
        { st with nrs := st.nrs.set i INT_MAX } (by omega)
        (by dsimp only; rw [List.length_set]; exact hlen) hrej1
      dsimp only at ih3 ih4 ih5 ih6
      refine ⟨ih1, ih2, le_trans hmle ih3, ?_, ih5, ?_⟩
      · intro hpf
        obtain ⟨hp1, hcomp⟩ := ih4 hpf
        refine ⟨hp1, ?_⟩
        intro j m hij hjlt hreg htb
        by_cases hji : j = i
        · subst hji
          by_cases hmc : m < st.nrs.getD j 0
          · exact hrej j m hmc hreg htb
          · exact absurd htb (by
              rw [find_next_buddy_bit_none g bud j _ hfnb m (by omega) hreg]
              simp)
        · exact hcomp j m (by omega) (by omega) hreg htb
      · intro hbn hpt
        rcases ih6 hbn hpt with hl | hr
        · exact Or.inl hl
        · exact Or.inr (by omega)
    | some nr =>
      dsimp only
      have hspec := find_next_buddy_bit_some g bud i (st.nrs.getD i 0) nr hfnb
      have hnr2B : nr < 2 * g.ORDER0_BITS := by
        have h1 := hspec.2.2.1
        have h2 := order_off_le_twice g (i + 1)
        unfold order_nr at h1
        omega
      have hrejBranch : ∀ st1 : FffState,
          st1.nrs = st.nrs.set i (nr + 1) → st1.progress = true → st1.best = st.best →
          stable_covers g st_bud i nr = false →
          (fff_pass g sl bud st_bud st1 (i + 1) n).nrs.length = g.ORDERS ∧
          fff_rej g bud st_bud (fff_pass g sl bud st_bud st1 (i + 1) n).nrs ∧
          fffMeasure g st.nrs ≤ fffMeasure g (fff_pass g sl bud st_bud st1 (i + 1) n).nrs ∧
          ((fff_pass g sl bud st_bud st1 (i + 1) n).progress = false →
            st.progress = false ∧
            ∀ j m, i ≤ j → j < i + (n + 1) → order_nr g j m < order_off g (j + 1) →
              test_buddy_bit g bud j m = true → stable_covers g st_bud j m = false) ∧
          ((fff_pass g sl bud st_bud st1 (i + 1) n).best = none → st.best = none) ∧
          ((fff_pass g sl bud st_bud st1 (i + 1) n).best = none →
            (fff_pass g sl bud st_bud st1 (i + 1) n).progress = true →
            st.progress = true ∨
              fffMeasure g st.nrs + 1 ≤
                fffMeasure g (fff_pass g sl bud st_bud st1 (i + 1) n).nrs) := by
        intro st1 hn1 hp1 hb1 hsc
        have hlen1 : st1.nrs.length = g.ORDERS := by
          rw [hn1, List.length_set]
          exact hlen
        have hrej1 : fff_rej g bud st_bud st1.nrs := by
          rw [hn1]
          intro i' m hm hreg htb
          by_cases hii : i = i'
          · subst hii
            rw [getD_set_self st.nrs i (nr + 1) 0 hil] at hm
            by_cases hmc : m < st.nrs.getD i 0
            · exact hrej i m hmc hreg htb
            · by_cases hmn : m < nr
              · exact absurd htb (by rw [hspec.2.2.2 m (by omega) hmn]; simp)
              · have hmnr : m = nr := by omega
                subst hmnr
                exact hsc
          · rw [getD_set_ne st.nrs i i' (nr + 1) 0 hii] at hm
            exact hrej i' m hm hreg htb
        have hmlt : fffMeasure g st.nrs + 1 ≤ fffMeasure g st1.nrs := by
          rw [hn1]
          apply fffMeasure_set_lt g st.nrs i (nr + 1) hiO hil
          have hc : st.nrs.getD i 0 ≤ nr := hspec.2.1
          have hcap : nr + 1 < fffCap g := by unfold fffCap; omega
          rw [Nat.min_eq_left (by omega), Nat.min_eq_left (by omega)]
          omega
        obtain ⟨ih1, ih2, ih3, ih4, ih5, ih6⟩ := ih (i + 1) st1 (by omega) hlen1 hrej1
        refine ⟨ih1, ih2, by omega, ?_, ?_, ?_⟩
        · intro hpf
          have hcontra := (ih4 hpf).1
          rw [hp1] at hcontra
          cases hcontra
        · intro hbn
          rw [← hb1]
          exact ih5 hbn
        · intro _ _
          exact Or.inr (by omega)
      have haccBranch : ∀ st1 : FffState,
          st1.nrs = st.nrs.set i nr → st1.progress = true →
          (∃ b, st1.best = some b) →
          (fff_pass g sl bud st_bud st1 (i + 1) n).nrs.length = g.ORDERS ∧
          fff_rej g bud st_bud (fff_pass g sl bud st_bud st1 (i + 1) n).nrs ∧
          fffMeasure g st.nrs ≤ fffMeasure g (fff_pass g sl bud st_bud st1 (i + 1) n).nrs ∧
          ((fff_pass g sl bud st_bud st1 (i + 1) n).progress = false →
            st.progress = false ∧
            ∀ j m, i ≤ j → j < i + (n + 1) → order_nr g j m < order_off g (j + 1) →
              test_buddy_bit g bud j m = true → stable_covers g st_bud j m = false) ∧
          ((fff_pass g sl bud st_bud st1 (i + 1) n).best = none → False) := by
        intro st1 hn1 hp1 hbs
        obtain ⟨b0, hb1⟩ := hbs
        have hlen1 : st1.nrs.length = g.ORDERS := by
          rw [hn1, List.length_set]
          exact hlen
        have hrej1 : fff_rej g bud st_bud st1.nrs := by
          rw [hn1]
          intro i' m hm hreg htb
          by_cases hii : i = i'
          · subst hii
            rw [getD_set_self st.nrs i nr 0 hil] at hm
            by_cases hmc : m < st.nrs.getD i 0
            · exact hrej i m hmc hreg htb
            · exact absurd htb (by rw [hspec.2.2.2 m (by omega) (by omega)]; simp)
          · rw [getD_set_ne st.nrs i i' nr 0 hii] at hm
            exact hrej i' m hm hreg htb
        have hmle : fffMeasure g st.nrs ≤ fffMeasure g st1.nrs := by
          rw [hn1]
          apply fffMeasure_set_le
          exact min_le_min hspec.2.1 (le_refl _)
        obtain ⟨ih1, ih2, ih3, ih4, ih5, _⟩ := ih (i + 1) st1 (by omega) hlen1 hrej1
        refine ⟨ih1, ih2, le_trans hmle ih3, ?_, ?_⟩
        · intro hpf
          have hcontra := (ih4 hpf).1
          rw [hp1] at hcontra
          cases hcontra
        · intro hbn
          have hcontra := ih5 hbn
          rw [hb1] at hcontra
          cases hcontra
      cases st_bud with
      | none =>
        dsimp only
        exact hrejBranch
          { nrs := (st.nrs.set i nr).set i (nr + 1), best := st.best, progress := true }
          (List.set_set _ _ _ _) rfl rfl rfl
      | some sb =>
        dsimp only
        by_cases htbh : (! test_buddy_bit_or_higher g sb i nr) = true
        · rw [if_pos htbh]
          apply hrejBranch
            { nrs := (st.nrs.set i nr).set i (nr + 1), best := st.best, progress := true }
            (List.set_set _ _ _ _) rfl rfl
          unfold stable_covers
          rw [Bool.not_eq_true'] at htbh
          exact htbh
        · rw [if_neg htbh]
          cases hbest : st.best with
          | none =>
            dsimp only
            obtain ⟨c1, c2, c3, c4, c5⟩ := haccBranch
              { nrs := st.nrs.set i nr,
                best := some (slot_buddy_blkno g sl i nr, i, nr), progress := true }
              rfl rfl ⟨_, rfl⟩
            exact ⟨c1, c2, c3, c4, fun hbn => (c5 hbn).elim, fun hbn _ => (c5 hbn).elim⟩
          | some b =>
            dsimp only
            by_cases hlt : slot_buddy_blkno g sl i nr < b.1
            · rw [if_pos hlt]
              obtain ⟨c1, c2, c3, c4, c5⟩ := haccBranch
                { nrs := st.nrs.set i nr,
                  best := some (slot_buddy_blkno g sl i nr, i, nr), progress := true }
                rfl rfl ⟨_, rfl⟩
              exact ⟨c1, c2, c3, c4, fun hbn => (c5 hbn).elim, fun hbn _ => (c5 hbn).elim⟩
            · rw [if_neg hlt]
              obtain ⟨c1, c2, c3, c4, c5⟩ := haccBranch
                { nrs := st.nrs.set i nr, best := some b, progress := true }
                rfl rfl ⟨b, rfl⟩
              exact ⟨c1, c2, c3, c4, fun hbn => (c5 hbn).elim, fun hbn _ => (c5 hbn).elim⟩

theorem fff_loop_complete (g : Geo) (sl : Nat) (bud : scoutfs_buddy_block)
    (st_bud : Option scoutfs_buddy_block) (order : Nat)
    (hIM : 2 * g.ORDER0_BITS + 2 ≤ INT_MAX) (horder : order ≤ g.ORDERS) :
    ∀ fuel st, st.nrs.length = g.ORDERS → fff_rej g bud st_bud st.nrs →
      g.ORDERS * fffCap g + 1 ≤ fffMeasure g st.nrs + fuel →
      (fff_loop g sl bud st_bud order st fuel).best = none →
      ∀ j m, order ≤ j → j < g.ORDERS → order_nr g j m < order_off g (j + 1) →
        test_buddy_bit g bud j m = true → stable_covers g st_bud j m = false := by
  intro fuel
  induction fuel with
  | zero =>
    intro st _ _ hmeas _
    exfalso
    have := fffMeasure_le_max g st.nrs
    omega
  | succ n ihl =>
    intro st hlen hrej hmeas hbf
    unfold fff_loop at hbf
    obtain ⟨p1, p2, p3, p4, p5, p6⟩ := fff_pass_main g sl bud st_bud hIM
      (g.ORDERS - order) order { st with progress := false } (by omega)
      hlen hrej
    dsimp only at p3 p4 p5 p6
    by_cases hcond : ((fff_pass g sl bud st_bud { st with progress := false } order
        (g.ORDERS - order)).best.isNone &&
        (fff_pass g sl bud st_bud { st with progress := false } order
          (g.ORDERS - order)).progress) = true
    · rw [if_pos hcond] at hbf
      rw [Bool.and_eq_true] at hcond
      obtain ⟨hb1, hp1⟩ := hcond
      have hbn : (fff_pass g sl bud st_bud { st with progress := false } order
          (g.ORDERS - order)).best = none := Option.isNone_iff_eq_none.mp hb1
      rcases p6 hbn hp1 with hl | hr
      · cases hl
      · exact ihl _ p1 p2 (by omega) hbf
    · rw [if_neg hcond] at hbf
      have hpf : (fff_pass g sl bud st_bud { st with progress := false } order
          (g.ORDERS - order)).progress = false := by
        cases hp : (fff_pass g sl bud st_bud { st with progress := false } order
            (g.ORDERS - order)).progress
        · rfl
        · exfalso
          apply hcond
          rw [hbf, hp]
          rfl
      obtain ⟨_, hcomp⟩ := p4 hpf
      intro j m hoj hjO hreg htb
      exact hcomp j m hoj (by omega) hreg htb

theorem find_first_fit_complete (g : Geo) (sl : Nat) (bud : scoutfs_buddy_block)
    (st_bud : Option scoutfs_buddy_block) (order : Nat)
    (hIM : 2 * g.ORDER0_BITS + 2 ≤ INT_MAX) (horder : order ≤ g.ORDERS)
    (h : find_first_fit g sl bud st_bud order = none) :
    ∀ j m, order ≤ j → j < g.ORDERS → order_nr g j m < order_off g (j + 1) →
      test_buddy_bit g bud j m = true → stable_covers g st_bud j m = false := by
  unfold find_first_fit at h
  dsimp only at h
  have hbest : (fff_loop g sl bud st_bud order
      ⟨List.replicate g.ORDERS 0, none, false⟩ (fffFuel g)).best = none := by
    cases hb : (fff_loop g sl bud st_bud order
        ⟨List.replicate g.ORDERS 0, none, false⟩ (fffFuel g)).best with
    | none => rfl
    | some b =>
      rw [hb] at h
      simp at h
  apply fff_loop_complete g sl bud st_bud order hIM horder (fffFuel g)
    ⟨List.replicate g.ORDERS 0, none, false⟩ ?_ ?_ ?_ hbest
  · dsimp only
    exact List.length_replicate _ _
  · unfold fff_rej
    intro i m hm _ _
    exfalso
    have h0 : (List.replicate g.ORDERS (0 : Nat)).getD i 0 = 0 := by
      simp only [List.getD, List.get?_eq_getElem?, List.getElem?_replicate]
      split <;> rfl
    dsimp only at hm
    rw [h0] at hm
    omega
  · dsimp only
    unfold fffFuel fffCap
    omega

theorem buddy_alloc_go_populated_enospc (g : Geo) (ind st_ind : scoutfs_buddy_indirect) :
    ∀ order s s', s.dirty_ind = some ind → s.stable_ind = some st_ind →
      ind_populated g ind →
      buddy_alloc_go g s order = (.error .ENOSPC, s') →
      s' = s ∧ ∀ o', o' ≤ order → alloc_order g s o' = (.error .ENOSPC, s) := by
  intro order
  induction order with
  | zero =>
    intro s s' hdi hsi hpop h
    unfold buddy_alloc_go at h
    cases hao : alloc_order g s 0 with
    | mk r sA =>
      rw [hao] at h
      cases r with
      | ok b0 => cases h
      | error e0 =>
        obtain ⟨he, hsA⟩ := alloc_order_populated_err g s 0 ind st_ind hdi hsi hpop e0 sA hao
        subst he
        subst hsA
        cases h
        refine ⟨rfl, ?_⟩
        intro o' ho'
        have ho0 : o' = 0 := by omega
        subst ho0
        exact hao
  | succ o iho =>
    intro s s' hdi hsi hpop h
    unfold buddy_alloc_go at h
    cases hao : alloc_order g s (o + 1) with
    | mk r sA =>
      rw [hao] at h
      cases r with
      | ok b0 => cases h
      | error e0 =>
        obtain ⟨he, hsA⟩ :=
          alloc_order_populated_err g s (o + 1) ind st_ind hdi hsi hpop e0 sA hao
        subst he
        rw [hsA] at h hao
        dsimp only at h
        obtain ⟨hs', hall⟩ := iho s s' hdi hsi hpop h
        refine ⟨hs', ?_⟩
        intro o' ho'
        by_cases ho'1 : o' = o + 1
        · subst ho'1
          exact hao
        · exact hall o' (by omega)

theorem alloc_order_go_populated_enospc_slots (g : Geo) (order : Nat)
    (st_ind : scoutfs_buddy_indirect) (s : AllocState) (ind : scoutfs_buddy_indirect)
    (hpop : ind_populated g ind) :
    ∀ fuel i, i + fuel ≤ g.SLOTS → ∀ e ind2 s2,
      alloc_order_go g order st_ind s ind i fuel = (.error e, ind2, s2) →
      ∀ sl, i ≤ sl → sl < i + fuel →
        ((2 ^ 32 - 2 ^ order) &&& (ind.slots.getD sl ⟨0, none⟩).free_orders = 0 ∨
         (2 ^ 32 - 2 ^ order) &&& (st_ind.slots.getD sl ⟨0, none⟩).free_orders = 0) ∨
        ∀ bud, (ind.slots.getD sl ⟨0, none⟩).bud = some bud →
          find_first_fit g sl bud (st_ind.slots.getD sl ⟨0, none⟩).bud order = none := by
  intro fuel
  induction fuel with
  | zero =>
    intro i _ e ind2 s2 _ sl h1 h2
    exact absurd h2 (by omega)
  | succ n ih =>
    intro i hin e ind2 s2 h sl hsl1 hsl2
    unfold alloc_order_go at h
    by_cases hsk : (2 ^ 32 - 2 ^ order) &&& (ind.slots.getD i ⟨0, none⟩).free_orders = 0 ∨
        (2 ^ 32 - 2 ^ order) &&& (st_ind.slots.getD i ⟨0, none⟩).free_orders = 0
    · rw [if_pos hsk] at h
      by_cases hsli : sl = i
      · subst hsli
        exact Or.inl hsk
      · exact ih (i + 1) (by omega) e ind2 s2 h sl (by omega) (by omega)
    · rw [if_neg hsk] at h
      obtain ⟨bud, hbud⟩ := Option.isSome_iff_exists.mp (hpop i (by omega))
      cases halloc : alloc_slot g s ind i (st_ind.slots.getD i ⟨0, none⟩) order with
      | mk r1 rest =>
        obtain ⟨ind1, s1⟩ := rest
        rw [halloc] at h
        cases r1 with
        | ok b0 => cases h
        | error e0 =>
          obtain ⟨he0, hind1, hs1, hff⟩ :=
            alloc_slot_err_populated g s ind i (st_ind.slots.getD i ⟨0, none⟩) order bud hbud
              e0 ind1 s1 halloc
          subst he0
          subst hind1
          subst hs1
          dsimp only at h
          by_cases hsli : sl = i
          · subst hsli
            refine Or.inr ?_
            intro bud' hbud'
            have hbb : bud' = bud := by
              rw [hbud] at hbud'
              exact (Option.some.inj hbud').symm
            subst hbb
            exact hff
          · exact ih (i + 1) (by omega) e ind2 s2 h sl (by omega) (by omega)

theorem alloc_order_populated_enospc_slots (g : Geo) (s : AllocState) (order : Nat)
    (ind st_ind : scoutfs_buddy_indirect)
    (hdi : s.dirty_ind = some ind) (hsi : s.stable_ind = some st_ind)
    (hpop : ind_populated g ind) (s' : AllocState)
    (h : alloc_order g s order = (.error .ENOSPC, s')) :
    ∀ sl, sl < g.SLOTS →
      ((2 ^ 32 - 2 ^ order) &&& (ind.slots.getD sl ⟨0, none⟩).free_orders = 0 ∨
       (2 ^ 32 - 2 ^ order) &&& (st_ind.slots.getD sl ⟨0, none⟩).free_orders = 0) ∨
      ∀ bud, (ind.slots.getD sl ⟨0, none⟩).bud = some bud →
        find_first_fit g sl bud (st_ind.slots.getD sl ⟨0, none⟩).bud order = none := by
  unfold alloc_order at h
  rw [hdi, hsi] at h
  dsimp only at h
  cases hgo : alloc_order_go g order st_ind s ind 0 g.SLOTS with
  | mk r1 rest =>
    obtain ⟨ind2, s2⟩ := rest
    rw [hgo] at h
    cases r1 with
    | ok b0 => cases h
    | error e0 =>
      intro sl hsl
      exact alloc_order_go_populated_enospc_slots g order st_ind s ind hpop g.SLOTS 0
        (by omega) e0 ind2 s2 hgo sl (by omega) (by omega)

/-- C5: buddy_alloc reports NoSpace only when no tried order's scan could
use anything: the failing call leaves the state unchanged, every order
o' ≤ requested failed with NoSpace, and at each such order every slot was
either ruled out by the cached free_orders masks or its find_first_fit scan
rejected every dirty free bit of every order ≥ o' because the stable view
does not cover it (or the stable buddy block is absent).  The claim's
stronger sentence — that free capacity visible in both views guarantees
success — is false: a block can be free in the dirty view only at a higher
order than the order at which the stable view covers it, and the scan skips
it (see the counterexample). -/
theorem buddy_alloc_enospc_only_unscannable (g : Geo) (s : AllocState) (order : Nat)
    (ind st_ind : scoutfs_buddy_indirect)
    (hdi : s.dirty_ind = some ind) (hsi : s.stable_ind = some st_ind)
    (hpop : ind_populated g ind)
    (hIM : 2 * g.ORDER0_BITS + 2 ≤ INT_MAX)
    (s' : AllocState)
    (h : buddy_alloc g s order = (.error .ENOSPC, s')) :
    s' = s ∧
    ∀ o', o' ≤ order →
      alloc_order g s o' = (.error .ENOSPC, s) ∧
      ∀ sl, sl < g.SLOTS →
        ((2 ^ 32 - 2 ^ o') &&& (ind.slots.getD sl ⟨0, none⟩).free_orders = 0 ∨
         (2 ^ 32 - 2 ^ o') &&& (st_ind.slots.getD sl ⟨0, none⟩).free_orders = 0) ∨
        ∀ bud, (ind.slots.getD sl ⟨0, none⟩).bud = some bud →
          ∀ j m, o' ≤ j → j < g.ORDERS → order_nr g j m < order_off g (j + 1) →
            test_buddy_bit g bud j m = true →
            stable_covers g (st_ind.slots.getD sl ⟨0, none⟩).bud j m = false := by
  unfold buddy_alloc at h
  by_cases hge : g.ORDERS ≤ order
  · rw [if_pos hge] at h
    simp at h
  · rw [if_neg hge] at h
    obtain ⟨hs', hall⟩ :=
      buddy_alloc_go_populated_enospc g ind st_ind order s s' hdi hsi hpop h
    refine ⟨hs', ?_⟩
    intro o' ho'
    have hao := hall o' ho'
    refine ⟨hao, ?_⟩
    intro sl hsl
    rcases alloc_order_populated_enospc_slots g s o' ind st_ind hdi hsi hpop s hao sl hsl
      with hskip | hfff
    · exact Or.inl hskip
    · refine Or.inr ?_
      intro bud hbud
      intro j m hj1 hj2 hreg htb
      exact find_first_fit_complete g sl bud (st_ind.slots.getD sl ⟨0, none⟩).bud o' hIM
        (by omega) (hfff bud hbud) j m hj1 hj2 hreg htb

/-- A dirty buddy block whose only free bit is (order 1, nr 0): blocks 4-5
free as one order-1 extent in the dirty view. -/
def budD5 : scoutfs_buddy_block := ⟨4, [0, 1]⟩

/-- A stable buddy block whose only free bit is (order 0, nr 0): block 4
free in the stable view, at order 0 only. -/
def budS5 : scoutfs_buddy_block := ⟨1, [1, 0]⟩

/-- Dirty indirect block holding budD5 (cached free_orders = 1 << 1). -/
def ind5d : scoutfs_buddy_indirect := ⟨[⟨2, some budD5⟩], [0, 1]⟩

/-- Stable indirect block holding budS5 (cached free_orders = 1 << 0). -/
def ind5s : scoutfs_buddy_indirect := ⟨[⟨1, some budS5⟩], [1, 0]⟩

/-- State with those views: block 4 is free in both views. -/
def s5 : AllocState := ⟨some 1, some 1, some ind5d, some ind5s⟩

/-- C5 counterexample: block 4 (buddy bit 0 of the only slot) is free in
the dirty view (covered by the order-1 bit) and free in the stable view
(order-0 bit), so free capacity exists in both views, yet buddy_alloc at
order 0 fails with NoSpace: the scan only accepts a dirty bit whose own
order is covered by the stable view at that or a higher order, and the
dirty free bit sits at a higher order than the stable cover. -/
theorem buddy_alloc_enospc_cex :
    test_buddy_bit_or_higher gWA budD5 0 0 = true ∧
    test_buddy_bit_or_higher gWA budS5 0 0 = true ∧
    buddy_alloc gWA s5 0 = (.error .ENOSPC, s5) := by
  decide

/-- C5 witness: the theorem applied to the counterexample state shows the
NoSpace verdict comes with per-slot rejection evidence. -/
theorem buddy_alloc_enospc_only_unscannable_witness :
    s5 = s5 ∧
    ∀ o', o' ≤ 0 →
      alloc_order gWA s5 o' = (.error .ENOSPC, s5) ∧
      ∀ sl, sl < gWA.SLOTS →
        ((2 ^ 32 - 2 ^ o') &&& (ind5d.slots.getD sl ⟨0, none⟩).free_orders = 0 ∨
         (2 ^ 32 - 2 ^ o') &&& (ind5s.slots.getD sl ⟨0, none⟩).free_orders = 0) ∨
        ∀ bud, (ind5d.slots.getD sl ⟨0, none⟩).bud = some bud →
          ∀ j m, o' ≤ j → j < gWA.ORDERS → order_nr gWA j m < order_off gWA (j + 1) →
            test_buddy_bit gWA bud j m = true →
            stable_covers gWA (ind5s.slots.getD sl ⟨0, none⟩).bud j m = false :=
  buddy_alloc_enospc_only_unscannable gWA s5 0 ind5d ind5s rfl rfl (by decide)
    (by decide) s5 (by decide)

/-! ### Rollback discipline of map_writable_block -/

theorem getD_replicate_zero (n i : Nat) : (List.replicate n (0 : Nat)).getD i 0 = 0 := by
  simp only [List.getD, List.get?_eq_getElem?, List.getElem?_replicate]
  split <;> rfl

theorem afb_pop_return (fs0 : FileState) (b : Nat) (fs1 : FileState)
    (h : afb_pop fs0 = (.ok b, fs1)) : return_file_block fs1 b = fs0 := by
  unfold afb_pop at h
  by_cases hc : fs0.res.file_alloc_count ≠ 0
  · rw [if_pos hc] at h
    cases h
    unfold return_file_block
    dsimp only
    rw [ite_self]
    have h1 : fs0.res.file_alloc_blkno + 1 - 1 = fs0.res.file_alloc_blkno := by omega
    have h2 : fs0.res.file_alloc_count - 1 + 1 = fs0.res.file_alloc_count := by omega
    rw [h1, h2]
  · rw [if_neg hc] at h
    cases h

theorem return_file_block_btree (fs : FileState) (b : Nat) :
    (return_file_block fs b).btree = fs.btree := rfl

theorem bt_delete_insert (l : List (BKey × scoutfs_block_map)) (k : BKey)
    (v : scoutfs_block_map) : bt_delete (bt_insert l k v) k = l := by
  simp [bt_insert, bt_delete]

theorem mwb_fail_eq (fsX : FileState) (key : BKey) (inserted : Bool) (nb : Nat) (e : Err) :
    mwb_fail fsX key inserted nb e = (.error e, (mwb_fail fsX key inserted nb e).2) := rfl

theorem mwb_fail_btree_restore (fsX : FileState) (key : BKey) (inserted : Bool)
    (nb : Nat) (e : Err) (l0 : List (BKey × scoutfs_block_map))
    (h : if inserted = true then ∃ v, fsX.btree = bt_insert l0 key v
         else fsX.btree = l0) :
    (mwb_fail fsX key inserted nb e).2.btree = l0 := by
  unfold mwb_fail
  dsimp only
  have hfs1 : (if nb ≠ 0 then return_file_block fsX nb else fsX).btree = fsX.btree := by
    by_cases hnb : nb ≠ 0
    · rw [if_pos hnb]
      rfl
    · rw [if_neg hnb]
  cases inserted with
  | false =>
    rw [if_neg (by simp)]
    rw [if_neg (by simp)] at h
    rw [hfs1]
    exact h
  | true =>
    rw [if_pos rfl]
    rw [if_pos rfl] at h
    dsimp only
    rw [hfs1]
    obtain ⟨v, hv⟩ := h
    rw [hv]
    exact bt_delete_insert l0 key v

theorem alloc_file_block_btree (g : Geo) (fs : FileState) :
    (alloc_file_block g fs).2.btree = fs.btree := by
  unfold alloc_file_block afb_pop
  repeat' split
  all_goals try rfl
  all_goals dsimp only
  all_goals repeat' split
  all_goals rfl

theorem alloc_file_block_pop (g : Geo) (fs : FileState)
    (hc : fs.res.file_alloc_count ≠ 0) :
    alloc_file_block g fs = (.ok fs.res.file_alloc_blkno,
      { fs with res := ⟨fs.res.file_alloc_blkno + 1, fs.res.file_alloc_count - 1⟩ }) := by
  unfold alloc_file_block afb_pop
  rw [if_neg hc, if_pos hc]

theorem scoutfs_buddy_free_err (g : Geo) (s : AllocState) (b o : Nat) (e : Err)
    (a' : AllocState) (h : scoutfs_buddy_free g s b o = (.error e, a')) : a' = s := by
  unfold scoutfs_buddy_free at h
  cases hreg : blkno_region g b with
  | PAIR =>
    rw [hreg] at h
    cases h
  | BM =>
    rw [hreg] at h
    unfold bitmap_free at h
    cases hbm : s.dirty_bm with
    | none =>
      rw [hbm] at h
      cases h
      rfl
    | some bm =>
      rw [hbm] at h
      cases h
  | BUDDY =>
    rw [hreg] at h
    unfold buddy_free at h
    by_cases hg : g.ORDERS ≤ o ∨ valid_order g b o = false
    · rw [if_pos hg] at h
      cases h
      rfl
    · rw [if_neg hg] at h
      cases hdi : s.dirty_ind with
      | none =>
        rw [hdi] at h
        cases h
        rfl
      | some ind =>
        rw [hdi] at h
        dsimp only at h
        cases hbud : (ind.slots.getD (indirect_slot g b) ⟨0, none⟩).bud with
        | none =>
          rw [hbud] at h
          cases h
          rfl
        | some bud =>
          rw [hbud] at h
          dsimp only at h
          cases h

theorem mwb_fail_state_false (fsX : FileState) (key : BKey) (nb : Nat) (e : Err)
    (hnb : nb ≠ 0) :
    (mwb_fail fsX key false nb e).2 = return_file_block fsX nb := by
  unfold mwb_fail
  dsimp only
  rw [if_pos hnb, if_neg (by simp)]

/-- The allocation tail of map_writable_block rolls back on error: the
btree returns to the pre-call list and, when the reservoir was non-empty
(so the allocation was a plain pop of a nonzero block), the whole state is
restored exactly. -/
theorem mwb_alloc_path_rollback (g : Geo) (fs fs0 : FileState) (key : BKey)
    (inserted : Bool) (old i : Nat) (bmap0 : scoutfs_block_map)
    (eo : Err) (fs' : FileState)
    (hbt : if inserted = true then ∃ v, fs0.btree = bt_insert fs.btree key v
           else fs0.btree = fs.btree)
    (hres : fs0.res = fs.res)
    (hfs0 : inserted = false → fs0 = fs)
    (hold0 : inserted = true → old = 0)
    (h : (match alloc_file_block g fs0 with
          | (.error e, fs1) => mwb_fail fs1 key inserted 0 e
          | (.ok newb, fs1) =>
            match (if old ≠ 0 then scoutfs_buddy_free g fs1.alloc old 0
                   else (.ok (), fs1.alloc)) with
            | (.error e, a') => mwb_fail { fs1 with alloc := a' } key inserted newb e
            | (.ok _, a') =>
              let m' : scoutfs_block_map := ⟨bmap0.blkno.set i newb⟩
              (.ok newb, { fs1 with alloc := a', btree := bt_set fs1.btree key m' }))
         = (.error eo, fs')) :
    fs'.btree = fs.btree ∧
    (fs.res.file_alloc_count ≠ 0 → fs.res.file_alloc_blkno ≠ 0 → fs' = fs) := by
  cases hafb : alloc_file_block g fs0 with
  | mk r1 fs1 =>
    rw [hafb] at h
    have hb1 : fs1.btree = fs0.btree := by
      have hq := alloc_file_block_btree g fs0
      rw [hafb] at hq
      exact hq
    cases r1 with
    | error e1 =>
      dsimp only at h
      rw [mwb_fail_eq] at h
      cases h
      constructor
      · apply mwb_fail_btree_restore
        cases inserted with
        | false =>
          rw [if_neg (by simp)] at hbt
          rw [if_neg (by simp)]
          rw [hb1]
          exact hbt
        | true =>
          rw [if_pos rfl] at hbt
          rw [if_pos rfl]
          obtain ⟨v, hv⟩ := hbt
          exact ⟨v, by rw [hb1, hv]⟩
      · intro hc hb
        exfalso
        have hpop := alloc_file_block_pop g fs0 (by rw [hres]; exact hc)
        rw [hpop] at hafb
        cases hafb
    | ok newb =>
      dsimp only at h
      by_cases hold : old ≠ 0
      · rw [if_pos hold] at h
        have hins : inserted = false := by
          cases hi : inserted
          · rfl
          · exact absurd (hold0 hi) hold
        subst hins
        cases hbf : scoutfs_buddy_free g fs1.alloc old 0 with
        | mk rf a' =>
          rw [hbf] at h
          cases rf with
          | ok u =>
            dsimp only at h
            cases h
          | error e2 =>
            dsimp only at h
            rw [mwb_fail_eq] at h
            cases h
            rw [if_neg (by simp)] at hbt
            constructor
            · apply mwb_fail_btree_restore
              rw [if_neg (by simp)]
              show fs1.btree = fs.btree
              rw [hb1]
              exact hbt
            · intro hc hb
              have hf0 : fs0 = fs := hfs0 rfl
              rw [hf0] at hafb
              have ha' : a' = fs1.alloc := scoutfs_buddy_free_err g fs1.alloc old 0 eo a' hbf
              subst ha'
              have hpop := alloc_file_block_pop g fs hc
              rw [hpop] at hafb
              have hnb : newb ≠ 0 := by
                injection hafb with hA hB
                injection hA with hA
                omega
              have hpop2 : afb_pop fs = (.ok newb, fs1) := by
                unfold afb_pop
                rw [if_pos hc]
                exact hafb
              have hEta : ({ fs1 with alloc := fs1.alloc } : FileState) = fs1 := rfl
              rw [hEta, mwb_fail_state_false fs1 key newb eo hnb]
              exact afb_pop_return fs newb fs1 hpop2
      · rw [if_neg hold] at h
        dsimp only at h
        cases h

/-- The error rollback of map_writable_block: the btree is exactly the
pre-call btree, and with a non-empty reservoir of nonzero blocks the whole
state is restored. -/
theorem mwb_error_rollback (g : Geo) (fs : FileState) (ino iblock : Nat)
    (eo : Err) (fs' : FileState)
    (h : map_writable_block g fs ino iblock = (.error eo, fs')) :
    fs'.btree = fs.btree ∧
    (fs.res.file_alloc_count ≠ 0 → fs.res.file_alloc_blkno ≠ 0 → fs' = fs) := by
  unfold map_writable_block at h
  dsimp only at h
  cases hlk : bt_lookup fs.btree (set_bmap_key g ino iblock) with
  | some m =>
    rw [hlk] at h
    dsimp only at h
    by_cases hold : m.blkno.getD (iblock &&& (g.MAP_COUNT - 1)) 0 ≠ 0
    · rw [if_pos hold] at h
      cases hwf : scoutfs_buddy_was_free g fs.alloc
          (m.blkno.getD (iblock &&& (g.MAP_COUNT - 1)) 0) 0 with
      | error e0 =>
        rw [hwf] at h
        dsimp only at h
        rw [mwb_fail_eq] at h
        cases h
        exact ⟨rfl, fun _ _ => rfl⟩
      | ok r =>
        rw [hwf] at h
        dsimp only at h
        by_cases hr : 0 < r
        · rw [if_pos hr] at h
          dsimp only at h
          cases h
        · rw [if_neg hr] at h
          dsimp only at h
          exact mwb_alloc_path_rollback g fs fs (set_bmap_key g ino iblock) false
            (m.blkno.getD (iblock &&& (g.MAP_COUNT - 1)) 0)
            (iblock &&& (g.MAP_COUNT - 1)) m eo fs'
            (by rw [if_neg (by simp)]) rfl (fun _ => rfl) (fun hq => nomatch hq) h
    · rw [if_neg hold] at h
      dsimp only at h
      exact mwb_alloc_path_rollback g fs fs (set_bmap_key g ino iblock) false
        (m.blkno.getD (iblock &&& (g.MAP_COUNT - 1)) 0)
        (iblock &&& (g.MAP_COUNT - 1)) m eo fs'
        (by rw [if_neg (by simp)]) rfl (fun _ => rfl) (fun hq => nomatch hq) h
  | none =>
    rw [hlk] at h
    dsimp only at h
    rw [if_neg (by rw [getD_replicate_zero]; simp)] at h
    dsimp only at h
    exact mwb_alloc_path_rollback g fs
      { fs with btree := (bt_insert fs.btree (set_bmap_key g ino iblock) ⟨List.replicate g.MAP_COUNT 0⟩) }
      (set_bmap_key g ino iblock) true
      ((List.replicate g.MAP_COUNT 0).getD (iblock &&& (g.MAP_COUNT - 1)) 0)
      (iblock &&& (g.MAP_COUNT - 1)) ⟨List.replicate g.MAP_COUNT 0⟩ eo fs'
      (by rw [if_pos rfl]; exact ⟨⟨List.replicate g.MAP_COUNT 0⟩, rfl⟩) rfl
      (fun hq => nomatch hq) (fun _ => getD_replicate_zero _ _) h

/-- C8: map_writable_block rolls back all speculative mutations before
propagating the first error.  Deleting a just-inserted map item always
succeeds and restores the btree exactly (first conjunct), returning a
popped reservoir block inverts the pop exactly (second conjunct), any error
leaves the block-mapping btree exactly as before the call (third conjunct),
and when the reservoir was non-empty with a nonzero front block — so the
call could not have refilled it — an error restores the entire state
(fourth conjunct). -/
theorem map_writable_block_rollback (g : Geo) (fs : FileState) (ino iblock : Nat) :
    (∀ l k v, bt_delete (bt_insert l k v) k = l) ∧
    (∀ fs0 b fs1, afb_pop fs0 = (.ok b, fs1) → return_file_block fs1 b = fs0) ∧
    (∀ e fs', map_writable_block g fs ino iblock = (.error e, fs') →
      fs'.btree = fs.btree) ∧
    (fs.res.file_alloc_count ≠ 0 → fs.res.file_alloc_blkno ≠ 0 →
      ∀ e fs', map_writable_block g fs ino iblock = (.error e, fs') → fs' = fs) :=
  ⟨bt_delete_insert, afb_pop_return,
   fun e fs' h => (mwb_error_rollback g fs ino iblock e fs' h).1,
   fun hc hb e fs' h => (mwb_error_rollback g fs ino iblock e fs' h).2 hc hb⟩

/-- A file state whose allocator lacks its bitmap references, so
scoutfs_buddy_was_free fails with Io, with a mapping for (inode 7,
iblock 0) to block 9 and a non-empty reservoir. -/
def fsW : FileState := ⟨⟨none, none, none, none⟩, [((7, 0), ⟨[9, 0]⟩)], ⟨5, 3⟩⟩

/-- C8 witness: on the failing call the state is restored exactly. -/
theorem map_writable_block_rollback_witness :
    (map_writable_block gWA fsW 7 0).2 = fsW :=
  (map_writable_block_rollback gWA fsW 7 0).2.2.2 (by decide) (by decide) Err.EIO
    (map_writable_block gWA fsW 7 0).2 (by decide)

/-! ### CoW reuse: a second map_writable_block call reuses the first's block -/

theorem and_mask_lt (x k : Nat) : x &&& (2 ^ k - 1) < 2 ^ k := by
  have h1 : x &&& (2 ^ k - 1) ≤ 2 ^ k - 1 := Nat.and_le_right
  have h2 : 0 < 2 ^ k := Nat.pos_pow_of_pos k (by norm_num)
  omega

theorem bt_lookup_insert (l : List (BKey × scoutfs_block_map)) (k : BKey)
    (v : scoutfs_block_map) : bt_lookup (bt_insert l k v) k = some v := by
  simp [bt_insert, bt_lookup]

theorem bt_lookup_set (l : List (BKey × scoutfs_block_map)) (k : BKey)
    (m v : scoutfs_block_map) (h : bt_lookup l k = some m) :
    bt_lookup (bt_set l k v) k = some v := by
  induction l with
  | nil => cases h
  | cons p t ih =>
    obtain ⟨pk, pv⟩ := p
    unfold bt_lookup at h
    unfold bt_set
    by_cases hk : k = pk
    · rw [if_pos hk]
      unfold bt_lookup
      rw [if_pos hk]
    · rw [if_neg hk]
      unfold bt_lookup
      rw [if_neg hk]
      rw [if_neg hk] at h
      exact ih h

theorem scoutfs_buddy_free_view (g : Geo) (s : AllocState) (b o : Nat) :
    PreservesView s (scoutfs_buddy_free g s b o).2 := by
  unfold scoutfs_buddy_free
  cases blkno_region g b with
  | PAIR => exact preserves_view_refl s
  | BM =>
    dsimp only
    unfold bitmap_free
    cases hbm : s.dirty_bm with
    | none => exact preserves_view_refl s
    | some bm => exact ⟨rfl, rfl, by rw [hbm]; rfl⟩
  | BUDDY =>
    dsimp only
    unfold buddy_free
    by_cases hg : g.ORDERS ≤ o ∨ valid_order g b o = false
    · rw [if_pos hg]
      exact preserves_view_refl s
    · rw [if_neg hg]
      cases hdi : s.dirty_ind with
      | none => exact preserves_view_refl s
      | some ind =>
        dsimp only
        cases hbud : (ind.slots.getD (indirect_slot g b) ⟨0, none⟩).bud with
        | none => exact preserves_view_refl s
        | some bud => exact ⟨rfl, rfl, rfl⟩

theorem was_free_congr (g : Geo) (s s' : AllocState) (h : PreservesView s s') (b o : Nat) :
    scoutfs_buddy_was_free g s' b o = scoutfs_buddy_was_free g s b o := by
  obtain ⟨h1, h2, h3⟩ := h
  have h4 : s'.dirty_bm.isNone = s.dirty_bm.isNone := by
    cases hx : s'.dirty_bm <;> cases hy : s.dirty_bm <;> simp_all
  unfold scoutfs_buddy_was_free
  rw [h1, h2, h4]

/-- A call on a state whose map item already points at a block that the
stable view shows free simply reuses that block and changes nothing. -/
theorem mwb_second_call (g : Geo) (fs1 : FileState) (ino iblock : Nat)
    (m1 : scoutfs_block_map) (B r : Nat)
    (hm : bt_lookup fs1.btree (set_bmap_key g ino iblock) = some m1)
    (hold : m1.blkno.getD (iblock &&& (g.MAP_COUNT - 1)) 0 = B)
    (hB : B ≠ 0)
    (hwf : scoutfs_buddy_was_free g fs1.alloc B 0 = .ok r) (hr : 0 < r) :
    map_writable_block g fs1 ino iblock = (.ok B, fs1) := by
  unfold map_writable_block
  dsimp only
  rw [hm]
  dsimp only
  rw [hold, if_pos hB, hwf]
  dsimp only
  rw [if_pos hr]

/-- C2: within one transaction a second map_writable_block(inode, iblock)
returns the same blkno as the first and changes nothing: the first call's
mapping survives in the btree, the mapped block is nonzero and free in the
stable view, so the second call finds old ≠ 0 with scoutfs_buddy_was_free
true and takes the reuse path without allocating.  The transaction context
enters as hypotheses: the reservoir is non-empty (so the first call is a
plain pop, not a refill) and consists of nonzero blocks that the stable
view shows free (they were freshly allocated in this transaction), stored
map items hold MAP_COUNT entries, and MAP_COUNT is a power of two. -/
theorem map_writable_block_reuse (g : Geo) (fs : FileState) (ino iblock : Nat)
    (mk : Nat) (hmk : g.MAP_COUNT = 2 ^ mk)
    (hlen : ∀ k m, bt_lookup fs.btree k = some m → m.blkno.length = g.MAP_COUNT)
    (hcnt : fs.res.file_alloc_count ≠ 0)
    (hrnz : fs.res.file_alloc_blkno ≠ 0)
    (hres_ok : ∀ k, k < fs.res.file_alloc_count →
      scoutfs_buddy_was_free g fs.alloc (fs.res.file_alloc_blkno + k) 0 = .ok 1)
    (B : Nat) (fs1 : FileState)
    (hfirst : map_writable_block g fs ino iblock = (.ok B, fs1)) :
    map_writable_block g fs1 ino iblock = (.ok B, fs1) := by
  have hi : iblock &&& (g.MAP_COUNT - 1) < g.MAP_COUNT := by
    rw [hmk]
    exact and_mask_lt iblock mk
  unfold map_writable_block at hfirst
  dsimp only at hfirst
  cases hlk : bt_lookup fs.btree (set_bmap_key g ino iblock) with
  | some m =>
    rw [hlk] at hfirst
    dsimp only at hfirst
    by_cases hold : m.blkno.getD (iblock &&& (g.MAP_COUNT - 1)) 0 ≠ 0
    · rw [if_pos hold] at hfirst
      cases hwf : scoutfs_buddy_was_free g fs.alloc
          (m.blkno.getD (iblock &&& (g.MAP_COUNT - 1)) 0) 0 with
      | error e0 =>
        rw [hwf] at hfirst
        dsimp only at hfirst
        rw [mwb_fail_eq] at hfirst
        cases hfirst
      | ok r =>
        rw [hwf] at hfirst
        dsimp only at hfirst
        by_cases hr : 0 < r
        · rw [if_pos hr] at hfirst
          dsimp only at hfirst
          injection hfirst with h1 h2
          injection h1 with h1
          subst h2
          subst h1
          exact mwb_second_call g fs ino iblock m _ r hlk rfl hold hwf hr
        · rw [if_neg hr] at hfirst
          dsimp only at hfirst
          rw [alloc_file_block_pop g fs hcnt] at hfirst
          dsimp only at hfirst
          rw [if_pos hold] at hfirst
          cases hbf : scoutfs_buddy_free g fs.alloc
              (m.blkno.getD (iblock &&& (g.MAP_COUNT - 1)) 0) 0 with
          | mk rf a' =>
            rw [hbf] at hfirst
            cases rf with
            | error e2 =>
              dsimp only at hfirst
              rw [mwb_fail_eq] at hfirst
              cases hfirst
            | ok u =>
              dsimp only at hfirst
              injection hfirst with h1 h2
              injection h1 with h1
              subst h2
              subst h1
              have hview : PreservesView fs.alloc a' := by
                have hv := scoutfs_buddy_free_view g fs.alloc
                  (m.blkno.getD (iblock &&& (g.MAP_COUNT - 1)) 0) 0
                rw [hbf] at hv
                exact hv
              apply mwb_second_call g _ ino iblock
                ⟨m.blkno.set (iblock &&& (g.MAP_COUNT - 1)) fs.res.file_alloc_blkno⟩
                fs.res.file_alloc_blkno 1
              · exact bt_lookup_set fs.btree (set_bmap_key g ino iblock) m _ hlk
              · dsimp only
                apply getD_set_self
                rw [hlen (set_bmap_key g ino iblock) m hlk]
                exact hi
              · exact hrnz
              · show scoutfs_buddy_was_free g a' fs.res.file_alloc_blkno 0 = .ok 1
                rw [was_free_congr g fs.alloc a' hview]
                have hq := hres_ok 0 (by omega)
                rw [Nat.add_zero] at hq
                exact hq
              · omega
    · rw [if_neg hold] at hfirst
      dsimp only at hfirst
      rw [alloc_file_block_pop g fs hcnt] at hfirst
      dsimp only at hfirst
      rw [if_neg hold] at hfirst
      dsimp only at hfirst
      injection hfirst with h1 h2
      injection h1 with h1
      subst h2
      subst h1
      apply mwb_second_call g _ ino iblock
        ⟨m.blkno.set (iblock &&& (g.MAP_COUNT - 1)) fs.res.file_alloc_blkno⟩
        fs.res.file_alloc_blkno 1
      · exact bt_lookup_set fs.btree (set_bmap_key g ino iblock) m _ hlk
      · dsimp only
        apply getD_set_self
        rw [hlen (set_bmap_key g ino iblock) m hlk]
        exact hi
      · exact hrnz
      · show scoutfs_buddy_was_free g fs.alloc fs.res.file_alloc_blkno 0 = .ok 1
        have hq := hres_ok 0 (by omega)
        rw [Nat.add_zero] at hq
        exact hq
      · omega
  | none =>
    rw [hlk] at hfirst
    dsimp only at hfirst
    rw [if_neg (by rw [getD_replicate_zero]; simp)] at hfirst
    dsimp only at hfirst
    rw [alloc_file_block_pop g
      { fs with btree := (bt_insert fs.btree (set_bmap_key g ino iblock) ⟨List.replicate g.MAP_COUNT 0⟩) }
      hcnt] at hfirst
    dsimp only at hfirst
    rw [if_neg (by rw [getD_replicate_zero]; simp)] at hfirst
    dsimp only at hfirst
    injection hfirst with h1 h2
    injection h1 with h1
    subst h2
    subst h1
    apply mwb_second_call g _ ino iblock
      ⟨(List.replicate g.MAP_COUNT 0).set (iblock &&& (g.MAP_COUNT - 1))
        fs.res.file_alloc_blkno⟩
      fs.res.file_alloc_blkno 1
    · exact bt_lookup_set _ _ ⟨List.replicate g.MAP_COUNT 0⟩ _
        (bt_lookup_insert fs.btree _ _)
    · dsimp only
      apply getD_set_self
      rw [List.length_replicate]
      exact hi
    · exact hrnz
    · show scoutfs_buddy_was_free g fs.alloc fs.res.file_alloc_blkno 0 = .ok 1
      have hq := hres_ok 0 (by omega)
      rw [Nat.add_zero] at hq
      exact hq
    · omega

/-- A file state for the reuse scenario: both views hold ind5d (blocks 4-5
free at order 1 in the stable view), inode 7 maps iblock 0 to block 4, and
the reservoir holds the single stable-free block 5. -/
def fsC : FileState :=
  ⟨⟨some 1, some 1, some ind5d, some ind5d⟩, [((7, 0), ⟨[4, 0]⟩)], ⟨5, 1⟩⟩

/-- C2 witness: the first call reuses block 4 and the second call returns
the same block with the state unchanged. -/
theorem map_writable_block_reuse_witness :
    map_writable_block gWA fsC 7 0 = (.ok 4, fsC) :=
  map_writable_block_reuse gWA fsC 7 0 1 (by decide)
    (by
      intro k m h
      by_cases hk : k = ((7, 0) : BKey)
      · subst hk
        have h3 : bt_lookup fsC.btree (7, 0) = some ⟨[4, 0]⟩ := by decide
        rw [h3] at h
        rw [← Option.some.inj h]
        decide
      · exfalso
        have h3 : bt_lookup fsC.btree k = none := by
          show (if k = ((7, 0) : BKey) then some (⟨[4, 0]⟩ : scoutfs_block_map)
            else none) = none
          rw [if_neg hk]
        rw [h3] at h
        cases h)
    (by decide) (by decide)
    (by
      intro k hk
      have hk1 : k < 1 := hk
      have hk0 : k = 0 := by omega
      subst hk0
      decide)
    4 fsC (by decide)

/-! ### C7: alloc/free round-trip -/

theorem getD_length_le {α : Type} (l : List α) (i : Nat) (d : α) (h : l.length ≤ i) :
    l.getD i d = d := by
  simp [List.getD, List.get?_eq_getElem?, List.getElem?_eq_none h]

theorem set_getD_cancel {α : Type} : ∀ (l : List α) (i : Nat) (d : α), i < l.length →
    l.set i (l.getD i d) = l := by
  intro l
  induction l with
  | nil => intro i d h; cases h
  | cons a t ih =>
    intro i d h
    cases i with
    | zero => rfl
    | succ n =>
      show a :: t.set n (t.getD n d) = a :: t
      rw [ih n d (Nat.lt_of_succ_lt_succ h)]

theorem listDecAt_inc_cancel (l : List Nat) (i : Nat) (h : 0 < l.getD i 0) :
    listIncAt (listDecAt l i) i = l := by
  have hlen : i < l.length := by
    by_contra hc
    rw [getD_length_le l i 0 (by omega)] at h
    omega
  unfold listIncAt listDecAt
  rw [getD_set_self l i _ 0 hlen, List.set_set]
  have h1 : l.getD i 0 - 1 + 1 = l.getD i 0 := by omega
  rw [h1]
  exact set_getD_cancel l i 0 hlen

theorem set_clear_bit_le (b p : Nat) (h : b.testBit p = true) :
    set_bit_le (clear_bit_le b p) p = b := by
  apply Nat.eq_of_testBit_eq
  intro j
  rw [testBit_set_bit_le, testBit_clear_bit_le]
  by_cases hpj : p = j
  · subst hpj
    simp [h]
  · simp [hpj]

theorem merge_go_stop (g : Geo) (ind : scoutfs_buddy_indirect) (bud : scoutfs_buddy_block)
    (i nr fuel : Nat) (h : test_buddy_bit g bud i (nr ^^^ 1) = false) :
    merge_go g ind bud i nr fuel = (ind, bud, i, nr) := by
  cases fuel with
  | zero => rfl
  | succ n =>
    unfold merge_go
    rw [h, if_neg Bool.false_ne_true]

theorem slot_blkno_region (g : Geo) (sl o n : Nat) :
    blkno_region g (slot_buddy_blkno g sl o n) = .BUDDY := by
  have hge : g.BM_BLKNO + g.BM_NR + g.buddy_blocks ≤ slot_buddy_blkno g sl o n := by
    unfold slot_buddy_blkno first_blkno
    calc g.BM_BLKNO + g.BM_NR + g.buddy_blocks
        ≤ g.BM_BLKNO + g.BM_NR + g.buddy_blocks + (sl * g.ORDER0_BITS + n <<< o) :=
          Nat.le_add_right _ _
      _ = g.BM_BLKNO + g.BM_NR + g.buddy_blocks + sl * g.ORDER0_BITS + n <<< o :=
          (Nat.add_assoc _ _ _).symm
  unfold blkno_region
  rw [if_neg (by omega), if_neg (by omega)]

/-- A non-canonical buddy block on gWA: both order-0 bits set (blocks 4 and
5 free as two separate order-0 extents instead of one order-1 extent). -/
def bud7 : scoutfs_buddy_block := ⟨3, [2, 0]⟩

/-- One populated slot holding bud7, with matching cached free_orders. -/
def ind7 : scoutfs_buddy_indirect := ⟨[⟨1, some bud7⟩], [2, 0]⟩

/-- Both views populated with ind7. -/
def s7 : AllocState := ⟨some 1, some 1, some ind7, some ind7⟩

/-- A canonical state on gWA: one free order-1 extent (blocks 4-5),
accurate cached free_orders, counts and totals consistent. -/
def budR : scoutfs_buddy_block := ⟨4, [0, 1]⟩

/-- One populated slot holding budR. -/
def indR : scoutfs_buddy_indirect := ⟨[⟨2, some budR⟩], [0, 1]⟩

/-- Both views populated with indR. -/
def sR : AllocState := ⟨some 1, some 1, some indR, some indR⟩

/-! ### Validity of a buddy indirect block, and alloc/free sequences -/

/-- Number of set bits of a buddy block within the bit region of one order. -/
def popOrder (g : Geo) (bud : scoutfs_buddy_block) (j : Nat) : Nat :=
  popRange bud.bits (order_off g j) (order_off g (j + 1) - order_off g j)

/-- The buddy block a slot references (a zeroed block when absent). -/
def slotBud (ind : scoutfs_buddy_indirect) (sl : Nat) : scoutfs_buddy_block :=
  ((ind.slots.getD sl ⟨0, none⟩).bud).getD ⟨0, []⟩

/-- Total number of set bits at one order across all slots. -/
def sumPop (g : Geo) (ind : scoutfs_buddy_indirect) (j : Nat) : Nat :=
  sumBelow (fun sl => popOrder g (slotBud ind sl) j) g.SLOTS

/-- A buddy block in canonical, consistent form: no free bit has its own
buddy also free (fully merged), no free bit lies inside a larger free
extent (no overlap), and the cached per-order counts dominate the actual
per-order popcounts. -/
def BudValid (g : Geo) (e : Nat) (bud : scoutfs_buddy_block) : Prop :=
  (∀ j, j < g.ORDERS - 1 → ∀ n, n < 2 ^ (e - j) → test_buddy_bit g bud j n = true →
    test_buddy_bit g bud j (n ^^^ 1) = false) ∧
  (∀ j, j < g.ORDERS → ∀ n, n < 2 ^ (e - j) → test_buddy_bit g bud j n = true →
    ∀ j2, j2 < g.ORDERS → j < j2 → test_buddy_bit g bud j2 (n >>> (j2 - j)) = false) ∧
  (∀ j, j < g.ORDERS → popOrder g bud j ≤ bud.order_counts.getD j 0) ∧
  g.ORDERS ≤ bud.order_counts.length

instance budValid_dec (g : Geo) (e : Nat) (bud : scoutfs_buddy_block) :
    Decidable (BudValid g e bud) := by
  unfold BudValid
  infer_instance

/-- A valid allocator indirect block: enough populated slots, accurate
cached free_orders, every slot's buddy block canonical and consistent, and
the order totals dominating the summed per-order popcounts. -/
def IndValid (g : Geo) (e : Nat) (ind : scoutfs_buddy_indirect) : Prop :=
  g.SLOTS ≤ ind.slots.length ∧
  (∀ sl, sl < g.SLOTS → ((ind.slots.getD sl ⟨0, none⟩).bud).isSome = true) ∧
  (∀ sl, sl < g.SLOTS →
    (ind.slots.getD sl ⟨0, none⟩).free_orders = update_free_orders g (slotBud ind sl)) ∧
  (∀ sl, sl < g.SLOTS → BudValid g e (slotBud ind sl)) ∧
  (∀ j, j < g.ORDERS → sumPop g ind j ≤ ind.order_totals.getD j 0) ∧
  g.ORDERS ≤ ind.order_totals.length

instance indValid_dec (g : Geo) (e : Nat) (ind : scoutfs_buddy_indirect) :
    Decidable (IndValid g e ind) := by
  unfold IndValid
  infer_instance

/-- A sequence of buddy_alloc calls: the results in order and the final
state, or none as soon as one call fails. -/
def alloc_seq (g : Geo) : AllocState → List Nat → Option (List (Nat × Nat) × AllocState)
  | s, [] => some ([], s)
  | s, o :: os =>
    match buddy_alloc g s o with
    | (.ok r, s') => (alloc_seq g s' os).map fun p => (r :: p.1, p.2)
    | (.error _, _) => none

/-- A sequence of scoutfs_buddy_free calls, stopping at the first error. -/
def free_list (g : Geo) : AllocState → List (Nat × Nat) → (Except Err Unit) × AllocState
  | s, [] => (.ok (), s)
  | s, (b, o) :: rest =>
    match scoutfs_buddy_free g s b o with
    | (.ok _, s') => free_list g s' rest
    | (.error e, s') => (.error e, s')

theorem free_list_append (g : Geo) :
    ∀ l1 s sm l2, free_list g s l1 = (.ok (), sm) →
      free_list g s (l1 ++ l2) = free_list g sm l2 := by
  intro l1
  induction l1 with
  | nil =>
    intro s sm l2 h
    cases h
    rfl
  | cons r rest ih =>
    intro s sm l2 h
    obtain ⟨b, o⟩ := r
    unfold free_list at h
    have hstep : free_list g s ((b, o) :: (rest ++ l2)) =
        match scoutfs_buddy_free g s b o with
        | (.ok _, s') => free_list g s' (rest ++ l2)
        | (.error e, s') => (.error e, s') := rfl
    rw [List.cons_append, hstep]
    cases hf : scoutfs_buddy_free g s b o with
    | mk r1 s1 =>
      rw [hf] at h
      cases r1 with
      | ok u => exact ih s1 sm l2 h
      | error e => cases h

theorem getD_set_of_ne {α : Type} (l : List α) (i j : Nat) (v d : α) (h : i ≠ j) :
    (l.set i v).getD j d = l.getD j d := by
  simp [List.getD, List.getElem?_set_ne h]

theorem listDecAt_of_inc (l : List Nat) (i : Nat) : listDecAt (listIncAt l i) i = l := by
  by_cases hlen : i < l.length
  · unfold listIncAt listDecAt
    rw [getD_set_self l i _ 0 hlen, List.set_set]
    have h1 : l.getD i 0 + 1 - 1 = l.getD i 0 := by omega
    rw [h1]
    exact set_getD_cancel l i 0 hlen
  · have hle : l.length ≤ i := by omega
    have h2 : listIncAt l i = l := List.set_eq_of_length_le hle
    rw [h2]
    show l.set i (l.getD i 0 - 1) = l
    exact List.set_eq_of_length_le hle

theorem clear_set_bit_le (b p : Nat) (h : b.testBit p = false) :
    clear_bit_le (set_bit_le b p) p = b := by
  apply Nat.eq_of_testBit_eq
  intro j
  rw [testBit_clear_bit_le, testBit_set_bit_le]
  by_cases hpj : p = j
  · subst hpj
    simp [h]
  · simp [hpj]

theorem testBit_zero_shiftLeft (nr c : Nat) (hc : 0 < c) : (nr <<< c).testBit 0 = false := by
  rw [Nat.testBit_shiftLeft]
  simp [Nat.not_le.mpr hc]

theorem testBit_zero_or_one (m : Nat) : (m ||| 1).testBit 0 = true := by
  rw [Nat.testBit_or]
  simp

theorem or_one_eq_add_one (m : Nat) (h : m.testBit 0 = false) : m ||| 1 = m + 1 := by
  apply Nat.eq_of_testBit_eq
  intro j
  rw [Nat.testBit_or]
  cases j with
  | zero =>
    rw [h]
    have h2 : m % 2 = 0 := by
      rw [Nat.testBit_zero] at h
      simpa using h
    simp [Nat.testBit_zero]
    omega
  | succ k =>
    have h1 : (1 : Nat).testBit (k + 1) = false := by
      rw [show (1 : Nat) = 2 ^ 0 from rfl]
      exact Nat.testBit_two_pow_of_ne (by omega)
    rw [h1]
    have h2 : m % 2 = 0 := by
      rw [Nat.testBit_zero] at h
      simpa using h
    have h3 : (m + 1).testBit (k + 1) = m.testBit (k + 1) := by
      rw [Nat.testBit_add_one, Nat.testBit_add_one]
      congr 1
      omega
    rw [h3]
    simp

theorem xor_one_of_even (m : Nat) (h : m.testBit 0 = false) : m ^^^ 1 = m + 1 := by
  apply Nat.eq_of_testBit_eq
  intro j
  rw [Nat.testBit_xor]
  cases j with
  | zero =>
    rw [h]
    have h2 : m % 2 = 0 := by
      rw [Nat.testBit_zero] at h
      simpa using h
    simp [Nat.testBit_zero]
    omega
  | succ k =>
    have h1 : (1 : Nat).testBit (k + 1) = false := by
      rw [show (1 : Nat) = 2 ^ 0 from rfl]
      exact Nat.testBit_two_pow_of_ne (by omega)
    rw [h1]
    have h2 : m % 2 = 0 := by
      rw [Nat.testBit_zero] at h
      simpa using h
    have h3 : (m + 1).testBit (k + 1) = m.testBit (k + 1) := by
      rw [Nat.testBit_add_one, Nat.testBit_add_one]
      congr 1
      omega
    rw [h3]
    simp

theorem or_one_eq_xor_one (m : Nat) (h : m.testBit 0 = false) : m ||| 1 = m ^^^ 1 := by
  rw [or_one_eq_add_one m h, xor_one_of_even m h]

theorem or_one_xor_one (m : Nat) (h : m.testBit 0 = false) : (m ||| 1) ^^^ 1 = m := by
  rw [or_one_eq_xor_one m h, xor_one_xor_one]

theorem shiftLeft_shiftRight_self (nr c : Nat) : (nr <<< c) >>> c = nr := by
  rw [Nat.shiftLeft_eq, Nat.shiftRight_eq_div_pow]
  exact Nat.mul_div_cancel nr (Nat.pos_pow_of_pos c (by norm_num))

theorem shiftLeft_shiftRight_le (nr c d : Nat) (h : d ≤ c) :
    (nr <<< c) >>> d = nr <<< (c - d) := by
  rw [Nat.shiftLeft_eq, Nat.shiftRight_eq_div_pow, Nat.shiftLeft_eq]
  have h1 : nr * 2 ^ c = nr * 2 ^ (c - d) * 2 ^ d := by
    rw [Nat.mul_assoc, ← Nat.pow_add]
    have h2 : c - d + d = c := by omega
    rw [h2]
  rw [h1]
  exact Nat.mul_div_cancel (nr * 2 ^ (c - d)) (Nat.pos_pow_of_pos d (by norm_num))

theorem split_pos_shiftRight (nr c d : Nat) (h1 : 1 ≤ d) (h2 : d ≤ c) :
    ((nr <<< c) ||| 1) >>> d = nr <<< (c - d) := by
  rw [or_one_eq_add_one _ (testBit_zero_shiftLeft nr c (by omega))]
  rw [Nat.shiftLeft_eq, Nat.shiftRight_eq_div_pow, Nat.shiftLeft_eq]
  have h3 : nr * 2 ^ c = 2 ^ d * (nr * 2 ^ (c - d)) := by
    rw [Nat.mul_comm (2 ^ d) (nr * 2 ^ (c - d)), Nat.mul_assoc, ← Nat.pow_add]
    have h4 : c - d + d = c := by omega
    rw [h4]
  rw [h3, Nat.mul_add_div (Nat.pos_pow_of_pos d (by norm_num))]
  rw [Nat.div_eq_of_lt (Nat.one_lt_two_pow_iff.mpr (by omega))]
  rw [Nat.add_zero]

theorem shiftLeft_succ_shiftRight_one (nr k : Nat) : (nr <<< (k + 1)) >>> 1 = nr <<< k := by
  exact shiftLeft_shiftRight_le nr (k + 1) 1 (by omega)

theorem shiftLeft_shiftLeft_one (nr k : Nat) : (nr <<< 1) <<< k = nr <<< (k + 1) := by
  rw [Nat.shiftLeft_eq, Nat.shiftLeft_eq, Nat.shiftLeft_eq, Nat.mul_assoc, ← Nat.pow_add]
  rw [Nat.add_comm 1 k]

theorem test_set_buddy_bit (g : Geo) (ind : scoutfs_buddy_indirect)
    (bud : scoutfs_buddy_block) (o m j n : Nat) :
    test_buddy_bit g (set_buddy_bit g ind bud o m).2 j n =
      (test_buddy_bit g bud j n || decide (order_nr g j n = order_nr g o m)) := by
  unfold set_buddy_bit
  by_cases h : test_buddy_bit g bud o m = true
  · rw [if_pos h]
    by_cases hp : order_nr g j n = order_nr g o m
    · have hjn : test_buddy_bit g bud j n = true := by
        unfold test_buddy_bit test_bit_le at h ⊢
        rw [hp]
        exact h
      simp [hjn]
    · simp [hp]
  · rw [if_neg h]
    unfold test_buddy_bit test_bit_le
    dsimp only
    rw [testBit_set_bit_le]
    by_cases hp : order_nr g j n = order_nr g o m
    · simp [hp]
    · simp [hp, Ne.symm hp]

theorem test_clear_buddy_bit (g : Geo) (ind : scoutfs_buddy_indirect)
    (bud : scoutfs_buddy_block) (o m j n : Nat) :
    test_buddy_bit g (clear_buddy_bit g ind bud o m).2 j n =
      (test_buddy_bit g bud j n && !decide (order_nr g j n = order_nr g o m)) := by
  unfold clear_buddy_bit
  by_cases h : test_buddy_bit g bud o m = true
  · rw [if_pos h]
    unfold test_buddy_bit test_bit_le
    dsimp only
    rw [testBit_clear_bit_le]
    by_cases hp : order_nr g j n = order_nr g o m
    · simp [hp]
    · simp [hp, Ne.symm hp]
  · rw [if_neg h]
    by_cases hp : order_nr g j n = order_nr g o m
    · have hjn : test_buddy_bit g bud j n = false := by
        rw [Bool.not_eq_true] at h
        unfold test_buddy_bit test_bit_le at h ⊢
        rw [hp]
        exact h
      simp [hjn]
    · simp [hp]

theorem split_go_slots (g : Geo) (order : Nat) :
    ∀ k ind bud m, (split_go g order ind bud m k).1.slots = ind.slots := by
  intro k
  induction k with
  | zero => intro ind bud m; rfl
  | succ n ih =>
    intro ind bud m
    unfold split_go
    rw [ih]
    exact set_buddy_bit_slots g ind bud (order + n) (m ||| 1)

theorem split_go_shift (g : Geo) :
    ∀ k i ind bud m, split_go g i ind bud m (k + 1) =
      (let r := split_go g (i + 1) ind bud m k
       set_buddy_bit g r.1 r.2 i ((m <<< k) ||| 1)) := by
  intro k
  induction k with
  | zero =>
    intro i ind bud m
    show split_go g i ind bud m 1 = set_buddy_bit g ind bud i ((m <<< 0) ||| 1)
    have h0 : m <<< 0 = m := rfl
    rw [h0]
    rfl
  | succ n ih =>
    intro i ind bud m
    show split_go g i
        (set_buddy_bit g ind bud (i + (n + 1)) (m ||| 1)).1
        (set_buddy_bit g ind bud (i + (n + 1)) (m ||| 1)).2 (m <<< 1) (n + 1) =
      (let r := split_go g (i + 1)
          (set_buddy_bit g ind bud (i + 1 + n) (m ||| 1)).1
          (set_buddy_bit g ind bud (i + 1 + n) (m ||| 1)).2 (m <<< 1) n
       set_buddy_bit g r.1 r.2 i (((m <<< (n + 1))) ||| 1))
    have he : i + (n + 1) = i + 1 + n := by omega
    rw [he]
    rw [ih i _ _ (m <<< 1)]
    rw [shiftLeft_shiftLeft_one]

theorem clear_set_cancel_slots (g : Geo) (ind : scoutfs_buddy_indirect)
    (bud : scoutfs_buddy_block) (o m : Nat) (sA : List scoutfs_buddy_slot)
    (h : test_buddy_bit g bud o m = false) :
    clear_buddy_bit g { (set_buddy_bit g ind bud o m).1 with slots := sA }
        (set_buddy_bit g ind bud o m).2 o m = ({ ind with slots := sA }, bud) := by
  have hset : set_buddy_bit g ind bud o m =
      ({ ind with order_totals := listIncAt ind.order_totals o },
       ⟨set_bit_le bud.bits (order_nr g o m), listIncAt bud.order_counts o⟩) := by
    unfold set_buddy_bit
    rw [h, if_neg Bool.false_ne_true]
  rw [hset]
  have htest : test_buddy_bit g
      (⟨set_bit_le bud.bits (order_nr g o m), listIncAt bud.order_counts o⟩ :
        scoutfs_buddy_block) o m = true := by
    unfold test_buddy_bit test_bit_le
    dsimp only
    rw [testBit_set_bit_le]
    simp
  unfold clear_buddy_bit
  rw [htest, if_pos rfl]
  dsimp only
  rw [listDecAt_of_inc, listDecAt_of_inc]
  rw [clear_set_bit_le bud.bits _ h]

theorem popRange_set_out (b p lo : Nat) : ∀ len, (p < lo ∨ lo + len ≤ p) →
    popRange (set_bit_le b p) lo len = popRange b lo len := by
  intro len
  induction len with
  | zero => intro _; rfl
  | succ n ih =>
    intro h
    unfold popRange
    rw [ih (by omega)]
    have hne : p ≠ lo + n := by omega
    rw [testBit_set_bit_le]
    simp [hne]

theorem popRange_set_in (b p lo : Nat) : ∀ len, lo ≤ p → p < lo + len →
    b.testBit p = false →
    popRange (set_bit_le b p) lo len = popRange b lo len + 1 := by
  intro len
  induction len with
  | zero => intro h1 h2 _; omega
  | succ n ih =>
    intro h1 h2 hb
    unfold popRange
    by_cases hp : p = lo + n
    · rw [popRange_set_out b p lo n (by omega)]
      rw [testBit_set_bit_le]
      subst hp
      rw [hb]
      simp
    · rw [ih h1 (by omega) hb]
      rw [testBit_set_bit_le]
      have hne : p ≠ lo + n := hp
      simp [hne]
      omega

theorem popRange_clear_out (b p lo : Nat) : ∀ len, (p < lo ∨ lo + len ≤ p) →
    popRange (clear_bit_le b p) lo len = popRange b lo len := by
  intro len
  induction len with
  | zero => intro _; rfl
  | succ n ih =>
    intro h
    unfold popRange
    rw [ih (by omega)]
    have hne : p ≠ lo + n := by omega
    rw [testBit_clear_bit_le]
    simp [hne]

theorem popRange_clear_in (b p lo : Nat) : ∀ len, lo ≤ p → p < lo + len →
    b.testBit p = true →
    popRange b lo len = popRange (clear_bit_le b p) lo len + 1 := by
  intro len
  induction len with
  | zero => intro h1 h2 _; omega
  | succ n ih =>
    intro h1 h2 hb
    unfold popRange
    by_cases hp : p = lo + n
    · rw [popRange_clear_out b p lo n (by omega)]
      rw [testBit_clear_bit_le]
      subst hp
      rw [hb]
      simp
    · rw [ih h1 (by omega) hb]
      rw [testBit_clear_bit_le]
      have hne : p ≠ lo + n := hp
      simp [hne]
      omega

theorem sumBelow_congr (f h : Nat → Nat) :
    ∀ n, (∀ i, i < n → f i = h i) → sumBelow f n = sumBelow h n := by
  intro n
  induction n with
  | zero => intro _; rfl
  | succ k ih =>
    intro hfh
    unfold sumBelow
    rw [ih (fun i hi => hfh i (by omega)), hfh k (by omega)]

theorem sumBelow_delta (f h : Nat → Nat) :
    ∀ n i, i < n → (∀ x, x < n → x ≠ i → f x = h x) →
      f i + sumBelow h n = h i + sumBelow f n := by
  intro n
  induction n with
  | zero => intro i hi; omega
  | succ k ih =>
    intro i hi hfh
    unfold sumBelow
    by_cases hik : i = k
    · subst hik
      have hc : sumBelow f i = sumBelow h i :=
        sumBelow_congr f h i (fun x hx => hfh x (by omega) (by omega))
      omega
    · have := ih i (by omega) (fun x hx hne => hfh x (by omega) hne)
      have hk : f k = h k := hfh k (by omega) (Ne.symm (by omega))
      omega

theorem sumBelow_le_term (f : Nat → Nat) :
    ∀ n i, i < n → f i ≤ sumBelow f n := by
  intro n
  induction n with
  | zero => intro i hi; omega
  | succ k ih =>
    intro i hi
    unfold sumBelow
    by_cases hik : i = k
    · subst hik; omega
    · have := ih i (by omega)
      omega

theorem order_nr_mem (g : Geo) (e : Nat) (hB : g.ORDER0_BITS = 2 ^ e) (o m : Nat)
    (ho : o ≤ e) (hm : m < 2 ^ (e - o)) :
    order_off g o ≤ order_nr g o m ∧ order_nr g o m < order_off g (o + 1) := by
  unfold order_nr
  have := order_off_succ g e o hB ho
  omega

theorem order_region_out (g : Geo) (e : Nat) (hB : g.ORDER0_BITS = 2 ^ e) (o m j : Nat)
    (ho : o ≤ e) (hm : m < 2 ^ (e - o)) (hj : j ≤ e) (hne : j ≠ o) :
    order_nr g o m < order_off g j ∨ order_off g (j + 1) ≤ order_nr g o m := by
  obtain ⟨h1, h2⟩ := order_nr_mem g e hB o m ho hm
  rcases Nat.lt_or_ge j o with hlt | hge
  · right
    have := order_off_mono g e hB (j + 1) o (by omega) (by omega)
    omega
  · left
    have hoj : o < j := by omega
    have := order_off_mono g e hB (o + 1) j (by omega) (by omega)
    omega

theorem popOrder_set (g : Geo) (e : Nat) (hB : g.ORDER0_BITS = 2 ^ e)
    (ind : scoutfs_buddy_indirect) (bud : scoutfs_buddy_block) (o m : Nat)
    (ho : o ≤ e) (hm : m < 2 ^ (e - o)) (h : test_buddy_bit g bud o m = false)
    (j : Nat) (hj : j ≤ e) :
    popOrder g (set_buddy_bit g ind bud o m).2 j =
      popOrder g bud j + (if j = o then 1 else 0) := by
  have hset : (set_buddy_bit g ind bud o m).2 =
      ⟨set_bit_le bud.bits (order_nr g o m), listIncAt bud.order_counts o⟩ := by
    unfold set_buddy_bit
    rw [h, if_neg Bool.false_ne_true]
  rw [hset]
  unfold popOrder
  dsimp only
  have hmono : order_off g j ≤ order_off g (j + 1) :=
    order_off_mono g e hB j (j + 1) (by omega) (by omega)
  by_cases hjo : j = o
  · subst hjo
    obtain ⟨h1, h2⟩ := order_nr_mem g e hB j m (by omega) hm
    rw [popRange_set_in bud.bits _ _ _ h1 (by omega) h]
    simp
  · obtain hout := order_region_out g e hB o m j ho hm hj hjo
    rw [popRange_set_out bud.bits _ _ _ (by omega)]
    simp [hjo]

theorem popOrder_clear (g : Geo) (e : Nat) (hB : g.ORDER0_BITS = 2 ^ e)
    (ind : scoutfs_buddy_indirect) (bud : scoutfs_buddy_block) (o m : Nat)
    (ho : o ≤ e) (hm : m < 2 ^ (e - o)) (h : test_buddy_bit g bud o m = true)
    (j : Nat) (hj : j ≤ e) :
    popOrder g bud j =
      popOrder g (clear_buddy_bit g ind bud o m).2 j + (if j = o then 1 else 0) := by
  have hclear : (clear_buddy_bit g ind bud o m).2 =
      ⟨clear_bit_le bud.bits (order_nr g o m), listDecAt bud.order_counts o⟩ := by
    unfold clear_buddy_bit
    rw [h, if_pos rfl]
  rw [hclear]
  unfold popOrder
  dsimp only
  have hmono : order_off g j ≤ order_off g (j + 1) :=
    order_off_mono g e hB j (j + 1) (by omega) (by omega)
  by_cases hjo : j = o
  · subst hjo
    obtain ⟨h1, h2⟩ := order_nr_mem g e hB j m (by omega) hm
    rw [popRange_clear_in bud.bits _ _ _ h1 (by omega) h]
    simp
  · obtain hout := order_region_out g e hB o m j ho hm hj hjo
    rw [popRange_clear_out bud.bits _ _ _ (by omega)]
    simp [hjo]

theorem popOrder_pos (g : Geo) (e : Nat) (hB : g.ORDER0_BITS = 2 ^ e)
    (bud : scoutfs_buddy_block) (j n : Nat) (hj : j ≤ e) (hn : n < 2 ^ (e - j))
    (h : test_buddy_bit g bud j n = true) : 1 ≤ popOrder g bud j := by
  obtain ⟨h1, h2⟩ := order_nr_mem g e hB j n hj hn
  have hmono : order_off g j ≤ order_off g (j + 1) :=
    order_off_mono g e hB j (j + 1) (by omega) (by omega)
  have := popRange_clear_in bud.bits (order_nr g j n) (order_off g j)
    (order_off g (j + 1) - order_off g j) h1 (by omega) h
  unfold popOrder
  omega

theorem listIncAt_length (l : List Nat) (i : Nat) : (listIncAt l i).length = l.length := by
  unfold listIncAt
  exact List.length_set l i _

theorem listDecAt_length (l : List Nat) (i : Nat) : (listDecAt l i).length = l.length := by
  unfold listDecAt
  exact List.length_set l i _

theorem listIncAt_getD_self (l : List Nat) (i : Nat) (h : i < l.length) :
    (listIncAt l i).getD i 0 = l.getD i 0 + 1 := by
  unfold listIncAt
  exact getD_set_self l i _ 0 h

theorem listIncAt_getD_ne (l : List Nat) (i j : Nat) (h : i ≠ j) :
    (listIncAt l i).getD j 0 = l.getD j 0 := by
  unfold listIncAt
  exact getD_set_ne l i j _ 0 h

theorem listDecAt_getD_self (l : List Nat) (i : Nat) (h : i < l.length) :
    (listDecAt l i).getD i 0 = l.getD i 0 - 1 := by
  unfold listDecAt
  exact getD_set_self l i _ 0 h

theorem listDecAt_getD_ne (l : List Nat) (i j : Nat) (h : i ≠ j) :
    (listDecAt l i).getD j 0 = l.getD j 0 := by
  unfold listDecAt
  exact getD_set_ne l i j _ 0 h

theorem pow_gap (e i k : Nat) (h : i + k + 1 ≤ e) (nr : Nat)
    (hnr : nr < 2 ^ (e - (i + k + 1))) : 2 * nr + 1 < 2 ^ (e - (i + k)) := by
  have hp : (2 : Nat) ^ (e - (i + k)) = 2 ^ (e - (i + k + 1)) * 2 := by
    rw [← Nat.pow_succ]
    congr 1
    omega
  omega

/-- Bits after the split loop: a position is set iff it was set before or is
one of the right-buddy positions the split writes (order i+jj, position
nr <<< (k-jj) with the low bit set, for jj < k). -/
theorem split_go_test (g : Geo) (e : Nat) (hB : g.ORDER0_BITS = 2 ^ e) :
    ∀ k i nr ind bud, i + k ≤ e → nr < 2 ^ (e - (i + k)) →
      ∀ j n, j ≤ e → n < 2 ^ (e - j) →
        test_buddy_bit g (split_go g i ind bud (nr <<< 1) k).2 j n =
          (test_buddy_bit g bud j n ||
            decide (i ≤ j ∧ j < i + k ∧ n = (nr <<< (i + k - j)) ||| 1)) := by
  intro k
  induction k with
  | zero =>
    intro i nr ind bud hik hnr j n hj hn
    have hfalse : ¬(i ≤ j ∧ j < i + 0 ∧ n = (nr <<< (i + 0 - j)) ||| 1) := by
      intro hcon
      omega
    have h0 : split_go g i ind bud (nr <<< 1) 0 = (ind, bud) := rfl
    rw [h0, decide_eq_false hfalse, Bool.or_false]
  | succ k ih =>
    intro i nr ind bud hik hnr j n hj hn
    have hnr2 : 2 * nr + 1 < 2 ^ (e - (i + k)) := pow_gap e i k hik nr hnr
    have hsl : nr <<< 1 = 2 * nr := by
      rw [Nat.shiftLeft_eq]
      omega
    have hstep : split_go g i ind bud (nr <<< 1) (k + 1) =
        split_go g i (set_buddy_bit g ind bud (i + k) ((nr <<< 1) ||| 1)).1
          (set_buddy_bit g ind bud (i + k) ((nr <<< 1) ||| 1)).2
          ((nr <<< 1) <<< 1) k := rfl
    rw [hstep]
    have hshift : (nr <<< 1) <<< 1 = (nr <<< 1) <<< 1 := rfl
    rw [ih i (nr <<< 1)
      (set_buddy_bit g ind bud (i + k) ((nr <<< 1) ||| 1)).1
      (set_buddy_bit g ind bud (i + k) ((nr <<< 1) ||| 1)).2
      (by omega) (by rw [hsl]; omega) j n hj hn]
    rw [test_set_buddy_bit]
    have htop_range : (nr <<< 1) ||| 1 < 2 ^ (e - (i + k)) := by
      rw [or_one_eq_add_one _ (testBit_zero_shiftLeft nr 1 (by omega)), hsl]
      omega
    have hiff1 : (order_nr g j n = order_nr g (i + k) ((nr <<< 1) ||| 1)) ↔
        (j = i + k ∧ n = (nr <<< 1) ||| 1) := by
      constructor
      · intro hq
        exact order_nr_inj g e hB j (i + k) n ((nr <<< 1) ||| 1) hj (by omega) hn
          htop_range hq
      · intro ⟨h1, h2⟩
        rw [h1, h2]
    have hiff2 : ((j = i + k ∧ n = (nr <<< 1) ||| 1) ∨
        (i ≤ j ∧ j < i + k ∧ n = ((nr <<< 1) <<< (i + k - j)) ||| 1)) ↔
        (i ≤ j ∧ j < i + k + 1 ∧ n = (nr <<< (i + k + 1 - j)) ||| 1) := by
      constructor
      · rintro (⟨h1, h2⟩ | ⟨h1, h2, h3⟩)
        · subst h1
          refine ⟨by omega, by omega, ?_⟩
          have hz : i + k + 1 - (i + k) = 1 := by omega
          rw [hz]
          exact h2
        · refine ⟨h1, by omega, ?_⟩
          rw [h3, shiftLeft_shiftLeft_one]
          have hz : i + k - j + 1 = i + k + 1 - j := by omega
          rw [hz]
      · rintro ⟨h1, h2, h3⟩
        by_cases hjk : j = i + k
        · left
          subst hjk
          refine ⟨rfl, ?_⟩
          have hz : i + k + 1 - (i + k) = 1 := by omega
          rw [hz] at h3
          exact h3
        · right
          refine ⟨h1, by omega, ?_⟩
          rw [h3, shiftLeft_shiftLeft_one]
          have hz : i + k - j + 1 = i + k + 1 - j := by omega
          rw [hz]
    have hd : (decide (j = i + k ∧ n = (nr <<< 1) ||| 1) ||
        decide (i ≤ j ∧ j < i + k ∧ n = ((nr <<< 1) <<< (i + k - j)) ||| 1)) =
        decide (i ≤ j ∧ j < i + k + 1 ∧ n = (nr <<< (i + k + 1 - j)) ||| 1) := by
      rw [← Bool.decide_or]
      exact decide_eq_decide.mpr hiff2
    rw [decide_eq_decide.mpr hiff1, Bool.or_assoc, hd]
    rfl

theorem listIncAt_oob (l : List Nat) (i : Nat) (h : l.length ≤ i) : listIncAt l i = l :=
  List.set_eq_of_length_le h

theorem split_pos_range (e i k jj nr : Nat) (h : i + k + 1 ≤ e) (hjj : jj ≤ k)
    (hnr : nr < 2 ^ (e - (i + k + 1))) :
    (nr <<< (k + 1 - jj)) ||| 1 < 2 ^ (e - (i + jj)) := by
  rw [or_one_eq_add_one _ (testBit_zero_shiftLeft nr (k + 1 - jj) (by omega))]
  rw [Nat.shiftLeft_eq]
  have hsplit : (2 : Nat) ^ (e - (i + jj)) = 2 ^ (e - (i + k + 1)) * 2 ^ (k + 1 - jj) := by
    rw [← Nat.pow_add]
    congr 1
    omega
  have hpos : (1 : Nat) ≤ 2 ^ (k + 1 - jj) := Nat.pos_pow_of_pos _ (by norm_num)
  calc nr * 2 ^ (k + 1 - jj) + 1
      ≤ (2 ^ (e - (i + k + 1)) - 1) * 2 ^ (k + 1 - jj) + 1 := by
        have : nr ≤ 2 ^ (e - (i + k + 1)) - 1 := by omega
        exact Nat.add_le_add_right (Nat.mul_le_mul_right _ this) 1
    _ = 2 ^ (e - (i + k + 1)) * 2 ^ (k + 1 - jj) - 2 ^ (k + 1 - jj) + 1 := by
        rw [Nat.sub_mul, Nat.one_mul]
    _ < 2 ^ (e - (i + jj)) := by
        rw [hsplit]
        have h1 : 2 ^ (k + 1 - jj) ≤ 2 ^ (e - (i + k + 1)) * 2 ^ (k + 1 - jj) :=
          Nat.le_mul_of_pos_left _ (Nat.pos_pow_of_pos _ (by norm_num))
        have h2 : 1 < 2 ^ (k + 1 - jj) := Nat.one_lt_two_pow_iff.mpr (by omega)
        omega

/-- Per-order popcount, count and total deltas of the split loop: exactly
one new free bit appears at each order in [i, i + k). -/
theorem split_go_deltas (g : Geo) (e : Nat) (hB : g.ORDER0_BITS = 2 ^ e) :
    ∀ k i nr ind bud, i + k ≤ e → nr < 2 ^ (e - (i + k)) →
      (∀ jj, jj < k → test_buddy_bit g bud (i + jj) ((nr <<< (k - jj)) ||| 1) = false) →
      ∀ j, j ≤ e →
        popOrder g (split_go g i ind bud (nr <<< 1) k).2 j
            = popOrder g bud j + (if i ≤ j ∧ j < i + k then 1 else 0) ∧
        (split_go g i ind bud (nr <<< 1) k).2.order_counts.getD j 0
            = bud.order_counts.getD j 0 +
              (if i ≤ j ∧ j < i + k ∧ j < bud.order_counts.length then 1 else 0) ∧
        (split_go g i ind bud (nr <<< 1) k).1.order_totals.getD j 0
            = ind.order_totals.getD j 0 +
              (if i ≤ j ∧ j < i + k ∧ j < ind.order_totals.length then 1 else 0) ∧
        (split_go g i ind bud (nr <<< 1) k).2.order_counts.length
            = bud.order_counts.length ∧
        (split_go g i ind bud (nr <<< 1) k).1.order_totals.length
            = ind.order_totals.length := by
  intro k
  induction k with
  | zero =>
    intro i nr ind bud hik hnr hclear j hj
    have h1 : ¬(i ≤ j ∧ j < i + 0) := by omega
    have h2 : ¬(i ≤ j ∧ j < i + 0 ∧ j < bud.order_counts.length) := by omega
    have h3 : ¬(i ≤ j ∧ j < i + 0 ∧ j < ind.order_totals.length) := by omega
    have h0 : split_go g i ind bud (nr <<< 1) 0 = (ind, bud) := rfl
    exact ⟨by rw [h0, if_neg h1]; exact rfl, by rw [h0, if_neg h2]; exact rfl,
      by rw [h0, if_neg h3]; exact rfl, by rw [h0], by rw [h0]⟩
  | succ k ih =>
    intro i nr ind bud hik hnr hclear j hj
    have htopclear : test_buddy_bit g bud (i + k) ((nr <<< 1) ||| 1) = false := by
      have h := hclear k (by omega)
      have hz : k + 1 - k = 1 := by omega
      rw [hz] at h
      exact h
    have htoprange : (nr <<< 1) ||| 1 < 2 ^ (e - (i + k)) := by
      have := split_pos_range e i k k nr (by omega) (by omega) (by
        have hz : i + k + 1 = i + (k + 1) := by omega
        rw [hz]
        exact hnr)
      have hz : k + 1 - k = 1 := by omega
      rw [hz] at this
      have hz2 : i + k + 1 - 1 = i + k := by omega
      exact this
    have hset : set_buddy_bit g ind bud (i + k) ((nr <<< 1) ||| 1) =
        ({ ind with order_totals := listIncAt ind.order_totals (i + k) },
         ⟨set_bit_le bud.bits (order_nr g (i + k) ((nr <<< 1) ||| 1)),
          listIncAt bud.order_counts (i + k)⟩) := by
      unfold set_buddy_bit
      rw [htopclear, if_neg Bool.false_ne_true]
    have hstep : split_go g i ind bud (nr <<< 1) (k + 1) =
        split_go g i (set_buddy_bit g ind bud (i + k) ((nr <<< 1) ||| 1)).1
          (set_buddy_bit g ind bud (i + k) ((nr <<< 1) ||| 1)).2
          ((nr <<< 1) <<< 1) k := rfl
    have hclear' : ∀ jj, jj < k →
        test_buddy_bit g (set_buddy_bit g ind bud (i + k) ((nr <<< 1) ||| 1)).2
          (i + jj) (((nr <<< 1) <<< (k - jj)) ||| 1) = false := by
      intro jj hjj
      rw [test_set_buddy_bit]
      have h1 : (nr <<< 1) <<< (k - jj) = nr <<< (k + 1 - jj) := by
        rw [shiftLeft_shiftLeft_one]
        congr 1
        omega
      rw [h1, hclear jj (by omega)]
      have hposr : (nr <<< (k + 1 - jj)) ||| 1 < 2 ^ (e - (i + jj)) := by
        apply split_pos_range e i k jj nr (by omega) (by omega)
        have hz : i + k + 1 = i + (k + 1) := by omega
        rw [hz]
        exact hnr
      have hne : ¬(order_nr g (i + jj) ((nr <<< (k + 1 - jj)) ||| 1) =
          order_nr g (i + k) ((nr <<< 1) ||| 1)) := by
        intro heq
        have := order_nr_inj g e hB (i + jj) (i + k) _ _ (by omega) (by omega)
          hposr htoprange heq
        omega
      rw [decide_eq_false hne]
      rfl
    have hpop_top : popOrder g (set_buddy_bit g ind bud (i + k) ((nr <<< 1) ||| 1)).2 j
        = popOrder g bud j + (if j = i + k then 1 else 0) :=
      popOrder_set g e hB ind bud (i + k) ((nr <<< 1) ||| 1) (by omega) htoprange
        htopclear j hj
    obtain ⟨hpopI, hcntI, htotI, hlenCI, hlenTI⟩ :=
      ih i (nr <<< 1)
        (set_buddy_bit g ind bud (i + k) ((nr <<< 1) ||| 1)).1
        (set_buddy_bit g ind bud (i + k) ((nr <<< 1) ||| 1)).2
        (by omega)
        (by
          rw [Nat.shiftLeft_eq]
          have hp : (2 : Nat) ^ (e - (i + k)) = 2 ^ (e - (i + (k + 1))) * 2 := by
            rw [← Nat.pow_succ]
            congr 1
            omega
          omega)
        hclear' j hj
    rw [hstep]
    refine ⟨?_, ?_, ?_, ?_, ?_⟩
    · rw [hpopI, hpop_top]
      by_cases hc1 : i ≤ j ∧ j < i + k
      · rw [if_pos hc1, if_pos (by omega : i ≤ j ∧ j < i + (k + 1)),
           if_neg (by omega : ¬j = i + k)]
      · by_cases hc2 : j = i + k
        · rw [if_neg hc1, if_pos hc2, if_pos (by omega : i ≤ j ∧ j < i + (k + 1))]
        · rw [if_neg hc1, if_neg hc2, if_neg (by omega : ¬(i ≤ j ∧ j < i + (k + 1)))]
    · rw [hcntI]
      rw [hset]
      dsimp only
      rw [listIncAt_length]
      by_cases hlen : i + k < bud.order_counts.length
      · rw [show (listIncAt bud.order_counts (i + k)).getD j 0 =
            bud.order_counts.getD j 0 + (if j = i + k then 1 else 0) from ?_]
        · by_cases hc1 : i ≤ j ∧ j < i + k ∧ j < bud.order_counts.length
          · rw [if_pos hc1, if_neg (by omega : ¬j = i + k),
               if_pos (by omega : i ≤ j ∧ j < i + (k + 1) ∧ j < bud.order_counts.length)]
          · by_cases hc2 : j = i + k
            · rw [if_neg hc1, if_pos hc2,
                 if_pos (by omega : i ≤ j ∧ j < i + (k + 1) ∧ j < bud.order_counts.length)]
            · rw [if_neg hc1, if_neg hc2,
                 if_neg (by omega :
                   ¬(i ≤ j ∧ j < i + (k + 1) ∧ j < bud.order_counts.length))]
        · by_cases hj2 : j = i + k
          · rw [if_pos hj2, hj2]
            exact listIncAt_getD_self bud.order_counts (i + k) hlen
          · rw [if_neg hj2]
            exact listIncAt_getD_ne bud.order_counts (i + k) j (Ne.symm hj2)
      · rw [listIncAt_oob bud.order_counts (i + k) (by omega)]
        by_cases hc1 : i ≤ j ∧ j < i + k ∧ j < bud.order_counts.length
        · rw [if_pos hc1, if_pos (by omega :
            i ≤ j ∧ j < i + (k + 1) ∧ j < bud.order_counts.length)]
        · rw [if_neg hc1]
          by_cases hc3 : i ≤ j ∧ j < i + (k + 1) ∧ j < bud.order_counts.length
          · rw [if_pos hc3]
            omega
          · rw [if_neg hc3]
    · rw [htotI]
      rw [hset]
      dsimp only
      rw [listIncAt_length]
      by_cases hlen : i + k < ind.order_totals.length
      · rw [show (listIncAt ind.order_totals (i + k)).getD j 0 =
            ind.order_totals.getD j 0 + (if j = i + k then 1 else 0) from ?_]
        · by_cases hc1 : i ≤ j ∧ j < i + k ∧ j < ind.order_totals.length
          · rw [if_pos hc1, if_neg (by omega : ¬j = i + k),
               if_pos (by omega : i ≤ j ∧ j < i + (k + 1) ∧ j < ind.order_totals.length)]
          · by_cases hc2 : j = i + k
            · rw [if_neg hc1, if_pos hc2,
                 if_pos (by omega : i ≤ j ∧ j < i + (k + 1) ∧ j < ind.order_totals.length)]
            · rw [if_neg hc1, if_neg hc2,
                 if_neg (by omega :
                   ¬(i ≤ j ∧ j < i + (k + 1) ∧ j < ind.order_totals.length))]
        · by_cases hj2 : j = i + k
          · rw [if_pos hj2, hj2]
            exact listIncAt_getD_self ind.order_totals (i + k) hlen
          · rw [if_neg hj2]
            exact listIncAt_getD_ne ind.order_totals (i + k) j (Ne.symm hj2)
      · rw [listIncAt_oob ind.order_totals (i + k) (by omega)]
        by_cases hc1 : i ≤ j ∧ j < i + k ∧ j < ind.order_totals.length
        · rw [if_pos hc1, if_pos (by omega :
            i ≤ j ∧ j < i + (k + 1) ∧ j < ind.order_totals.length)]
        · rw [if_neg hc1]
          by_cases hc3 : i ≤ j ∧ j < i + (k + 1) ∧ j < ind.order_totals.length
          · rw [if_pos hc3]
            omega
          · rw [if_neg hc3]
    · rw [hlenCI, hset]
      dsimp only
      exact listIncAt_length bud.order_counts (i + k)
    · rw [hlenTI, hset]
      dsimp only
      exact listIncAt_length ind.order_totals (i + k)

theorem mergeDepth_eq (g : Geo) (bud : scoutfs_buddy_block) :
    ∀ k fuel i m, k ≤ fuel →
      (∀ j, j < k → test_buddy_bit g bud (i + j) ((m >>> j) ^^^ 1) = true) →
      (fuel = k ∨ test_buddy_bit g bud (i + k) ((m >>> k) ^^^ 1) = false) →
      mergeDepth g bud i m fuel = k := by
  intro k
  induction k with
  | zero =>
    intro fuel i m hk htests hstop
    cases fuel with
    | zero => rfl
    | succ f =>
      rcases hstop with h | h
      · exact absurd h (by omega)
      · unfold mergeDepth
        have h0 : test_buddy_bit g bud i (m ^^^ 1) = false := by simpa using h
        rw [h0, if_neg Bool.false_ne_true]
  | succ k ih =>
    intro fuel i m hk htests hstop
    cases fuel with
    | zero => omega
    | succ f =>
      unfold mergeDepth
      have h0 : test_buddy_bit g bud i (m ^^^ 1) = true := by
        have := htests 0 (by omega)
        simpa using this
      rw [h0, if_pos rfl]
      have hrec : mergeDepth g bud (i + 1) (m >>> 1) f = k := by
        apply ih f (i + 1) (m >>> 1) (by omega)
        · intro j hj
          have h2 := htests (j + 1) (by omega)
          rw [show i + (j + 1) = i + 1 + j by omega,
              show m >>> (j + 1) = (m >>> 1) >>> j by
                rw [← Nat.shiftRight_add]; congr 1; omega] at h2
          exact h2
        · rcases hstop with h | h
          · left
            omega
          · right
            rw [show i + (k + 1) = i + 1 + k by omega,
                show m >>> (k + 1) = (m >>> 1) >>> k by
                  rw [← Nat.shiftRight_add]; congr 1; omega] at h
            exact h
      rw [hrec]

/-- The merge loop exactly inverts the split loop: k merge steps starting
at the granted position clear precisely the k right-buddy bits the split
set, restoring the post-clear block and totals (the slots array passes
through untouched). -/
theorem split_merge_inverse (g : Geo) (e : Nat) (hB : g.ORDER0_BITS = 2 ^ e) :
    ∀ k i nr ind bud sA, i + k ≤ e → nr < 2 ^ (e - (i + k)) →
      (∀ jj, jj < k → test_buddy_bit g bud (i + jj) ((nr <<< (k - jj)) ||| 1) = false) →
      mergeFold g { (split_go g i ind bud (nr <<< 1) k).1 with slots := sA }
          (split_go g i ind bud (nr <<< 1) k).2 i (nr <<< k) k
        = ({ ind with slots := sA }, bud) := by
  intro k
  induction k with
  | zero =>
    intro i nr ind bud sA hik hnr hclear
    exact rfl
  | succ k ih =>
    intro i nr ind bud sA hik hnr hclear
    rw [split_go_shift g k i ind bud (nr <<< 1)]
    dsimp only
    rw [shiftLeft_shiftLeft_one nr k]
    have heven : (nr <<< (k + 1)).testBit 0 = false :=
      testBit_zero_shiftLeft nr (k + 1) (by omega)
    have hstep : ∀ (A : scoutfs_buddy_indirect) (B : scoutfs_buddy_block),
        mergeFold g A B i (nr <<< (k + 1)) (k + 1) =
          mergeFold g (clear_buddy_bit g A B i ((nr <<< (k + 1)) ^^^ 1)).1
            (clear_buddy_bit g A B i ((nr <<< (k + 1)) ^^^ 1)).2
            (i + 1) ((nr <<< (k + 1)) >>> 1) k := fun A B => rfl
    rw [hstep]
    rw [show (nr <<< (k + 1)) ^^^ 1 = (nr <<< (k + 1)) ||| 1 from
      (or_one_eq_xor_one _ heven).symm]
    have hclear0 : test_buddy_bit g (split_go g (i + 1) ind bud (nr <<< 1) k).2 i
        ((nr <<< (k + 1)) ||| 1) = false := by
      rw [split_go_test g e hB k (i + 1) nr ind bud (by omega) (by
          have hz : i + 1 + k = i + (k + 1) := by omega
          rw [hz]
          exact hnr) i ((nr <<< (k + 1)) ||| 1) (by omega) (by
          have := split_pos_range e i k 0 nr (by omega) (by omega) (by
            have hz : i + k + 1 = i + (k + 1) := by omega
            rw [hz]
            exact hnr)
          simpa using this)]
      have h1 : test_buddy_bit g bud i ((nr <<< (k + 1)) ||| 1) = false := by
        have := hclear 0 (by omega)
        simpa using this
      rw [h1]
      rw [decide_eq_false (by omega : ¬(i + 1 ≤ i ∧ i < i + 1 + k ∧
        (nr <<< (k + 1)) ||| 1 = (nr <<< (i + 1 + k - i)) ||| 1))]
      rfl
    rw [clear_set_cancel_slots g (split_go g (i + 1) ind bud (nr <<< 1) k).1
      (split_go g (i + 1) ind bud (nr <<< 1) k).2 i ((nr <<< (k + 1)) ||| 1) sA hclear0]
    rw [shiftLeft_succ_shiftRight_one]
    exact ih (i + 1) nr ind bud sA (by omega) (by
        have hz : i + 1 + k = i + (k + 1) := by omega
        rw [hz]
        exact hnr)
      (fun jj hjj => by
        have h2 := hclear (jj + 1) (by omega)
        rw [show i + (jj + 1) = i + 1 + jj by omega,
            show k + 1 - (jj + 1) = k - jj by omega] at h2
        exact h2)

/-- One alloc/free round trip: from a valid state, scoutfs_buddy_free of a
successful buddy_alloc's result restores the state exactly, whether or not
the allocation split a larger free extent. -/
theorem alloc_free_step (g : Geo) (e : Nat)
    (hB : g.ORDER0_BITS = 2 ^ e) (hOe : g.ORDERS ≤ e + 1)
    (s : AllocState) (ind st_ind : scoutfs_buddy_indirect)
    (hdi : s.dirty_ind = some ind) (hsi : s.stable_ind = some st_ind)
    (hV : IndValid g e ind)
    (order b go : Nat) (s' : AllocState)
    (halloc : buddy_alloc g s order = (.ok (b, go), s')) :
    scoutfs_buddy_free g s' b go = (.ok (), s) := by
  obtain ⟨hslots, hpop, hcache, hvalid, htdom, htlen⟩ := hV
  obtain ⟨hltO, hgoord, hao, -⟩ :=
    buddy_alloc_populated_ok g s order ind st_ind hdi hsi hpop b go s' halloc
  obtain ⟨sl, ind2, hsl, hslotok, hs'⟩ :=
    alloc_order_populated_ok g s go ind st_ind hdi hsi hpop b s' hao
  obtain ⟨bud, hbud⟩ := Option.isSome_iff_exists.mp (hpop sl hsl)
  obtain ⟨-, nr, found, hff, hb, hind2⟩ :=
    alloc_slot_ok_populated g s ind sl (st_ind.slots.getD sl ⟨0, none⟩) go bud hbud
      b ind2 s hslotok
  have hSB : slotBud ind sl = bud := by
    unfold slotBud
    rw [hbud]
    rfl
  obtain ⟨hgof, hfO, htest, -, hnrbound⟩ :=
    find_first_fit_sound g sl bud ((st_ind.slots.getD sl ⟨0, none⟩).bud) go nr found hff
  have hfe : found ≤ e := by omega
  have hnr2 : nr < 2 ^ (e - found) := by
    have hos := order_off_succ g e found hB hfe
    unfold order_nr at hnrbound
    omega
  obtain ⟨hcanon, hdisj, hcdom, hclen⟩ := by
    have h := hvalid sl hsl
    rw [hSB] at h
    exact h
  have hcntpos : 0 < bud.order_counts.getD found 0 := by
    have h1 := popOrder_pos g e hB bud found nr hfe hnr2 htest
    have h2 := hcdom found hfO
    omega
  have htotpos : 0 < ind.order_totals.getD found 0 := by
    have h1 := popOrder_pos g e hB bud found nr hfe hnr2 htest
    have h2 := sumBelow_le_term (fun x => popOrder g (slotBud ind x) found) g.SLOTS sl hsl
    dsimp only at h2
    rw [hSB] at h2
    have h3 := htdom found hfO
    unfold sumPop at h3
    omega
  have hdesc : ∀ jj, jj < found - go →
      test_buddy_bit g bud (go + jj) ((nr <<< (found - go - jj)) ||| 1) = false := by
    intro jj hjj
    by_contra hcon
    rw [Bool.not_eq_false] at hcon
    have hrange : (nr <<< (found - go - jj)) ||| 1 < 2 ^ (e - (go + jj)) := by
      have := split_pos_range e go (found - go - 1) jj nr (by omega) (by omega) (by
        have hz : go + (found - go - 1) + 1 = found := by omega
        rw [hz]
        exact hnr2)
      rw [show found - go - 1 + 1 - jj = found - go - jj by omega] at this
      exact this
    have hanc := hdisj (go + jj) (by omega) _ hrange hcon found hfO (by omega)
    rw [show found - (go + jj) = found - go - jj by omega] at hanc
    rw [split_pos_shiftRight nr (found - go - jj) (found - go - jj) (by omega)
      (le_refl _)] at hanc
    rw [show found - go - jj - (found - go - jj) = 0 by omega] at hanc
    have hz : nr <<< 0 = nr := rfl
    rw [hz] at hanc
    rw [htest] at hanc
    cases hanc
  have hclearP : ∀ jj, jj < found - go →
      test_buddy_bit g (clear_buddy_bit g ind bud found nr).2 (go + jj)
        ((nr <<< (found - go - jj)) ||| 1) = false := by
    intro jj hjj
    rw [test_clear_buddy_bit, hdesc jj hjj]
    rfl
  have hmath := extent_block_math g e hB sl found nr 0 hfe hnrbound
    (Nat.pos_pow_of_pos found (by norm_num))
  simp only [Nat.add_zero] at hmath
  obtain ⟨hslb, hbb, -⟩ := hmath
  subst hb
  have hbbs : buddy_bit g (slot_buddy_blkno g sl found nr) = nr <<< found := by
    rw [hbb, Nat.shiftLeft_eq]
  have hM : buddy_bit g (slot_buddy_blkno g sl found nr) >>> go = nr <<< (found - go) := by
    rw [hbbs]
    exact shiftLeft_shiftRight_le nr found go hgof
  have hval : valid_order g (slot_buddy_blkno g sl found nr) go = true := by
    unfold valid_order
    rw [hbb, Nat.and_pow_two_sub_one_eq_mod]
    have hsp : nr * 2 ^ found = nr * 2 ^ (found - go) * 2 ^ go := by
      rw [Nat.mul_assoc, ← Nat.pow_add]
      congr 2
      omega
    rw [hsp, Nat.mul_mod_left]
    rfl
  have hind2' : ind2 =
      { (split_go g go (clear_buddy_bit g ind bud found nr).1
           (clear_buddy_bit g ind bud found nr).2 (nr <<< 1) (found - go)).1 with
        slots := (split_go g go (clear_buddy_bit g ind bud found nr).1
           (clear_buddy_bit g ind bud found nr).2 (nr <<< 1) (found - go)).1.slots.set sl
          ⟨update_free_orders g (split_go g go (clear_buddy_bit g ind bud found nr).1
             (clear_buddy_bit g ind bud found nr).2 (nr <<< 1) (found - go)).2,
           some (split_go g go (clear_buddy_bit g ind bud found nr).1
             (clear_buddy_bit g ind bud found nr).2 (nr <<< 1) (found - go)).2⟩ } := by
    rw [hind2]
  have hQslots : (split_go g go (clear_buddy_bit g ind bud found nr).1
      (clear_buddy_bit g ind bud found nr).2 (nr <<< 1) (found - go)).1.slots
      = ind.slots := by
    rw [split_go_slots, clear_buddy_bit_slots]
  have hbudA : (ind2.slots.getD (indirect_slot g (slot_buddy_blkno g sl found nr))
      ⟨0, none⟩).bud = some (split_go g go (clear_buddy_bit g ind bud found nr).1
        (clear_buddy_bit g ind bud found nr).2 (nr <<< 1) (found - go)).2 := by
    rw [hslb, hind2']
    dsimp only
    rw [hQslots]
    rw [getD_set_self ind.slots sl _ _ (by omega)]
  have hdi' : s'.dirty_ind = some ind2 := by rw [hs']
  have hfree := buddy_free_eq g s' (slot_buddy_blkno g sl found nr) go ind2
    (split_go g go (clear_buddy_bit g ind bud found nr).1
      (clear_buddy_bit g ind bud found nr).2 (nr <<< 1) (found - go)).2
    hdi' hbudA (by omega) hval
  have hsplit_test : ∀ j n, j ≤ e → n < 2 ^ (e - j) →
      test_buddy_bit g (split_go g go (clear_buddy_bit g ind bud found nr).1
        (clear_buddy_bit g ind bud found nr).2 (nr <<< 1) (found - go)).2 j n =
      (test_buddy_bit g (clear_buddy_bit g ind bud found nr).2 j n ||
        decide (go ≤ j ∧ j < go + (found - go) ∧
          n = (nr <<< (go + (found - go) - j)) ||| 1)) := by
    intro j n hj hn
    exact split_go_test g e hB (found - go) go nr
      (clear_buddy_bit g ind bud found nr).1 (clear_buddy_bit g ind bud found nr).2
      (by omega) (by rw [show go + (found - go) = found by omega]; exact hnr2) j n hj hn
  have hdepth : mergeDepth g (split_go g go (clear_buddy_bit g ind bud found nr).1
      (clear_buddy_bit g ind bud found nr).2 (nr <<< 1) (found - go)).2
      go (nr <<< (found - go)) (g.ORDERS - 1 - go) = found - go := by
    apply mergeDepth_eq g _ (found - go) (g.ORDERS - 1 - go) go (nr <<< (found - go))
      (by omega)
    · intro j hj
      have hMj : (nr <<< (found - go)) >>> j = nr <<< (found - go - j) :=
        shiftLeft_shiftRight_le nr (found - go) j (by omega)
      rw [hMj]
      rw [show nr <<< (found - go - j) ^^^ 1 = (nr <<< (found - go - j)) ||| 1 from
        (or_one_eq_xor_one _ (testBit_zero_shiftLeft nr (found - go - j) (by omega))).symm]
      rw [hsplit_test (go + j) _ (by omega) (by
        have := split_pos_range e go (found - go - 1) j nr (by omega) (by omega) (by
          rw [show go + (found - go - 1) + 1 = found by omega]
          exact hnr2)
        rw [show found - go - 1 + 1 - j = found - go - j by omega] at this
        exact this)]
      rw [decide_eq_true (show go ≤ go + j ∧ go + j < go + (found - go) ∧
          (nr <<< (found - go - j)) ||| 1 =
            (nr <<< (go + (found - go) - (go + j))) ||| 1 from
        ⟨by omega, by omega, by rw [show go + (found - go) - (go + j) = found - go - j
          by omega]⟩)]
      exact Bool.or_true _
    · by_cases htop : found = g.ORDERS - 1
      · left
        omega
      · right
        have hMK : (nr <<< (found - go)) >>> (found - go) = nr :=
          shiftLeft_shiftRight_self nr (found - go)

        rw [hMK]
        have hxr : nr ^^^ 1 < 2 ^ (e - found) := by
          apply Nat.xor_lt_two_pow hnr2
          have h1 : 1 ≤ e - found := by omega
          calc (1 : Nat) < 2 ^ 1 := by norm_num
            _ ≤ 2 ^ (e - found) := Nat.pow_le_pow_right (by norm_num) h1
        rw [show go + (found - go) = found by omega]
        rw [hsplit_test found (nr ^^^ 1) hfe hxr]
        rw [decide_eq_false (by omega : ¬(go ≤ found ∧ found < go + (found - go) ∧
          nr ^^^ 1 = (nr <<< (go + (found - go) - found)) ||| 1))]
        rw [test_clear_buddy_bit]
        rw [hcanon found (by omega) nr hnr2 htest]
        rfl
  have hinv := split_merge_inverse g e hB (found - go) go nr
    (clear_buddy_bit g ind bud found nr).1 (clear_buddy_bit g ind bud found nr).2
    (ind2.slots) (by omega)
    (by rw [show go + (found - go) = found by omega]; exact hnr2)
    hclearP
  have hmerge : merge_go g ind2 (split_go g go (clear_buddy_bit g ind bud found nr).1
      (clear_buddy_bit g ind bud found nr).2 (nr <<< 1) (found - go)).2
      go (nr <<< (found - go)) (g.ORDERS - 1 - go) =
      ({ (clear_buddy_bit g ind bud found nr).1 with slots := ind2.slots },
       (clear_buddy_bit g ind bud found nr).2, found, nr) := by
    rw [merge_go_spec g e hB (g.ORDERS - 1 - go) go (nr <<< (found - go)) ind2 _
      (by omega)
      (by
        rw [Nat.shiftLeft_eq]
        have hsp : (2 : Nat) ^ (e - go) = 2 ^ (e - found) * 2 ^ (found - go) := by
          rw [← Nat.pow_add]
          congr 1
          omega
        have := Nat.mul_lt_mul_of_lt_of_le hnr2
          (le_refl (2 ^ (found - go))) (Nat.pos_pow_of_pos (found - go) (by norm_num))
        rw [hsp]
        exact this)]
    rw [hdepth]
    have hind2eq : ind2 = { (split_go g go (clear_buddy_bit g ind bud found nr).1
        (clear_buddy_bit g ind bud found nr).2 (nr <<< 1) (found - go)).1 with
        slots := ind2.slots } := by
      rw [hind2']
    rw [show mergeFold g ind2 (split_go g go (clear_buddy_bit g ind bud found nr).1
        (clear_buddy_bit g ind bud found nr).2 (nr <<< 1) (found - go)).2
        go (nr <<< (found - go)) (found - go) =
        ({ (clear_buddy_bit g ind bud found nr).1 with slots := ind2.slots },
         (clear_buddy_bit g ind bud found nr).2) from by
      rw [hind2eq]
      exact hinv]
    rw [show go + (found - go) = found by omega]
    rw [shiftLeft_shiftRight_self nr (found - go)]
  have hclearE : clear_buddy_bit g ind bud found nr =
      ({ ind with order_totals := listDecAt ind.order_totals found },
       ⟨clear_bit_le bud.bits (order_nr g found nr), listDecAt bud.order_counts found⟩) := by
    unfold clear_buddy_bit
    rw [htest, if_pos rfl]
  have hselfC : test_buddy_bit g (clear_buddy_bit g ind bud found nr).2 found nr = false := by
    rw [test_clear_buddy_bit, decide_eq_true rfl]
    simp
  have hset : set_buddy_bit g
      { (clear_buddy_bit g ind bud found nr).1 with slots := ind2.slots }
      (clear_buddy_bit g ind bud found nr).2 found nr =
      (⟨ind2.slots, ind.order_totals⟩, bud) := by
    unfold set_buddy_bit
    rw [hselfC, if_neg Bool.false_ne_true]
    rw [hclearE]
    dsimp only
    rw [listDecAt_inc_cancel _ _ htotpos]
    rw [listDecAt_inc_cancel _ _ hcntpos]
    rw [set_clear_bit_le bud.bits _ htest]
  have hres : buddy_free_result g s' ind2
      (split_go g go (clear_buddy_bit g ind bud found nr).1
        (clear_buddy_bit g ind bud found nr).2 (nr <<< 1) (found - go)).2
      sl go (nr <<< (found - go)) = s := by
    unfold buddy_free_result
    rw [hmerge]
    dsimp only
    rw [hset]
    dsimp only
    have hslots2 : ind2.slots.set sl ⟨update_free_orders g bud, some bud⟩ = ind.slots := by
      rw [hind2']
      dsimp only
      rw [hQslots, List.set_set]
      have hslot : (⟨update_free_orders g bud, some bud⟩ : scoutfs_buddy_slot)
          = ind.slots.getD sl ⟨0, none⟩ := by
        have hc := hcache sl hsl
        rw [hSB] at hc
        calc (⟨update_free_orders g bud, some bud⟩ : scoutfs_buddy_slot)
            = ⟨(ind.slots.getD sl ⟨0, none⟩).free_orders,
               (ind.slots.getD sl ⟨0, none⟩).bud⟩ := by
              rw [hc, hbud]
          _ = ind.slots.getD sl ⟨0, none⟩ := rfl
      rw [hslot, set_getD_cancel ind.slots sl ⟨0, none⟩ (by omega)]
    rw [hslots2, hs']
    exact allocstate_eta_dirty_ind s ind hdi
  unfold scoutfs_buddy_free
  rw [slot_blkno_region g sl found nr]
  dsimp only
  rw [hfree, hslb, hM, hres]

theorem shiftRight_lt_pow (n a b : Nat) (h : n < 2 ^ a) : n >>> b < 2 ^ (a - b) := by
  rw [Nat.shiftRight_eq_div_pow]
  apply Nat.div_lt_of_lt_mul
  calc n < 2 ^ a := h
    _ ≤ 2 ^ b * 2 ^ (a - b) := by
        rw [← Nat.pow_add]
        apply Nat.pow_le_pow_right (by norm_num)
        omega

theorem shiftLeft_lt_pow (nr a c : Nat) (hc : c ≤ a) (h : nr < 2 ^ (a - c)) :
    nr <<< c < 2 ^ a := by
  rw [Nat.shiftLeft_eq]
  calc nr * 2 ^ c < 2 ^ (a - c) * 2 ^ c := by
        exact Nat.mul_lt_mul_of_lt_of_le h (le_refl _) (Nat.pos_pow_of_pos c (by norm_num))
    _ = 2 ^ a := by
        rw [← Nat.pow_add]
        congr 1
        omega

theorem or_one_shiftLeft_lt (nr a c : Nat) (h1 : 1 ≤ c) (hc : c ≤ a)
    (h : nr < 2 ^ (a - c)) : (nr <<< c) ||| 1 < 2 ^ a := by
  rw [or_one_eq_add_one _ (testBit_zero_shiftLeft nr c (by omega)), Nat.shiftLeft_eq]
  have hsplit : (2 : Nat) ^ a = 2 ^ (a - c) * 2 ^ c := by
    rw [← Nat.pow_add]
    congr 1
    omega
  have hp1 : 1 < 2 ^ c := Nat.one_lt_two_pow_iff.mpr (by omega)
  have hle : nr * 2 ^ c ≤ (2 ^ (a - c) - 1) * 2 ^ c :=
    Nat.mul_le_mul_right _ (by omega)
  have he : (2 ^ (a - c) - 1) * 2 ^ c = 2 ^ (a - c) * 2 ^ c - 2 ^ c := by
    rw [Nat.sub_mul, Nat.one_mul]
  have hbig : 2 ^ c ≤ 2 ^ (a - c) * 2 ^ c :=
    Nat.le_mul_of_pos_left _ (Nat.pos_pow_of_pos _ (by norm_num))
  rw [hsplit]
  omega

theorem shiftLeft_ne_or_one (a c m : Nat) (hc : 0 < c) : a <<< c ≠ m ||| 1 := by
  intro h
  have h2 := congrArg (fun x => x.testBit 0) h
  dsimp only at h2
  rw [testBit_zero_shiftLeft a c hc, testBit_zero_or_one] at h2
  cases h2

/-- Properties of the post-allocation buddy block and totals: clearing the
found bit and splitting down to the granted order preserves validity, and
the popcounts, counts and totals change by exactly one at each touched
order. -/
theorem split_clear_props (g : Geo) (e : Nat) (hB : g.ORDER0_BITS = 2 ^ e)
    (hOe : g.ORDERS ≤ e + 1) (ind0 : scoutfs_buddy_indirect) (bud : scoutfs_buddy_block)
    (hbv : BudValid g e bud) (go found nr : Nat)
    (hgof : go ≤ found) (hfO : found < g.ORDERS) (hnr2 : nr < 2 ^ (e - found))
    (htest : test_buddy_bit g bud found nr = true)
    (htl : g.ORDERS ≤ ind0.order_totals.length)
    (htpos : 0 < ind0.order_totals.getD found 0)
    (Q1 : scoutfs_buddy_indirect) (Q2 : scoutfs_buddy_block)
    (hQ : split_go g go (clear_buddy_bit g ind0 bud found nr).1
      (clear_buddy_bit g ind0 bud found nr).2 (nr <<< 1) (found - go) = (Q1, Q2)) :
    BudValid g e Q2 ∧
    (∀ j, j ≤ e → popOrder g Q2 j + (if j = found then 1 else 0)
        = popOrder g bud j + (if go ≤ j ∧ j < found then 1 else 0)) ∧
    (∀ j, j < g.ORDERS → Q2.order_counts.getD j 0 + (if j = found then 1 else 0)
        = bud.order_counts.getD j 0 + (if go ≤ j ∧ j < found then 1 else 0)) ∧
    Q2.order_counts.length = bud.order_counts.length ∧
    (∀ j, j < g.ORDERS → Q1.order_totals.getD j 0 + (if j = found then 1 else 0)
        = ind0.order_totals.getD j 0 + (if go ≤ j ∧ j < found then 1 else 0)) ∧
    Q1.order_totals.length = ind0.order_totals.length ∧
    Q1.slots = ind0.slots := by
  have hfe : found ≤ e := by omega
  obtain ⟨hcanon, hdisj, hcdom, hclen⟩ := hbv
  have hcntpos : 0 < bud.order_counts.getD found 0 := by
    have h1 := popOrder_pos g e hB bud found nr hfe hnr2 htest
    have h2 := hcdom found hfO
    omega
  have hQ1 : (split_go g go (clear_buddy_bit g ind0 bud found nr).1
      (clear_buddy_bit g ind0 bud found nr).2 (nr <<< 1) (found - go)).1 = Q1 := by
    rw [hQ]
  have hQ2 : (split_go g go (clear_buddy_bit g ind0 bud found nr).1
      (clear_buddy_bit g ind0 bud found nr).2 (nr <<< 1) (found - go)).2 = Q2 := by
    rw [hQ]
  have hdesc : ∀ jj, jj < found - go →
      test_buddy_bit g bud (go + jj) ((nr <<< (found - go - jj)) ||| 1) = false := by
    intro jj hjj
    by_contra hcon
    rw [Bool.not_eq_false] at hcon
    have hrange : (nr <<< (found - go - jj)) ||| 1 < 2 ^ (e - (go + jj)) :=
      or_one_shiftLeft_lt nr (e - (go + jj)) (found - go - jj) (by omega) (by omega)
        (by rw [show e - (go + jj) - (found - go - jj) = e - found by omega]; exact hnr2)
    have hanc := hdisj (go + jj) (by omega) _ hrange hcon found hfO (by omega)
    rw [show found - (go + jj) = found - go - jj by omega] at hanc
    rw [split_pos_shiftRight nr (found - go - jj) (found - go - jj) (by omega)
      (le_refl _)] at hanc
    rw [show found - go - jj - (found - go - jj) = 0 by omega] at hanc
    have hz : nr <<< 0 = nr := rfl
    rw [hz, htest] at hanc
    cases hanc
  have hclearP : ∀ jj, jj < found - go →
      test_buddy_bit g (clear_buddy_bit g ind0 bud found nr).2 (go + jj)
        ((nr <<< (found - go - jj)) ||| 1) = false := by
    intro jj hjj
    rw [test_clear_buddy_bit, hdesc jj hjj]
    rfl
  have hchar : ∀ j n, j ≤ e → n < 2 ^ (e - j) →
      test_buddy_bit g Q2 j n =
        ((test_buddy_bit g bud j n &&
            !decide (order_nr g j n = order_nr g found nr)) ||
          decide (go ≤ j ∧ j < found ∧ n = (nr <<< (found - j)) ||| 1)) := by
    intro j n hj hn
    rw [← hQ2]
    rw [split_go_test g e hB (found - go) go nr
      (clear_buddy_bit g ind0 bud found nr).1 (clear_buddy_bit g ind0 bud found nr).2
      (by omega) (by rw [show go + (found - go) = found by omega]; exact hnr2) j n hj hn]
    rw [test_clear_buddy_bit]
    rw [show go + (found - go) = found by omega]
  constructor
  · -- BudValid Q2
    refine ⟨?_, ?_, ?_, ?_⟩
    · -- canonical: siblings of set bits are clear
      intro j hj1 n hn ht
      have hjO : j < g.ORDERS := by omega
      have hje : j ≤ e := by omega
      have hxr : n ^^^ 1 < 2 ^ (e - j) := by
        apply Nat.xor_lt_two_pow hn
        have h1 : 1 ≤ e - j := by omega
        calc (1 : Nat) < 2 ^ 1 := by norm_num
          _ ≤ 2 ^ (e - j) := Nat.pow_le_pow_right (by norm_num) h1
      rw [hchar j n hje hn] at ht
      rw [hchar j (n ^^^ 1) hje hxr]
      rw [Bool.or_eq_true] at ht
      rcases ht with htA | htB
      · rw [Bool.and_eq_true] at htA
        obtain ⟨hA1, -⟩ := htA
        have hsib0 : test_buddy_bit g bud j (n ^^^ 1) = false := hcanon j hj1 n hn hA1
        rw [hsib0, Bool.false_and, Bool.false_or]
        apply decide_eq_false
        rintro ⟨hg1, hg2, hg3⟩
        have hne : n = nr <<< (found - j) := by
          have h4 := congrArg (fun x => x ^^^ 1) hg3
          dsimp only at h4
          rw [xor_one_xor_one,
            or_one_xor_one _ (testBit_zero_shiftLeft nr _ (by omega))] at h4
          exact h4
        have h5 := hdisj j hjO n hn hA1 found hfO (by omega)
        rw [hne, shiftLeft_shiftRight_self, htest] at h5
        cases h5
      · obtain ⟨hg1, hg2, hg3⟩ := of_decide_eq_true htB
        have hsib : n ^^^ 1 = nr <<< (found - j) := by
          rw [hg3]
          exact or_one_xor_one _ (testBit_zero_shiftLeft nr _ (by omega))
        rw [hsib]
        have hq : test_buddy_bit g bud j (nr <<< (found - j)) = false := by
          by_contra hcon
          rw [Bool.not_eq_false] at hcon
          have hrange : nr <<< (found - j) < 2 ^ (e - j) :=
            shiftLeft_lt_pow nr (e - j) (found - j) (by omega)
              (by rw [show e - j - (found - j) = e - found by omega]; exact hnr2)
          have h5 := hdisj j hjO _ hrange hcon found hfO (by omega)
          rw [shiftLeft_shiftRight_self, htest] at h5
          cases h5
        rw [hq, Bool.false_and, Bool.false_or]
        apply decide_eq_false
        rintro ⟨hh1, hh2, hh3⟩
        exact shiftLeft_ne_or_one nr (found - j) _ (by omega) hh3
    · -- no overlap: ancestors of set bits are clear
      intro j hjO n hn ht j2 hj2O hlt
      have hje : j ≤ e := by omega
      have hj2e : j2 ≤ e := by omega
      have hnp : n >>> (j2 - j) < 2 ^ (e - j2) := by
        have h4 := shiftRight_lt_pow n (e - j) (j2 - j) hn
        rw [show e - j - (j2 - j) = e - j2 by omega] at h4
        exact h4
      rw [hchar j n hje hn] at ht
      rw [hchar j2 (n >>> (j2 - j)) hj2e hnp]
      rw [Bool.or_eq_true] at ht
      rcases ht with htA | htB
      · rw [Bool.and_eq_true] at htA
        obtain ⟨hA1, -⟩ := htA
        have hanc : test_buddy_bit g bud j2 (n >>> (j2 - j)) = false :=
          hdisj j hjO n hn hA1 j2 hj2O hlt
        rw [hanc, Bool.false_and, Bool.false_or]
        apply decide_eq_false
        rintro ⟨hg1, hg2, hg3⟩
        have hanc2 := hdisj j hjO n hn hA1 found hfO (by omega)
        rw [show found - j = (j2 - j) + (found - j2) by omega,
          Nat.shiftRight_add] at hanc2
        rw [hg3, split_pos_shiftRight nr (found - j2) (found - j2) (by omega)
          (le_refl _)] at hanc2
        rw [show found - j2 - (found - j2) = 0 by omega] at hanc2
        have hz : nr <<< 0 = nr := rfl
        rw [hz, htest] at hanc2
        cases hanc2
      · obtain ⟨hg1, hg2, hg3⟩ := of_decide_eq_true htB
        by_cases hj2f : j2 < found
        · have hshift : n >>> (j2 - j) = nr <<< (found - j2) := by
            rw [hg3, split_pos_shiftRight nr (found - j) (j2 - j) (by omega) (by omega)]
            congr 1
            omega
          rw [hshift]
          have hq : test_buddy_bit g bud j2 (nr <<< (found - j2)) = false := by
            by_contra hcon
            rw [Bool.not_eq_false] at hcon
            have hrange : nr <<< (found - j2) < 2 ^ (e - j2) :=
              shiftLeft_lt_pow nr (e - j2) (found - j2) (by omega)
                (by rw [show e - j2 - (found - j2) = e - found by omega]; exact hnr2)
            have h5 := hdisj j2 hj2O _ hrange hcon found hfO (by omega)
            rw [shiftLeft_shiftRight_self, htest] at h5
            cases h5
          rw [hq, Bool.false_and, Bool.false_or]
          apply decide_eq_false
          rintro ⟨hh1, hh2, hh3⟩
          exact shiftLeft_ne_or_one nr (found - j2) _ (by omega) hh3
        · by_cases hj2eq : j2 = found
          · have hshift : n >>> (j2 - j) = nr := by
              rw [hg3, split_pos_shiftRight nr (found - j) (j2 - j) (by omega)
                (by omega)]
              rw [show found - j - (j2 - j) = 0 by omega]
              rfl
            rw [hshift, hj2eq]
            rw [htest, decide_eq_true rfl]
            rw [decide_eq_false (by omega :
              ¬(go ≤ found ∧ found < found ∧ nr = (nr <<< (found - found)) ||| 1))]
            rfl
          · have hshift : n >>> (j2 - j) = nr >>> (j2 - found) := by
              rw [hg3]
              rw [show j2 - j = (found - j) + (j2 - found) by omega,
                Nat.shiftRight_add]
              rw [split_pos_shiftRight nr (found - j) (found - j) (by omega)
                (le_refl _)]
              rw [show found - j - (found - j) = 0 by omega]
              rfl
            rw [hshift]
            have hanc3 := hdisj found hfO nr hnr2 htest j2 hj2O (by omega)
            rw [hanc3, Bool.false_and, Bool.false_or]
            apply decide_eq_false
            rintro ⟨hh1, hh2, hh3⟩
            omega
    · -- counts dominate popcounts
      intro j hjO
      have hje : j ≤ e := by omega
      obtain ⟨hpopD, hcntD, -, hlenC, -⟩ :=
        split_go_deltas g e hB (found - go) go nr
          (clear_buddy_bit g ind0 bud found nr).1
          (clear_buddy_bit g ind0 bud found nr).2
          (by omega) (by rw [show go + (found - go) = found by omega]; exact hnr2)
          hclearP j hje
      rw [hQ2] at hpopD hcntD
      rw [show go + (found - go) = found by omega] at hpopD hcntD
      have hpopC := popOrder_clear g e hB ind0 bud found nr hfe hnr2 htest j hje
      have hP2c : (clear_buddy_bit g ind0 bud found nr).2.order_counts =
          listDecAt bud.order_counts found := by
        unfold clear_buddy_bit
        rw [htest, if_pos rfl]
      rw [hP2c] at hcntD
      rw [listDecAt_length] at hcntD
      have hcd := hcdom j hjO
      by_cases hjf : j = found
      · rw [if_neg (by omega : ¬(go ≤ j ∧ j < found))] at hpopD
        rw [if_neg (by omega :
          ¬(go ≤ j ∧ j < found ∧ j < bud.order_counts.length))] at hcntD
        rw [if_pos hjf] at hpopC
        have hdec : (listDecAt bud.order_counts found).getD j 0 =
            bud.order_counts.getD j 0 - 1 := by
          rw [hjf]
          exact listDecAt_getD_self bud.order_counts found (by omega)
        rw [hdec] at hcntD
        omega
      · have hdec : (listDecAt bud.order_counts found).getD j 0 =
            bud.order_counts.getD j 0 :=
          listDecAt_getD_ne bud.order_counts found j (fun h => hjf h.symm)
        rw [hdec] at hcntD
        rw [if_neg hjf] at hpopC
        by_cases hjr : go ≤ j ∧ j < found
        · rw [if_pos hjr] at hpopD
          rw [if_pos (by omega : go ≤ j ∧ j < found ∧ j < bud.order_counts.length)]
            at hcntD
          omega
        · rw [if_neg hjr] at hpopD
          rw [if_neg (by
            rintro ⟨hx1, hx2, -⟩
            exact hjr ⟨hx1, hx2⟩)] at hcntD
          omega
    · -- counts length
      obtain ⟨-, -, -, hlenC, -⟩ :=
        split_go_deltas g e hB (found - go) go nr
          (clear_buddy_bit g ind0 bud found nr).1
          (clear_buddy_bit g ind0 bud found nr).2
          (by omega) (by rw [show go + (found - go) = found by omega]; exact hnr2)
          hclearP 0 (by omega)
      rw [hQ2] at hlenC
      have hP2c : (clear_buddy_bit g ind0 bud found nr).2.order_counts =
          listDecAt bud.order_counts found := by
        unfold clear_buddy_bit
        rw [htest, if_pos rfl]
      rw [hP2c, listDecAt_length] at hlenC
      omega
  refine ⟨?_, ?_, ?_, ?_, ?_, ?_⟩
  · -- popcount delta
    intro j hje
    obtain ⟨hpopD, -, -, -, -⟩ :=
      split_go_deltas g e hB (found - go) go nr
        (clear_buddy_bit g ind0 bud found nr).1
        (clear_buddy_bit g ind0 bud found nr).2
        (by omega) (by rw [show go + (found - go) = found by omega]; exact hnr2)
        hclearP j hje
    rw [hQ2] at hpopD
    rw [show go + (found - go) = found by omega] at hpopD
    have hpopC := popOrder_clear g e hB ind0 bud found nr hfe hnr2 htest j hje
    by_cases hjf : j = found
    · rw [if_neg (by omega : ¬(go ≤ j ∧ j < found))] at hpopD
      rw [if_pos hjf] at hpopC ⊢
      rw [if_neg (by omega : ¬(go ≤ j ∧ j < found))]
      omega
    · rw [if_neg hjf] at hpopC ⊢
      by_cases hjr : go ≤ j ∧ j < found
      · rw [if_pos hjr] at hpopD ⊢
        omega
      · rw [if_neg hjr] at hpopD ⊢
        omega
  · -- counts delta
    intro j hjO
    have hje : j ≤ e := by omega
    obtain ⟨-, hcntD, -, -, -⟩ :=
      split_go_deltas g e hB (found - go) go nr
        (clear_buddy_bit g ind0 bud found nr).1
        (clear_buddy_bit g ind0 bud found nr).2
        (by omega) (by rw [show go + (found - go) = found by omega]; exact hnr2)
        hclearP j hje
    rw [hQ2] at hcntD
    rw [show go + (found - go) = found by omega] at hcntD
    have hP2c : (clear_buddy_bit g ind0 bud found nr).2.order_counts =
        listDecAt bud.order_counts found := by
      unfold clear_buddy_bit
      rw [htest, if_pos rfl]
    rw [hP2c, listDecAt_length] at hcntD
    have hcntpos2 : 0 < bud.order_counts.getD found 0 := by
      have h1 := popOrder_pos g e hB bud found nr hfe hnr2 htest
      have h2 := hcdom found hfO
      omega
    by_cases hjf : j = found
    · rw [if_neg (by omega :
        ¬(go ≤ j ∧ j < found ∧ j < bud.order_counts.length))] at hcntD
      have hdec : (listDecAt bud.order_counts found).getD j 0 =
          bud.order_counts.getD j 0 - 1 := by
        rw [hjf]
        exact listDecAt_getD_self bud.order_counts found (by omega)
      rw [hdec] at hcntD
      rw [if_pos hjf, if_neg (by omega : ¬(go ≤ j ∧ j < found))]
      have hcp : 0 < bud.order_counts.getD j 0 := by
        rw [hjf]
        exact hcntpos2
      omega
    · have hdec : (listDecAt bud.order_counts found).getD j 0 =
          bud.order_counts.getD j 0 :=
        listDecAt_getD_ne bud.order_counts found j (fun h => hjf h.symm)
      rw [hdec] at hcntD
      by_cases hjr : go ≤ j ∧ j < found
      · rw [if_pos (by omega : go ≤ j ∧ j < found ∧ j < bud.order_counts.length)]
          at hcntD
        rw [if_neg hjf, if_pos hjr]
        omega
      · rw [if_neg (by
          rintro ⟨hx1, hx2, -⟩
          exact hjr ⟨hx1, hx2⟩)] at hcntD
        rw [if_neg hjf, if_neg hjr]
        omega
  · -- counts length
    obtain ⟨-, -, -, hlenC, -⟩ :=
      split_go_deltas g e hB (found - go) go nr
        (clear_buddy_bit g ind0 bud found nr).1
        (clear_buddy_bit g ind0 bud found nr).2
        (by omega) (by rw [show go + (found - go) = found by omega]; exact hnr2)
        hclearP 0 (by omega)
    rw [hQ2] at hlenC
    have hP2c : (clear_buddy_bit g ind0 bud found nr).2.order_counts =
        listDecAt bud.order_counts found := by
      unfold clear_buddy_bit
      rw [htest, if_pos rfl]
    rw [hP2c, listDecAt_length] at hlenC
    exact hlenC
  · -- totals delta
    intro j hjO
    have hje : j ≤ e := by omega
    obtain ⟨-, -, htotD, -, -⟩ :=
      split_go_deltas g e hB (found - go) go nr
        (clear_buddy_bit g ind0 bud found nr).1
        (clear_buddy_bit g ind0 bud found nr).2
        (by omega) (by rw [show go + (found - go) = found by omega]; exact hnr2)
        hclearP j hje
    rw [hQ1] at htotD
    rw [show go + (found - go) = found by omega] at htotD
    have hP1t : (clear_buddy_bit g ind0 bud found nr).1.order_totals =
        listDecAt ind0.order_totals found := by
      unfold clear_buddy_bit
      rw [htest, if_pos rfl]
    rw [hP1t, listDecAt_length] at htotD
    by_cases hjf : j = found
    · rw [if_neg (by omega :
        ¬(go ≤ j ∧ j < found ∧ j < ind0.order_totals.length))] at htotD
      have hdec : (listDecAt ind0.order_totals found).getD j 0 =
          ind0.order_totals.getD j 0 - 1 := by
        rw [hjf]
        exact listDecAt_getD_self ind0.order_totals found (by omega)
      rw [hdec] at htotD
      rw [if_pos hjf, if_neg (by omega : ¬(go ≤ j ∧ j < found))]
      have htp : 0 < ind0.order_totals.getD j 0 := by
        rw [hjf]
        exact htpos
      omega
    · have hdec : (listDecAt ind0.order_totals found).getD j 0 =
          ind0.order_totals.getD j 0 :=
        listDecAt_getD_ne ind0.order_totals found j (fun h => hjf h.symm)
      rw [hdec] at htotD
      by_cases hjr : go ≤ j ∧ j < found
      · rw [if_pos (by omega :
          go ≤ j ∧ j < found ∧ j < ind0.order_totals.length)] at htotD
        rw [if_neg hjf, if_pos hjr]
        omega
      · rw [if_neg (by
          rintro ⟨hx1, hx2, -⟩
          exact hjr ⟨hx1, hx2⟩)] at htotD
        rw [if_neg hjf, if_neg hjr]
        omega
  · -- totals length
    obtain ⟨-, -, -, -, hlenT⟩ :=
      split_go_deltas g e hB (found - go) go nr
        (clear_buddy_bit g ind0 bud found nr).1
        (clear_buddy_bit g ind0 bud found nr).2
        (by omega) (by rw [show go + (found - go) = found by omega]; exact hnr2)
        hclearP 0 (by omega)
    rw [hQ1] at hlenT
    have hP1t : (clear_buddy_bit g ind0 bud found nr).1.order_totals =
        listDecAt ind0.order_totals found := by
      unfold clear_buddy_bit
      rw [htest, if_pos rfl]
    rw [hP1t, listDecAt_length] at hlenT
    exact hlenT
  · -- slots unchanged
    rw [← hQ1, split_go_slots, clear_buddy_bit_slots]

/-- A successful buddy_alloc only rewrites the dirty indirect block and
preserves its validity. -/
theorem alloc_preserves_valid (g : Geo) (e : Nat)
    (hB : g.ORDER0_BITS = 2 ^ e) (hOe : g.ORDERS ≤ e + 1)
    (s : AllocState) (ind st_ind : scoutfs_buddy_indirect)
    (hdi : s.dirty_ind = some ind) (hsi : s.stable_ind = some st_ind)
    (hV : IndValid g e ind)
    (order b go : Nat) (s' : AllocState)
    (halloc : buddy_alloc g s order = (.ok (b, go), s')) :
    ∃ ind2, s' = { s with dirty_ind := some ind2 } ∧ IndValid g e ind2 := by
  obtain ⟨hslots, hpop, hcache, hvalid, htdom, htlen⟩ := hV
  obtain ⟨hltO, hgoord, hao, -⟩ :=
    buddy_alloc_populated_ok g s order ind st_ind hdi hsi hpop b go s' halloc
  obtain ⟨sl, ind2, hsl, hslotok, hs'⟩ :=
    alloc_order_populated_ok g s go ind st_ind hdi hsi hpop b s' hao
  refine ⟨ind2, hs', ?_⟩
  obtain ⟨bud, hbud⟩ := Option.isSome_iff_exists.mp (hpop sl hsl)
  obtain ⟨-, nr, found, hff, hb, hind2⟩ :=
    alloc_slot_ok_populated g s ind sl (st_ind.slots.getD sl ⟨0, none⟩) go bud hbud
      b ind2 s hslotok
  have hSB : slotBud ind sl = bud := by
    unfold slotBud
    rw [hbud]
    rfl
  obtain ⟨hgof, hfO, htest, -, hnrbound⟩ :=
    find_first_fit_sound g sl bud ((st_ind.slots.getD sl ⟨0, none⟩).bud) go nr found hff
  have hfe : found ≤ e := by omega
  have hnr2 : nr < 2 ^ (e - found) := by
    have hos := order_off_succ g e found hB hfe
    unfold order_nr at hnrbound
    omega
  have hbv : BudValid g e bud := by
    have h := hvalid sl hsl
    rw [hSB] at h
    exact h
  have htpos : 0 < ind.order_totals.getD found 0 := by
    have h1 := popOrder_pos g e hB bud found nr hfe hnr2 htest
    have h2 := sumBelow_le_term (fun x => popOrder g (slotBud ind x) found) g.SLOTS sl hsl
    dsimp only at h2
    rw [hSB] at h2
    have h3 := htdom found hfO
    unfold sumPop at h3
    omega
  obtain ⟨hbv2, hpopE, hcntE, hlenC, htotE, hlenT, hQslots⟩ :=
    split_clear_props g e hB hOe ind bud hbv go found nr hgof hfO hnr2 htest htlen htpos
      (split_go g go (clear_buddy_bit g ind bud found nr).1
        (clear_buddy_bit g ind bud found nr).2 (nr <<< 1) (found - go)).1
      (split_go g go (clear_buddy_bit g ind bud found nr).1
        (clear_buddy_bit g ind bud found nr).2 (nr <<< 1) (found - go)).2
      rfl
  have hind2' : ind2 =
      { (split_go g go (clear_buddy_bit g ind bud found nr).1
           (clear_buddy_bit g ind bud found nr).2 (nr <<< 1) (found - go)).1 with
        slots := (split_go g go (clear_buddy_bit g ind bud found nr).1
           (clear_buddy_bit g ind bud found nr).2 (nr <<< 1) (found - go)).1.slots.set sl
          ⟨update_free_orders g (split_go g go (clear_buddy_bit g ind bud found nr).1
             (clear_buddy_bit g ind bud found nr).2 (nr <<< 1) (found - go)).2,
           some (split_go g go (clear_buddy_bit g ind bud found nr).1
             (clear_buddy_bit g ind bud found nr).2 (nr <<< 1) (found - go)).2⟩ } := by
    rw [hind2]
  have hind2s : ind2.slots = ind.slots.set sl
      ⟨update_free_orders g (split_go g go (clear_buddy_bit g ind bud found nr).1
         (clear_buddy_bit g ind bud found nr).2 (nr <<< 1) (found - go)).2,
       some (split_go g go (clear_buddy_bit g ind bud found nr).1
         (clear_buddy_bit g ind bud found nr).2 (nr <<< 1) (found - go)).2⟩ := by
    rw [hind2']
    dsimp only
    rw [hQslots]
  have hind2t : ind2.order_totals =
      (split_go g go (clear_buddy_bit g ind bud found nr).1
        (clear_buddy_bit g ind bud found nr).2 (nr <<< 1) (found - go)).1.order_totals := by
    rw [hind2']
  have hslL : sl < ind.slots.length := by omega
  have hSB2 : slotBud ind2 sl = (split_go g go (clear_buddy_bit g ind bud found nr).1
      (clear_buddy_bit g ind bud found nr).2 (nr <<< 1) (found - go)).2 := by
    unfold slotBud
    rw [hind2s, getD_set_self ind.slots sl _ _ hslL]
    rfl
  have hSBne : ∀ sl2, sl2 ≠ sl → slotBud ind2 sl2 = slotBud ind sl2 := by
    intro sl2 hne
    unfold slotBud
    rw [hind2s, getD_set_of_ne ind.slots sl sl2 _ _ (fun h => hne h.symm)]
  refine ⟨?_, ?_, ?_, ?_, ?_, ?_⟩
  · rw [hind2s, List.length_set]
    exact hslots
  · intro sl2 hsl2
    by_cases hne : sl2 = sl
    · rw [hne, hind2s, getD_set_self ind.slots sl _ _ hslL]
      rfl
    · rw [hind2s, getD_set_of_ne ind.slots sl sl2 _ _ (fun h => hne h.symm)]
      exact hpop sl2 hsl2
  · intro sl2 hsl2
    by_cases hne : sl2 = sl
    · rw [hne, hSB2, hind2s, getD_set_self ind.slots sl _ _ hslL]
    · rw [hSBne sl2 hne, hind2s,
        getD_set_of_ne ind.slots sl sl2 _ _ (fun h => hne h.symm)]
      exact hcache sl2 hsl2
  · intro sl2 hsl2
    by_cases hne : sl2 = sl
    · rw [hne, hSB2]
      exact hbv2
    · rw [hSBne sl2 hne]
      exact hvalid sl2 hsl2
  · intro j hjO
    have hje : j ≤ e := by omega
    have hdelta := sumBelow_delta (fun x => popOrder g (slotBud ind2 x) j)
      (fun x => popOrder g (slotBud ind x) j) g.SLOTS sl hsl
      (fun x hx hxne => by
        dsimp only
        rw [hSBne x hxne])
    dsimp only at hdelta
    rw [hSB2, hSB] at hdelta
    have hP := hpopE j hje
    have hT := htotE j hjO
    have hD := htdom j hjO
    unfold sumPop at hD ⊢
    rw [hind2t]
    by_cases hjf : j = found
    · rw [if_pos hjf] at hP hT
      rw [if_neg (by omega : ¬(go ≤ j ∧ j < found))] at hP hT
      omega
    · rw [if_neg hjf] at hP hT
      by_cases hjr : go ≤ j ∧ j < found
      · rw [if_pos hjr] at hP hT
        omega
      · rw [if_neg hjr] at hP hT
        omega
  · rw [hind2t, hlenT]
    exact htlen

theorem roundtrip_aux (g : Geo) (e : Nat)
    (hB : g.ORDER0_BITS = 2 ^ e) (hOe : g.ORDERS ≤ e + 1)
    (st_ind : scoutfs_buddy_indirect) :
    ∀ os s ind rs s', s.dirty_ind = some ind → s.stable_ind = some st_ind →
      IndValid g e ind → alloc_seq g s os = some (rs, s') →
      free_list g s' rs.reverse = (.ok (), s) := by
  intro os
  induction os with
  | nil =>
    intro s ind rs s' hdi hsi hV halloc
    unfold alloc_seq at halloc
    injection halloc with h
    injection h with h1 h2
    subst h1
    subst h2
    rfl
  | cons o os ih =>
    intro s ind rs s' hdi hsi hV halloc
    unfold alloc_seq at halloc
    cases hstep : buddy_alloc g s o with
    | mk r1 s1 =>
      rw [hstep] at halloc
      cases r1 with
      | error e1 => cases halloc
      | ok r =>
        obtain ⟨b1, go1⟩ := r
        dsimp only at halloc
        cases hseq : alloc_seq g s1 os with
        | none =>
          rw [hseq] at halloc
          cases halloc
        | some p =>
          obtain ⟨rs1, s2⟩ := p
          rw [hseq] at halloc
          dsimp only [Option.map] at halloc
          injection halloc with h
          injection h with h1 h2
          subst h1
          subst h2
          obtain ⟨ind2, hs1, hV2⟩ := alloc_preserves_valid g e hB hOe s ind st_ind
            hdi hsi hV o b1 go1 s1 hstep
          have hdi2 : s1.dirty_ind = some ind2 := by rw [hs1]
          have hsi2 : s1.stable_ind = some st_ind := by
            rw [hs1]
            exact hsi
          have hrest := ih s1 ind2 rs1 s2 hdi2 hsi2 hV2 hseq
          rw [List.reverse_cons]
          rw [free_list_append g rs1.reverse s2 s1 [(b1, go1)] hrest]
          have hstep2 := alloc_free_step g e hB hOe s ind st_ind hdi hsi hV
            o b1 go1 s1 hstep
          unfold free_list
          rw [hstep2]
          rfl

/-- C7: the alloc/free round-trip, as amended.  The unqualified claim is
false: the counterexample gives two valid-looking initial states — one with
both buddies of a pair individually set (non-canonical), one with a free
bit lying inside a larger free extent (overlapping) — from which a single
buddy_alloc followed by scoutfs_buddy_free of its result changes the
bitmap: the free merges, so the final state is the canonicalized form of
the initial one, not the initial one itself.  The amended statement: from a
valid state (populated slots of accurate cached free_orders whose buddy
blocks are canonical — no two sibling bits set — and non-overlapping — no
free bit under a higher free bit — with per-order counts and totals
dominating the per-order popcounts), any sequence of successful buddy_alloc
calls followed by scoutfs_buddy_free of each returned (blkno, granted
order), freeing in reverse allocation order, succeeds and restores the
allocator state exactly — bitmaps, counts, totals and cached free_orders —
including allocations that split a larger extent. -/
theorem buddy_alloc_free_roundtrip (g : Geo) (e : Nat)
    (hB : g.ORDER0_BITS = 2 ^ e) (hOe : g.ORDERS ≤ e + 1)
    (s : AllocState) (ind st_ind : scoutfs_buddy_indirect)
    (hdi : s.dirty_ind = some ind) (hsi : s.stable_ind = some st_ind)
    (hV : IndValid g e ind)
    (os : List Nat) (rs : List (Nat × Nat)) (s' : AllocState)
    (halloc : alloc_seq g s os = some (rs, s')) :
    free_list g s' rs.reverse = (.ok (), s) :=
  roundtrip_aux g e hB hOe st_ind os s ind rs s' hdi hsi hV halloc

/-- A buddy block with a free order-0 bit inside a free order-1 extent
(overlap): sibling-canonical, but blocks 4-5 are free at order 1 while
block 5 is also free at order 0. -/
def bud8 : scoutfs_buddy_block := ⟨6, [1, 1]⟩

/-- One populated slot holding bud8, with matching cached free_orders. -/
def ind8 : scoutfs_buddy_indirect := ⟨[⟨3, some bud8⟩], [1, 1]⟩

/-- Both views populated with ind8. -/
def s8 : AllocState := ⟨some 1, some 1, some ind8, some ind8⟩

/-- The state after buddy_alloc gWA sR [0, 0]: both halves of the order-1
extent handed out. -/
def sR2 : AllocState :=
  ⟨some 1, some 1, some ⟨[⟨0, some ⟨0, [0, 0]⟩⟩], [0, 0]⟩, some indR⟩

/-- Counterexample to the unqualified round-trip claim, in both failure
modes.  First mode: from the non-canonical state s7 (both order-0 buddies
individually free), buddy_alloc(0) grants block 4 at order 0, and freeing
(4, 0) does not restore the state — the free merges the two buddies into
one order-1 bit, so even the raw bitmap differs from the initial one.
Second mode: the state s8 IS sibling-canonical (no two sibling bits set),
but its order-0 free bit overlaps the order-1 free extent above it;
alloc(0) splits the order-1 extent, the split's set of the sibling bit is
a no-op (the bit was already set), and the free then merges, so the final
state again differs from the initial one.  This forces both the
canonicity and the no-overlap hypotheses of the amended statement. -/
theorem buddy_roundtrip_cex :
    ((buddy_alloc gWA s7 0).1 = .ok (4, 0) ∧
     (scoutfs_buddy_free gWA (buddy_alloc gWA s7 0).2 4 0).1 = .ok () ∧
     (scoutfs_buddy_free gWA (buddy_alloc gWA s7 0).2 4 0).2 ≠ s7 ∧
     Option.map scoutfs_buddy_block.bits
         (dirty_slot_bud gWA (scoutfs_buddy_free gWA (buddy_alloc gWA s7 0).2 4 0).2 0)
       ≠ Option.map scoutfs_buddy_block.bits (dirty_slot_bud gWA s7 0)) ∧
    ((∀ j, j < gWA.ORDERS - 1 → ∀ n, n < 2 ^ (1 - j) →
        test_buddy_bit gWA bud8 j n = true →
        test_buddy_bit gWA bud8 j (n ^^^ 1) = false) ∧
     (buddy_alloc gWA s8 0).1 = .ok (4, 0) ∧
     (scoutfs_buddy_free gWA (buddy_alloc gWA s8 0).2 4 0).1 = .ok () ∧
     (scoutfs_buddy_free gWA (buddy_alloc gWA s8 0).2 4 0).2 ≠ s8) := by
  decide

theorem buddy_alloc_free_roundtrip_witness :
    free_list gWA sR2 ([(4, 0), (5, 0)].reverse) = (.ok (), sR) :=
  buddy_alloc_free_roundtrip gWA 1 (by decide) (by decide) sR indR indR rfl rfl
    (by decide) [0, 0] [(4, 0), (5, 0)] sR2 (by decide)

end Scoutfs
